import Mathlib

/-!
# Tudat: adaptive Runge-Kutta integration core and parameter bookkeeping

A shallow embedding of

* the embedded Runge-Kutta variable step size integrator that
  `unitTestRungeKuttaFehlberg45Integrator.cpp` exercises
  (`RungeKuttaVariableStepSizeIntegratorXd`, `RungeKuttaCoefficients`), and
* `isDynamicalParameterSingleArc` of `estimatableParameter.h`.

Floating point numbers are embedded as rationals and their arithmetic is
exact, except for the quotient of `wrtGravitationalParameterOfCentralBody`,
which is rounded to the nearest `double`.  The derivative callback may be
stateful: it receives and returns an explicit environment of type `ε`, and it
may fail.
-/

namespace tudat
namespace numerical_integrators

/-- Modelled from the spec: a state, a numeric vector of fixed length `n`
(section 3). -/
abbrev State (n : ℕ) := Fin n → ℚ

/-- Modelled from the spec: the coefficient table of an embedded Runge-Kutta
method (`rungeKuttaCoefficients.h` is missing): stage count, stage time
fractions, the lower-triangular stage-coupling matrix (row `i` lists
`a_i0 .. a_i(i-1)`), the two weight vectors and the orders of the two
embedded estimates. -/
structure RungeKuttaCoefficients where
  stages : ℕ
  cCoefficients : List ℚ
  aCoefficients : List (List ℚ)
  bLower : List ℚ
  bHigher : List ℚ
  lowerOrder : ℕ
  higherOrder : ℕ
deriving DecidableEq

namespace RungeKuttaCoefficients

/-- Modelled from the spec: stage time fraction `c_i`. -/
def c (tab : RungeKuttaCoefficients) (i : ℕ) : ℚ := tab.cCoefficients.getD i 0

/-- Modelled from the spec: coupling coefficient `a_ij`. -/
def a (tab : RungeKuttaCoefficients) (i j : ℕ) : ℚ :=
  (tab.aCoefficients.getD i []).getD j 0

/-- Modelled from the spec: sum of row `i` of the coupling matrix. -/
def rowSum (tab : RungeKuttaCoefficients) (i : ℕ) : ℚ := (tab.aCoefficients.getD i []).sum

/-- Modelled from the spec: the consistency invariant of a coefficient table
(section 3): the vectors have one entry per stage, the row sums of the
coupling matrix equal the stage time fractions and the two weight vectors
each sum to 1. -/
def isConsistent (tab : RungeKuttaCoefficients) : Bool :=
  decide (tab.cCoefficients.length = tab.stages) &&
  decide (tab.aCoefficients.length = tab.stages) &&
  decide (tab.bLower.length = tab.stages) &&
  decide (tab.bHigher.length = tab.stages) &&
  (List.range tab.stages).all (fun i => decide (tab.rowSum i = tab.c i)) &&
  decide (tab.bLower.sum = 1) &&
  decide (tab.bHigher.sum = 1)

/-- Modelled from the spec: method identifiers of the coefficient tables. -/
inductive CoefficientSets where
  | rungeKuttaFehlberg45
deriving DecidableEq

/-- Modelled from the spec: the Runge-Kutta-Fehlberg 4(5) tableau
(`rungeKuttaCoefficients.cpp` is missing).  The spec names the method; the
numbers are those of Fehlberg's 4(5) pair as tabulated by Burden and Faires,
the benchmark of the unit test: six stages, the fourth-order weights as the
lower-order estimate and the fifth-order weights as the higher-order one. -/
def rungeKuttaFehlberg45Coefficients : RungeKuttaCoefficients where
  stages := 6
  cCoefficients := [0, 1 / 4, 3 / 8, 12 / 13, 1, 1 / 2]
  aCoefficients :=
    [ [],
      [1 / 4],
      [3 / 32, 9 / 32],
      [1932 / 2197, -7200 / 2197, 7296 / 2197],
      [439 / 216, -8, 3680 / 513, -845 / 4104],
      [-8 / 27, 2, -3544 / 2565, 1859 / 4104, -11 / 40] ]
  bLower := [25 / 216, 0, 1408 / 2565, 2197 / 4104, -1 / 5, 0]
  bHigher := [16 / 135, 0, 6656 / 12825, 28561 / 56430, -9 / 50, 2 / 55]
  lowerOrder := 4
  higherOrder := 5

/-- Modelled from the spec: lookup of a coefficient table by method
identifier (section 4.1).  Construction validates the consistency invariant
and fails with a configuration error when the coefficients are
inconsistent. -/
def get (id : CoefficientSets) : Except String RungeKuttaCoefficients :=
  match id with
  | .rungeKuttaFehlberg45 =>
      if rungeKuttaFehlberg45Coefficients.isConsistent then
        .ok rungeKuttaFehlberg45Coefficients
      else
        .error "configuration error: inconsistent Runge-Kutta coefficients"

end RungeKuttaCoefficients

/-- Modelled from the spec: the caller-supplied state derivative function
`f(t, x)` (section 4.2).  It may be stateful (it threads an environment `ε`)
and it may fail (`none`). -/
abbrev StateDerivativeFunction (n : ℕ) (ε : Type) :=
  ℚ → State n → ε → Option (State n × ε)

/-! ## Stage evaluator (spec section 4.2) -/

/-- Modelled from the spec: weighted combination `Σ_{j<i} w_j · k_j` of the
first `i` stage derivatives. -/
def combineStages {n : ℕ} (w : ℕ → ℚ) (ks : List (State n)) (i : ℕ) : State n :=
  ((List.range i).map (fun j => w j • ks.getD j 0)).sum

/-- Modelled from the spec: point at which stage `i` evaluates the state
derivative:
`(t + c_i·h, x + h·Σ_{j<i} a_ij·k_j)`. -/
def stagePoint {n : ℕ} (tab : RungeKuttaCoefficients) (t : ℚ) (x : State n) (h : ℚ)
    (ks : List (State n)) (i : ℕ) : ℚ × State n :=
  (t + tab.c i * h, x + h • combineStages (tab.a i) ks i)

/-- Modelled from the spec: the stage loop, which evaluates the stages
`i, i+1, ..` (`todo` of them) in this order and appends each stage derivative
to `ks`. -/
def evaluateStagesFrom {n : ℕ} {ε : Type} (tab : RungeKuttaCoefficients)
    (f : StateDerivativeFunction n ε) (t : ℚ) (x : State n) (h : ℚ) :
    ℕ → ℕ → List (State n) → ε → Option (List (State n) × ε)
  | 0, _, ks, e => some (ks, e)
  | todo + 1, i, ks, e =>
      match f (stagePoint tab t x h ks i).1 (stagePoint tab t x h ks i).2 e with
      | none => none
      | some (k, e') => evaluateStagesFrom tab f t x h todo (i + 1) (ks ++ [k]) e'

/-- Modelled from the spec: observable result of one step attempt, the two
embedded estimates and the stage derivatives. -/
structure StageResult (n : ℕ) where
  lowerOrderEstimate : State n
  higherOrderEstimate : State n
  stageDerivatives : List (State n)

/-- Modelled from the spec: the stage evaluator (section 4.2).  It computes
`k_1 .. k_s` in increasing stage order and combines them into
`x_low = x + h·Σ_i b_low_i·k_i` and `x_high = x + h·Σ_i b_high_i·k_i`; a failure
of the derivative function is propagated without a partial result. -/
def evaluateStep {n : ℕ} {ε : Type} (tab : RungeKuttaCoefficients)
    (f : StateDerivativeFunction n ε) (t : ℚ) (x : State n) (h : ℚ) (e : ε) :
    Option (StageResult n × ε) :=
  match evaluateStagesFrom tab f t x h tab.stages 0 [] e with
  | none => none
  | some (ks, e') =>
      some ({ lowerOrderEstimate :=
                x + h • combineStages (fun i => tab.bLower.getD i 0) ks tab.stages
              higherOrderEstimate :=
                x + h • combineStages (fun i => tab.bHigher.getD i 0) ks tab.stages
              stageDerivatives := ks }, e')

/-- Instrumented derivative function: behaves as `f` on the first component
of the environment and appends the point of every call to a log. -/
def recordCalls {n : ℕ} {ε : Type} (f : StateDerivativeFunction n ε) :
    StateDerivativeFunction n (ε × List (ℚ × State n)) :=
  fun t x el =>
    match f t x el.1 with
    | none => none
    | some (k, e') => some (k, (e', el.2 ++ [(t, x)]))

/-- The calls `points` were made to `f` one after the other, starting in the
environment `e` and ending in `e'`, the call at the `i`-th point returning the
`i`-th entry of `values`. -/
def CallsInOrder {n : ℕ} {ε : Type} (f : StateDerivativeFunction n ε) :
    List (ℚ × State n) → List (State n) → ε → ε → Prop
  | [], [], e, e' => e = e'
  | p :: points, k :: values, e, e' =>
      ∃ e1, f p.1 p.2 e = some (k, e1) ∧ CallsInOrder f points values e1 e'
  | _, _, _, _ => False

/-! ## Step-size controller (spec section 4.3) -/

/-- Modelled from the spec: session configuration (section 3). -/
structure Configuration where
  minimumStepSize : ℚ
  maximumStepSize : ℚ
  relativeErrorTolerance : ℚ
  absoluteErrorTolerance : ℚ
  safetyFactor : ℚ
  maximumFactorIncrease : ℚ
  minimumFactorDecrease : ℚ
deriving DecidableEq

/-- Modelled from the spec: the elementary functions the default controller
calls, the square root of the error norm and the power `err ^ (-1 / (p + 1))`
of the step factor.  They are not rational functions, so the controller takes
them as parameters. -/
structure ElementaryFunctions where
  sqrt : ℚ → ℚ
  invRoot : ℚ → ℕ → ℚ

/-- Modelled from the spec: output of a step-size controller, that is
acceptance, the proposed next step size and the relative error measure. -/
structure ControlDecision where
  accepted : Bool
  nextStepSize : ℚ
  relativeError : ℚ
deriving DecidableEq

/-- Modelled from the spec: input/output contract of a step-size controller
(step size, lower-order estimate, higher-order estimate); a caller may supply
its own. -/
abbrev StepSizeController (n : ℕ) := ℚ → State n → State n → ControlDecision

/-- Modelled from the spec: per-component scale
`sc_k = absTol + relTol · max(|x_low_k|, |x_high_k|)`. -/
def errorScale {n : ℕ} (cfg : Configuration) (xLow xHigh : State n) (k : Fin n) : ℚ :=
  cfg.absoluteErrorTolerance + cfg.relativeErrorTolerance * max |xLow k| |xHigh k|

/-- Modelled from the spec: sum over the components of the squared scaled
differences
`((x_high_k − x_low_k) / sc_k)^2`. -/
def sumSquaredScaledDifferences {n : ℕ} (cfg : Configuration) (xLow xHigh : State n) : ℚ :=
  ∑ k : Fin n, ((xHigh k - xLow k) / errorScale cfg xLow xHigh k) ^ 2

/-- Modelled from the spec: normalized error norm
`err = sqrt((1/n) · Σ_k ((x_high_k − x_low_k)/sc_k)^2)`. -/
def errorNorm {n : ℕ} (m : ElementaryFunctions) (cfg : Configuration)
    (xLow xHigh : State n) : ℚ :=
  m.sqrt ((1 / (n : ℚ)) * sumSquaredScaledDifferences cfg xLow xHigh)

/-- Modelled from the spec: clamp of `v` to `[lo, hi]`. -/
def clamp (v lo hi : ℚ) : ℚ := if v < lo then lo else if hi < v then hi else v

/-- Modelled from the spec: step factor
`clamp(safetyFactor · err^(−1/(p+1)), minDecrease, maxIncrease)`;
`err = 0` is a perfect step, for which the maximum growth applies. -/
def stepFactor (m : ElementaryFunctions) (cfg : Configuration) (p : ℕ) (err : ℚ) : ℚ :=
  if err = 0 then cfg.maximumFactorIncrease
  else clamp (cfg.safetyFactor * m.invRoot err p)
    cfg.minimumFactorDecrease cfg.maximumFactorIncrease

/-- Modelled from the spec: clamp of the magnitude of `hNext` to
`[minimumStepSize, maximumStepSize]` with the sign of the attempted step `h`. -/
def clampStepSize (cfg : Configuration) (h hNext : ℚ) : ℚ :=
  if h < 0 then -(clamp |hNext| cfg.minimumStepSize cfg.maximumStepSize)
  else clamp |hNext| cfg.minimumStepSize cfg.maximumStepSize

/-- Modelled from the spec: the default step-size controller (section 4.3;
`rungeKuttaVariableStepSizeIntegrator.h` is missing): error norm, acceptance
iff `err ≤ 1`, and the next step size `h · factor` clamped to the step size
bounds with the sign of `h`. -/
def defaultStepSizeController {n : ℕ} (m : ElementaryFunctions) (cfg : Configuration)
    (p : ℕ) : StepSizeController n :=
  fun h xLow xHigh =>
    { accepted := decide (errorNorm m cfg xLow xHigh ≤ 1)
      nextStepSize := clampStepSize cfg h (h * stepFactor m cfg p (errorNorm m cfg xLow xHigh))
      relativeError := errorNorm m cfg xLow xHigh }

/-! ## Integrator session (spec section 4.4) -/

/-- Modelled from the spec: failures of a step (section 7). -/
inductive IntegrationError where
  | derivativeEvaluationFailure
  | stepSizeExhaustion
deriving DecidableEq

/-- Modelled from the spec: the integration session state (section 3;
`rungeKuttaVariableStepSizeIntegrator.h` is missing): current and previous
(independent variable, state) pairs, the last computed step size, the last
relative error estimate and the rollback-availability flag. -/
structure Session (n : ℕ) where
  currentIndependentVariable : ℚ
  currentState : State n
  previousIndependentVariable : ℚ
  previousState : State n
  stepSize : ℚ
  relativeError : ℚ
  rollbackAvailable : Bool

/-- Modelled from the spec: the immutable part of an integrator, that is
coefficient table, state derivative function, configuration and step-size
controller. -/
structure Integrator (n : ℕ) (ε : Type) where
  coefficients : RungeKuttaCoefficients
  stateDerivativeFunction : StateDerivativeFunction n ε
  configuration : Configuration
  newStepSizeFunction : StepSizeController n

/-- Modelled from the spec: integrator with the default step-size controller
of section 4.3. -/
def Integrator.withDefaultController {n : ℕ} {ε : Type} (m : ElementaryFunctions)
    (tab : RungeKuttaCoefficients) (f : StateDerivativeFunction n ε)
    (cfg : Configuration) : Integrator n ε where
  coefficients := tab
  stateDerivativeFunction := f
  configuration := cfg
  newStepSizeFunction := defaultStepSizeController m cfg tab.lowerOrder

namespace Session

/-- Modelled from the spec: a session is constructed with an initial
(time, state) pair and starts in `Ready`: no step taken, rollback
unavailable. -/
def initial {n : ℕ} (initialTime : ℚ) (initialState : State n) : Session n where
  currentIndependentVariable := initialTime
  currentState := initialState
  previousIndependentVariable := initialTime
  previousState := initialState
  stepSize := 0
  relativeError := 0
  rollbackAvailable := false

/-- Modelled from the spec: read accessor. -/
def getCurrentIndependentVariable {n : ℕ} (s : Session n) : ℚ := s.currentIndependentVariable

/-- Modelled from the spec: read accessor. -/
def getCurrentState {n : ℕ} (s : Session n) : State n := s.currentState

/-- Modelled from the spec: read accessor, the step size recommended for the
next step. -/
def getNextStepSize {n : ℕ} (s : Session n) : ℚ := s.stepSize

/-- Modelled from the spec: `rollbackToPreviousState` (section 4.4).  From
`Stepped` it restores the previous `(t, x)` pair, returns to `Ready` and
answers `true`; from `Ready` it answers `false` and changes nothing. -/
def rollbackToPreviousState {n : ℕ} (s : Session n) : Bool × Session n :=
  if s.rollbackAvailable then
    (true, { s with currentIndependentVariable := s.previousIndependentVariable
                    currentState := s.previousState
                    rollbackAvailable := false })
  else
    (false, s)

end Session

/-- Modelled from the spec: outcome of `performIntegrationStep`, the accepted
step size or an error. -/
inductive StepOutcome where
  | accepted (stepSize : ℚ)
  | failed (error : IntegrationError)
deriving DecidableEq

/-- Modelled from the spec: the session after a step of size `h` from `s` is
accepted with decision `d`: previous pair := current pair, current pair :=
`(t + h, x_low)`. -/
def acceptStep {n : ℕ} (s : Session n) (h : ℚ) (r : StageResult n) (d : ControlDecision) :
    Session n where
  currentIndependentVariable := s.currentIndependentVariable + h
  currentState := r.lowerOrderEstimate
  previousIndependentVariable := s.currentIndependentVariable
  previousState := s.currentState
  stepSize := d.nextStepSize
  relativeError := d.relativeError
  rollbackAvailable := true

/-- Modelled from the spec: retry loop of `performIntegrationStep`.
`atMinimum` tells that the step size `h` is a proposal that was clamped to
the minimum step size; `none` means that the loop did not finish within
`fuel` attempts. -/
def performIntegrationStepLoop {n : ℕ} {ε : Type} (ig : Integrator n ε) (s : Session n) :
    ℕ → ℚ → Bool → ε → Option (StepOutcome × Session n × ε)
  | 0, _, _, _ => none
  | fuel + 1, h, atMinimum, e =>
      match evaluateStep ig.coefficients ig.stateDerivativeFunction
          s.currentIndependentVariable s.currentState h e with
      | none => some (.failed .derivativeEvaluationFailure, s, e)
      | some (r, e') =>
          if (ig.newStepSizeFunction h r.lowerOrderEstimate r.higherOrderEstimate).accepted then
            some (.accepted h,
              acceptStep s h r
                (ig.newStepSizeFunction h r.lowerOrderEstimate r.higherOrderEstimate), e')
          else if atMinimum then
            some (.failed .stepSizeExhaustion, s, e')
          else
            performIntegrationStepLoop ig s fuel
              (ig.newStepSizeFunction h r.lowerOrderEstimate r.higherOrderEstimate).nextStepSize
              (decide (|(ig.newStepSizeFunction h r.lowerOrderEstimate
                r.higherOrderEstimate).nextStepSize| = ig.configuration.minimumStepSize))
              e'

/-- Modelled from the spec: `performIntegrationStep(proposedStepSize)`
(section 4.4).  It runs the stage evaluator and the step-size controller,
retrying with the proposed next step size while the step is rejected.  On
acceptance the session advances and the accepted step size is returned.  A
failure of the derivative function aborts the attempt; a rejected step whose
size was already clamped to the minimum step size is step-size exhaustion.
Both errors leave the session as it was (section 7). -/
def performIntegrationStep {n : ℕ} {ε : Type} (ig : Integrator n ε) (fuel : ℕ)
    (proposedStepSize : ℚ) (s : Session n) (e : ε) :
    Option (StepOutcome × Session n × ε) :=
  performIntegrationStepLoop ig s fuel proposedStepSize false e

/-- Modelled from the spec: step size of the next step of `integrateTo`, the
recommended step size, cut to the remaining interval when it would overshoot
the target. -/
def clampToTarget (h remaining : ℚ) : ℚ := if |remaining| ≤ |h| then remaining else h

/-- Modelled from the spec: `integrateTo(targetTime, initialStepSizeGuess)`
(section 4.4): repeated `performIntegrationStep` with a step size clamped
so that the session does not overshoot, until the current time equals the
target time; returns the final state.  `fuel` bounds the number of steps and
`stepFuel` the attempts of each step. -/
def integrateTo {n : ℕ} {ε : Type} (ig : Integrator n ε) (stepFuel : ℕ) (targetTime : ℚ) :
    ℕ → ℚ → Session n → ε → Option (Except IntegrationError (State n) × Session n × ε)
  | 0, _, _, _ => none
  | fuel + 1, h, s, e =>
      if s.currentIndependentVariable = targetTime then
        some (.ok s.currentState, s, e)
      else
        match performIntegrationStep ig stepFuel
            (clampToTarget h (targetTime - s.currentIndependentVariable)) s e with
        | none => none
        | some (.failed err, s', e') => some (.error err, s', e')
        | some (.accepted _, s', e') => integrateTo ig stepFuel targetTime fuel s'.stepSize s' e'

/-- The sessions in which no step has been accepted since construction or
since the last rollback: a freshly constructed session, a session that has
just been asked to roll back, and what such a session becomes when a step
fails. -/
inductive NoStepAcceptedSince {n : ℕ} : Session n → Prop
  | constructed (initialTime : ℚ) (initialState : State n) :
      NoStepAcceptedSince (Session.initial initialTime initialState)
  | rolledBack (s : Session n) : NoStepAcceptedSince (Session.rollbackToPreviousState s).2
  | stepFailed {ε : Type} (ig : Integrator n ε) (fuel : ℕ) (h : ℚ) (s : Session n) (e : ε)
      (err : IntegrationError) (s' : Session n) (e' : ε) :
      NoStepAcceptedSince s →
      performIntegrationStep ig fuel h s e = some (.failed err, s', e') →
      NoStepAcceptedSince s'

/-! ## Example data

A small integration problem used to exercise the definitions: the
Runge-Kutta-Fehlberg 4(5) table, the settings of the Burden and Faires
benchmark of the unit test and the state derivative `dx/dt = 1`. -/

/-- A rational square root: exact on the squares of rationals, one Newton
step from 1, `(1 + y) / 2`, elsewhere.  Like the real square root it lies on
the same side of 1 as its argument. -/
def exampleSqrt (y : ℚ) : ℚ :=
  if Rat.sqrt y * Rat.sqrt y = y then Rat.sqrt y else (1 + y) / 2

/-- A rational stand-in for the elementary functions: `exampleSqrt` for the
square root and `1 / err` for the inverse root, which like the real
`err ^ (-1 / (p + 1))` is at most 1 for `err ≥ 1`. -/
def exampleFunctions : ElementaryFunctions where
  sqrt := exampleSqrt
  invRoot := fun err _ => 1 / err

/-- Settings of the Burden and Faires benchmark of the unit test. -/
def exampleConfiguration : Configuration where
  minimumStepSize := 1 / 100
  maximumStepSize := 1 / 4
  relativeErrorTolerance := 0
  absoluteErrorTolerance := 1 / 100000
  safetyFactor := 84 / 100
  maximumFactorIncrease := 4
  minimumFactorDecrease := 1 / 10

/-- State derivative `dx/dt = 1` of a one-dimensional state; it never fails
and has no environment. -/
def unitRate : StateDerivativeFunction 1 Unit := fun _ _ e => some (fun _ => 1, e)

/-- The example integrator: Fehlberg 4(5), `dx/dt = 1`, default controller. -/
def exampleIntegrator : Integrator 1 Unit :=
  Integrator.withDefaultController exampleFunctions
    RungeKuttaCoefficients.rungeKuttaFehlberg45Coefficients unitRate exampleConfiguration

/-- Session constructed at `t = 0` with state `x = 1/2`. -/
def exampleSession : Session 1 := Session.initial 0 (fun _ => 1 / 2)

/-- The example session after one accepted step of size `1/4`. -/
def exampleSteppedSession : Session 1 where
  currentIndependentVariable := 1 / 4
  currentState := fun _ => 3 / 4
  previousIndependentVariable := 0
  previousState := fun _ => 1 / 2
  stepSize := 1 / 4
  relativeError := 0
  rollbackAvailable := true

/-- The example session after `integrateTo` the target time `1/2`. -/
def exampleForwardSession : Session 1 where
  currentIndependentVariable := 1 / 2
  currentState := fun _ => 1
  previousIndependentVariable := 1 / 4
  previousState := fun _ => 3 / 4
  stepSize := 1 / 4
  relativeError := 0
  rollbackAvailable := true

/-- The example session after `integrateTo` the target time `-1/4`. -/
def exampleBackwardSession : Session 1 where
  currentIndependentVariable := -1 / 4
  currentState := fun _ => 1 / 4
  previousIndependentVariable := 0
  previousState := fun _ => 1 / 2
  stepSize := -1 / 4
  relativeError := 0
  rollbackAvailable := true

/-- A second example table: the Heun-Euler pair, two stages, the Euler
weights as the lower-order estimate and the Heun weights as the higher-order
one. -/
def exampleHeunEulerTable : RungeKuttaCoefficients where
  stages := 2
  cCoefficients := [0, 1]
  aCoefficients := [[], [1]]
  bLower := [1, 0]
  bHigher := [1 / 2, 1 / 2]
  lowerOrder := 1
  higherOrder := 2

/-- State derivative `dx/dt = t` of a one-dimensional state. -/
def ramp : StateDerivativeFunction 1 Unit := fun t _ e => some (fun _ => t, e)

/-- The second example integrator: Heun-Euler, `dx/dt = t`, default
controller.  Its two estimates differ by `h^2 / 2`, which the absolute
tolerance `1/100000` rejects for every step size of magnitude `1/100` or
more. -/
def exampleRejectingIntegrator : Integrator 1 Unit :=
  Integrator.withDefaultController exampleFunctions exampleHeunEulerTable ramp
    exampleConfiguration

/-- Step sizes of the attempts of `exampleRejectingIntegrator` from the
proposed step size `1/4`: `1/4`, `1/40`, then the minimum `1/100`. -/
def exampleStepSizes : ℕ → ℚ :=
  fun k => if k = 0 then 1 / 4 else if k = 1 then 1 / 40 else 1 / 100

end numerical_integrators
end tudat

namespace tudat
namespace estimatable_parameters

/-! ## Estimatable parameters (`estimatableParameter.h`) -/

/-- List of parameters that can be estimated by the orbit determination code. -/
inductive EstimatebleParametersEnum where
  | arc_wise_initial_body_state
  | initial_body_state
  | initial_rotational_body_state
  | initial_mass_state
  | gravitational_parameter
  | constant_drag_coefficient
  | radiation_pressure_coefficient
  | arc_wise_radiation_pressure_coefficient
  | spherical_harmonics_cosine_coefficient_block
  | spherical_harmonics_sine_coefficient_block
  | constant_rotation_rate
  | rotation_pole_position
  | constant_additive_observation_bias
  | arcwise_constant_additive_observation_bias
  | constant_relative_observation_bias
  | arcwise_constant_relative_observation_bias
  | ppn_parameter_gamma
  | ppn_parameter_beta
  | ground_station_position
  | equivalence_principle_lpi_violation_parameter
  | empirical_acceleration_coefficients
  | arc_wise_empirical_acceleration_coefficients
  | full_degree_tidal_love_number
  | single_degree_variable_tidal_love_number
  | direct_dissipation_tidal_time_lag
  | mean_moment_of_inertia
  | arc_wise_constant_drag_coefficient
  | periodic_spin_variation
  | polar_motion_amplitude
  | core_factor
  | free_core_nutation_rate
  | desaturation_delta_v_values
  | scaled_longitude_libration_amplitude
  | constant_thrust_magnitude_parameter
  | constant_specific_impulse
  | constant_time_drift_observation_bias
  | arc_wise_time_drift_observation_bias
  | constant_time_observation_bias
  | arc_wise_time_observation_bias
  | inverse_tidal_quality_factor
  | yarkovsky_parameter
deriving DecidableEq

/-- Full parameter identifier: parameter type and (body, point on body). -/
abbrev EstimatebleParameterIdentifier := EstimatebleParametersEnum × (String × String)

/-- Base class for a parameter that is to be estimated, reduced to its
identifier (the value of the parameter plays no role here). -/
structure EstimatableParameter where
  parameterName_ : EstimatebleParameterIdentifier

/-- Function to retrieve the type and associated body of the parameter. -/
def EstimatableParameter.getParameterName (p : EstimatableParameter) :
    EstimatebleParameterIdentifier := p.parameterName_

/-- Function to determine if an initial state parameter is a single- or
multi-arc parameter: a `switch` on the parameter type, whose `default` branch
throws a `std::runtime_error`. -/
def isDynamicalParameterSingleArc (parameterToCheck : EstimatableParameter) :
    Except String Bool :=
  match parameterToCheck.getParameterName.1 with
  | .arc_wise_initial_body_state => .ok false
  | .initial_body_state => .ok true
  | .initial_rotational_body_state => .ok true
  | .initial_mass_state => .ok true
  | _ => .error
      "Error when checking single/multi-arc dynamical parameter, parameter not identified"

end estimatable_parameters
end tudat

namespace tudat
namespace orbit_determination
namespace partial_derivatives

/-! ## Spherical harmonic acceleration partial (`sphericalHarmonicAccelerationPartial.h`) -/

/-- An `Eigen::Matrix3d`. -/
abbrev Matrix3d := Fin 3 → Fin 3 → ℚ

/-- An `Eigen::Vector3d`. -/
abbrev Vector3d := Fin 3 → ℚ

/-- A matrix of dynamic size (`Eigen::MatrixXd`, or a block view of one): the
entries `coeff i j` with `i < rows` and `j < cols` are the matrix. -/
structure MatrixXd where
  rows : ℕ
  cols : ℕ
  coeff : ℕ → ℕ → ℚ

/-- The `3x3` block at `(startRow, startColumn)` lies inside the matrix; Eigen
asserts this when the block is taken. -/
def MatrixXd.blockInRange (m : MatrixXd) (startRow startColumn : ℤ) : Prop :=
  0 ≤ startRow ∧ 0 ≤ startColumn ∧ startRow + 3 ≤ m.rows ∧ startColumn + 3 ≤ m.cols

instance (m : MatrixXd) (startRow startColumn : ℤ) :
    Decidable (m.blockInRange startRow startColumn) := by
  unfold MatrixXd.blockInRange
  infer_instance

/-- Entry `(i, j)` lies in the `3x3` block at `(startRow, startColumn)`. -/
def inBlock (startRow startColumn : ℤ) (i j : ℕ) : Prop :=
  startRow ≤ i ∧ (i : ℤ) < startRow + 3 ∧ startColumn ≤ j ∧ (j : ℤ) < startColumn + 3

instance (startRow startColumn : ℤ) (i j : ℕ) : Decidable (inBlock startRow startColumn i j) := by
  unfold inBlock
  infer_instance

/-- Index into a `3x3` matrix of the offset `k` from the start of a block. -/
def blockIndex (k : ℤ) : Fin 3 := ⟨k.toNat % 3, Nat.mod_lt _ (by decide)⟩

/-- The statement `m.block( startRow, startColumn, 3, 3 ) += b`: `none` is the
failure of Eigen's range assertion. -/
def MatrixXd.blockAddAssign (m : MatrixXd) (startRow startColumn : ℤ) (b : Matrix3d) :
    Option MatrixXd :=
  if m.blockInRange startRow startColumn then
    some ⟨m.rows, m.cols, fun i j =>
      if inBlock startRow startColumn i j then
        m.coeff i j + b (blockIndex (i - startRow)) (blockIndex (j - startColumn))
      else m.coeff i j⟩
  else none

/-- The statement `m.block( startRow, startColumn, 3, 3 ) -= b`: `none` is the
failure of Eigen's range assertion. -/
def MatrixXd.blockSubAssign (m : MatrixXd) (startRow startColumn : ℤ) (b : Matrix3d) :
    Option MatrixXd :=
  if m.blockInRange startRow startColumn then
    some ⟨m.rows, m.cols, fun i j =>
      if inBlock startRow startColumn i j then
        m.coeff i j - b (blockIndex (i - startRow)) (blockIndex (j - startColumn))
      else m.coeff i j⟩
  else none

/-! ### Double precision quotient and product

The block updates above add and subtract entries as rationals.  The quotient
of `wrtGravitationalParameterOfCentralBody` is modelled with its rounding. -/

/-- Rounding of a rational to the nearest integer, a tie going to the even
integer. -/
def roundHalfEven (y : ℚ) : ℤ :=
  if y - ⌊y⌋ < 1 / 2 then ⌊y⌋
  else if 1 / 2 < y - ⌊y⌋ then ⌊y⌋ + 1
  else if ⌊y⌋ % 2 = 0 then ⌊y⌋ else ⌊y⌋ + 1

/-- The `double` nearest to a number: IEEE 754 binary64, 53 significant bits,
round to nearest, ties to even.  With `e` the binary exponent of `x`, the
number is scaled to `[2^52, 2^53)`, rounded to an integer and scaled back.
The exponent is not bounded: overflow and subnormal numbers are outside the
model. -/
def roundToDouble (x : ℚ) : ℚ :=
  if x = 0 then 0
  else (roundHalfEven (x * (2 : ℚ) ^ (52 - Int.log 2 |x|)) : ℚ) * (2 : ℚ) ^ (Int.log 2 |x| - 52)

/-- The quotient `a / b` of two `double`s: the exact quotient, rounded. -/
def doubleDivide (a b : ℚ) : ℚ := roundToDouble (a / b)

/-- The product `a * b` of two `double`s: the exact product, rounded. -/
def doubleMultiply (a b : ℚ) : ℚ := roundToDouble (a * b)

/-- The members of `SphericalHarmonicsGravityPartial` that the functions below
read.  The two `boost::function` members are getters of the current
gravitational parameter and the current acceleration. -/
structure SphericalHarmonicsGravityPartial where
  acceleratedBody_ : String
  acceleratingBody_ : String
  gravitationalParameterFunction_ : Unit → ℚ
  accelerationFunction_ : Unit → Vector3d
  currentPartialWrtPosition_ : Matrix3d
  accelerationUsesMutualAttraction_ : Bool

namespace SphericalHarmonicsGravityPartial

/-- Function for calculating the partial of the acceleration w.r.t. the
position of body undergoing acceleration and adding it to the existing
partial block. -/
def wrtPositionOfAcceleratedBody (self : SphericalHarmonicsGravityPartial)
    (partialMatrix : MatrixXd) (addContribution : Bool) (startRow startColumn : ℤ) :
    Option MatrixXd :=
  if addContribution then
    partialMatrix.blockAddAssign startRow startColumn self.currentPartialWrtPosition_
  else
    partialMatrix.blockSubAssign startRow startColumn self.currentPartialWrtPosition_

/-- Function for calculating the partial of the acceleration w.r.t. the
position of body exerting acceleration and adding it to the existing partial
block. -/
def wrtPositionOfAcceleratingBody (self : SphericalHarmonicsGravityPartial)
    (partialMatrix : MatrixXd) (addContribution : Bool) (startRow startColumn : ℤ) :
    Option MatrixXd :=
  if addContribution then
    partialMatrix.blockSubAssign startRow startColumn self.currentPartialWrtPosition_
  else
    partialMatrix.blockAddAssign startRow startColumn self.currentPartialWrtPosition_

/-- Function for determining if the acceleration is dependent on a
non-translational integrated state.  The enumeration
`propagators::IntegratedStateType` is a parameter, with its value
`body_mass_state`. -/
def isStateDerivativeDependentOnIntegratedNonTranslationalState
    {IntegratedStateType : Type} [DecidableEq IntegratedStateType]
    (body_mass_state : IntegratedStateType) (self : SphericalHarmonicsGravityPartial)
    (stateReferencePoint : String × String) (integratedStateType : IntegratedStateType) :
    Except String Bool :=
  if (stateReferencePoint.1 = self.acceleratingBody_ ∨
      (stateReferencePoint.1 = self.acceleratedBody_ ∧
        self.accelerationUsesMutualAttraction_ = true)) ∧
      integratedStateType = body_mass_state then
    .error "Warning, dependency of central gravity on body masses not yet implemented"
  else
    .ok false

/-- The `3x1` matrix that the assignment of a `Vector3d` makes of a
`MatrixXd`. -/
def columnMatrix (v : Vector3d) : MatrixXd where
  rows := 3
  cols := 1
  coeff := fun i j => if h : i < 3 ∧ j < 1 then v ⟨i, h.1⟩ else 0

/-- Function to calculate the partial wrt the gravitational parameter of the
central body.  The result is the outcome together with the output matrix
`partialMatrix` after the call.  The quotient of the `Vector3d` and the
`double` is the `double` quotient of each entry. -/
def wrtGravitationalParameterOfCentralBody (self : SphericalHarmonicsGravityPartial)
    (partialMatrix : MatrixXd) : Except String Unit × MatrixXd :=
  if self.gravitationalParameterFunction_ () ≠ 0 then
    (.ok (), columnMatrix
      (fun i => doubleDivide (self.accelerationFunction_ () i)
        (self.gravitationalParameterFunction_ ())))
  else
    (.error
      "Error cannot compute partial of spherical harminic gravity w.r.t mu for zero value",
      partialMatrix)

end SphericalHarmonicsGravityPartial

/-- An example partial object: vehicle around the Earth, gravitational
parameter 4, acceleration `(8, -4, 2)`, position partial with the entries
`1 .. 9`, no mutual attraction. -/
def examplePartial : SphericalHarmonicsGravityPartial where
  acceleratedBody_ := "Vehicle"
  acceleratingBody_ := "Earth"
  gravitationalParameterFunction_ := fun _ => 4
  accelerationFunction_ := fun _ => ![8, -4, 2]
  currentPartialWrtPosition_ := fun a b => 3 * (a : ℕ) + (b : ℕ) + 1
  accelerationUsesMutualAttraction_ := false

/-- The example partial object with a gravitational parameter of zero. -/
def exampleMasslessPartial : SphericalHarmonicsGravityPartial :=
  { examplePartial with gravitationalParameterFunction_ := fun _ => 0 }

/-- The example partial object with the gravitational parameter 49 and the
acceleration `(1, 0, 0)`; the quotient `1 / 49` is not a `double`. -/
def exampleRoundingPartial : SphericalHarmonicsGravityPartial :=
  { examplePartial with
    gravitationalParameterFunction_ := fun _ => 49
    accelerationFunction_ := fun _ => ![1, 0, 0] }

/-- A `3x6` block of zeros. -/
def exampleZeroBlock : MatrixXd := ⟨3, 6, fun _ _ => 0⟩

/-- The integrated state types of the example. -/
inductive ExampleStateType where
  | translational_state
  | body_mass_state
deriving DecidableEq

end partial_derivatives
end orbit_determination
end tudat

namespace tudat
namespace observation_models

/-! ## Frequency interpolators (`observationFrequencies.h`) -/

/-- The exceptions the code throws: the `std::runtime_error` of a `throw`
statement and the `std::out_of_range` of `std::vector::at`. -/
inductive Exception where
  | runtime_error (what : String)
  | out_of_range
deriving DecidableEq

/-- The call `v.at( i )` of a `std::vector` with an `int` index: a negative
index converts to an index past the end. -/
def vectorAt {α : Type} (v : List α) (i : ℤ) : Except Exception α :=
  if 0 ≤ i then
    match v[i.toNat]? with
    | some x => .ok x
    | none => .error .out_of_range
  else .error .out_of_range

/-- A lookup scheme over a vector of independent variable values
(`interpolators::LookUpScheme`, not among the sources): what the code uses of
it is the index `findNearestLowerNeighbour` returns for a value. -/
structure LookUpScheme where
  findNearestLowerNeighbour : ℚ → ℤ

/-- Modelled from the spec: the nearest-lower-neighbour search over sorted
breakpoints (`interpolators::HuntingAlgorithmLookupScheme` is not among the
sources): the index of the last breakpoint that is not above the value, and
0 for a value below all breakpoints. -/
def nearestLowerNeighbourScheme (breakpoints : List ℚ) : LookUpScheme where
  findNearestLowerNeighbour := fun value =>
    (((breakpoints.takeWhile (fun t => decide (t ≤ value))).length - 1 : ℕ) : ℤ)

/-- Modelled from the spec: `numerical_quadrature::performTrapezoidalQuadrature`
(not among the sources), the trapezoidal rule over the given nodes: the sum of
`(t_{k+1} - t_k) * (f_{k+1} + f_k) / 2`. -/
def performTrapezoidalQuadrature : List ℚ → List ℚ → ℚ
  | t0 :: t1 :: ts, f0 :: f1 :: fs =>
      (t1 - t0) * (f1 + f0) / 2 + performTrapezoidalQuadrature (t1 :: ts) (f1 :: fs)
  | _, _ => 0

/-- The members of `PiecewiseLinearFrequencyInterpolator`. -/
structure PiecewiseLinearFrequencyInterpolator where
  startTimes_ : List ℚ
  endTimes_ : List ℚ
  rampRates_ : List ℚ
  startFrequencies_ : List ℚ
  startTimeLookupScheme_ : LookUpScheme

namespace PiecewiseLinearFrequencyInterpolator

/-- The constructor from four vectors; `huntingAlgorithmLookupScheme` builds
the lookup scheme of the start times. -/
def create (huntingAlgorithmLookupScheme : List ℚ → LookUpScheme)
    (startTimes endTimes rampRates startFrequency : List ℚ) :
    PiecewiseLinearFrequencyInterpolator where
  startTimes_ := startTimes
  endTimes_ := endTimes
  rampRates_ := rampRates
  startFrequencies_ := startFrequency
  startTimeLookupScheme_ := huntingAlgorithmLookupScheme startTimes

/-- The `throw` of `getCurrentFrequency`: building the message reads
`startTimes_.at( 0 )` (the numbers in the message are left out). -/
def throwOutsideRampTable (self : PiecewiseLinearFrequencyInterpolator) :
    Except Exception ℚ :=
  match vectorAt self.startTimes_ 0 with
  | .error e => .error e
  | .ok _ => .error (.runtime_error
      "Error when interpolating ramp reference frequency: look up time is outside the ramp table interval.")

/-- The frequency at `lookupTime`: start frequency of the ramp found by the
lookup scheme plus ramp rate times the time since the start of the ramp.  The
operands of `||` are evaluated left to right. -/
def getCurrentFrequency (self : PiecewiseLinearFrequencyInterpolator) (lookupTime : ℚ) :
    Except Exception ℚ :=
  match vectorAt self.endTimes_
      (self.startTimeLookupScheme_.findNearestLowerNeighbour lookupTime) with
  | .error e => .error e
  | .ok endTime =>
    if lookupTime > endTime then self.throwOutsideRampTable
    else
      match vectorAt self.startTimes_
          (self.startTimeLookupScheme_.findNearestLowerNeighbour lookupTime) with
      | .error e => .error e
      | .ok startTime =>
        if lookupTime < startTime then self.throwOutsideRampTable
        else
          match vectorAt self.startFrequencies_
              (self.startTimeLookupScheme_.findNearestLowerNeighbour lookupTime) with
          | .error e => .error e
          | .ok startFrequency =>
            match vectorAt self.rampRates_
                (self.startTimeLookupScheme_.findNearestLowerNeighbour lookupTime) with
            | .error e => .error e
            | .ok rampRate => .ok (startFrequency + rampRate * (lookupTime - startTime))

/-- The loop `for( i = 1; i < startTimes_.size( ) && startTimes_.at( i ) <
quadratureEndTime; i++ )` of `getFrequencyIntegral`, which appends the start
time and the start frequency of ramp `i` to the quadrature nodes. -/
def collectFullRamps (self : PiecewiseLinearFrequencyInterpolator) (quadratureEndTime : ℚ)
    (i : ℕ) (quadratureTimes quadratureFrequencies : List ℚ) :
    Except Exception (List ℚ × List ℚ) :=
  if h : i < self.startTimes_.length then
    if self.startTimes_[i] < quadratureEndTime then
      match vectorAt self.startFrequencies_ i with
      | .error e => .error e
      | .ok startFrequency =>
        collectFullRamps self quadratureEndTime (i + 1)
          (quadratureTimes ++ [self.startTimes_[i]]) (quadratureFrequencies ++ [startFrequency])
    else .ok (quadratureTimes, quadratureFrequencies)
  else .ok (quadratureTimes, quadratureFrequencies)
termination_by self.startTimes_.length - i

/-- The integral of the frequency from `quadratureStartTime` to
`quadratureEndTime`: trapezoidal quadrature over the nodes the function
collects. -/
def getFrequencyIntegral (self : PiecewiseLinearFrequencyInterpolator)
    (quadratureStartTime quadratureEndTime : ℚ) : Except Exception ℚ :=
  match self.getCurrentFrequency quadratureStartTime with
  | .error e => .error e
  | .ok firstFrequency =>
    match self.collectFullRamps quadratureEndTime 1 [quadratureStartTime] [firstFrequency] with
    | .error e => .error e
    | .ok (quadratureTimes, quadratureFrequencies) =>
      match self.getCurrentFrequency quadratureEndTime with
      | .error e => .error e
      | .ok lastFrequency =>
        .ok (performTrapezoidalQuadrature (quadratureTimes ++ [quadratureEndTime])
          (quadratureFrequencies ++ [lastFrequency]))

end PiecewiseLinearFrequencyInterpolator

/-- The members of `PiecewiseConstantFrequencyInterpolator`. -/
structure PiecewiseConstantFrequencyInterpolator where
  frequencies_ : List ℚ
  referenceTimes_ : List ℚ
  timeIntervalsSize_ : ℚ
  startTimeLookupScheme_ : LookUpScheme

namespace PiecewiseConstantFrequencyInterpolator

/-- The constructor: it throws when the sizes of the frequencies and of the
reference times differ; `huntingAlgorithmLookupScheme` builds the lookup scheme
of the reference times. -/
def create (huntingAlgorithmLookupScheme : List ℚ → LookUpScheme)
    (frequencies referenceTimes : List ℚ) (timeIntervalsSize : ℚ) :
    Except Exception PiecewiseConstantFrequencyInterpolator :=
  if frequencies.length ≠ referenceTimes.length then
    .error (.runtime_error
      "Error when creating piecewise constant frequency interpolator: size of time stamps and frequencies are not consistent.")
  else
    .ok { frequencies_ := frequencies
          referenceTimes_ := referenceTimes
          timeIntervalsSize_ := timeIntervalsSize
          startTimeLookupScheme_ := huntingAlgorithmLookupScheme referenceTimes }

/-- The frequency at `lookupTime`.  Both `referenceTimes_.at` calls of the
left operand of `||` are evaluated before its right operand
`lowerNearestNeighbour == referenceTimes_.size( ) - 1`, which is therefore
compared only for indices where neither side wraps. -/
def getCurrentFrequency (self : PiecewiseConstantFrequencyInterpolator) (lookupTime : ℚ) :
    Except Exception ℚ :=
  match vectorAt self.referenceTimes_
      (self.startTimeLookupScheme_.findNearestLowerNeighbour lookupTime) with
  | .error e => .error e
  | .ok lowerTime =>
    match vectorAt self.referenceTimes_
        (self.startTimeLookupScheme_.findNearestLowerNeighbour lookupTime + 1) with
    | .error e => .error e
    | .ok higherTime =>
      if lookupTime - lowerTime ≤ higherTime - lookupTime ∨
          self.startTimeLookupScheme_.findNearestLowerNeighbour lookupTime
            = (self.referenceTimes_.length : ℤ) - 1 then
        vectorAt self.frequencies_
          (self.startTimeLookupScheme_.findNearestLowerNeighbour lookupTime)
      else
        vectorAt self.frequencies_
          (self.startTimeLookupScheme_.findNearestLowerNeighbour lookupTime + 1)

end PiecewiseConstantFrequencyInterpolator

/-- An example ramp table: four contiguous ramps starting at 0, 10, 20 and 30,
with the rates 1, 3, 0 and 2 and a continuous frequency 0, 10, 40, 40 at the
starts of the ramps. -/
def exampleRampTable : PiecewiseLinearFrequencyInterpolator :=
  PiecewiseLinearFrequencyInterpolator.create nearestLowerNeighbourScheme
    [0, 10, 20, 30] [10, 20, 30, 40] [1, 3, 0, 2] [0, 10, 40, 40]

/-! ## Tabulated media corrections (`tabulatedMediaCorrection.cpp`) -/

/-- The members of `FourierSeriesReferenceCorrection`; `startTime_` and
`endTime_` are those of its base class `TabulatedMediaReferenceCorrection`. -/
structure FourierSeriesReferenceCorrection where
  startTime_ : ℚ
  endTime_ : ℚ
  period_ : ℚ
  cosineCoefficients_ : List ℚ
  sineCoefficients_ : List ℚ
deriving DecidableEq

namespace FourierSeriesReferenceCorrection

/-- The loop `for ( i = 2; i < coefficients.size( ); i = i + 2 )` of the
constructor: it appends `coefficients.at( i )` to the cosine coefficients and
`coefficients.at( i + 1 )` to the sine coefficients. -/
def splitCoefficients (coefficients : List ℚ) (i : ℕ)
    (cosineCoefficients sineCoefficients : List ℚ) : Except Exception (List ℚ × List ℚ) :=
  if i < coefficients.length then
    match vectorAt coefficients (i : ℤ) with
    | .error e => .error e
    | .ok cosineCoefficient =>
      match vectorAt coefficients ((i : ℤ) + 1) with
      | .error e => .error e
      | .ok sineCoefficient =>
        splitCoefficients coefficients (i + 2) (cosineCoefficients ++ [cosineCoefficient])
          (sineCoefficients ++ [sineCoefficient])
  else .ok (cosineCoefficients, sineCoefficients)
termination_by coefficients.length - i

/-- The constructor `FourierSeriesReferenceCorrection( startTime, endTime,
coefficients )` (the size in the message is left out). -/
def create (startTime endTime : ℚ) (coefficients : List ℚ) :
    Except Exception FourierSeriesReferenceCorrection :=
  if coefficients.length < 2 ∨ coefficients.length % 2 ≠ 0 then
    .error (.runtime_error
      "Error when computing Fourier series tabulated media reference correction: size of specified coefficients is invalid.")
  else
    match vectorAt coefficients 0 with
    | .error e => .error e
    | .ok period =>
      match vectorAt coefficients 1 with
      | .error e => .error e
      | .ok firstCosineCoefficient =>
        match splitCoefficients coefficients 2 [firstCosineCoefficient] [0] with
        | .error e => .error e
        | .ok (cosineCoefficients, sineCoefficients) =>
          .ok { startTime_ := startTime
                endTime_ := endTime
                period_ := period
                cosineCoefficients_ := cosineCoefficients
                sineCoefficients_ := sineCoefficients }

end FourierSeriesReferenceCorrection

/-- A correction object as `TabulatedMediaReferenceCorrectionManager` uses it:
the virtual function `computeReferenceCorrection`, which returns a value or
throws. -/
structure TabulatedMediaReferenceCorrection where
  computeReferenceCorrection : ℚ → Except Exception ℚ

/-- The members of `TabulatedMediaReferenceCorrectionManager` that
`computeMediaCorrection` reads and writes. -/
structure TabulatedMediaReferenceCorrectionManager where
  correctionVector_ : List TabulatedMediaReferenceCorrection
  startTimes_ : List ℚ
  isLookupSchemeUpdated_ : Bool
  startTimeLookupScheme_ : LookUpScheme

namespace TabulatedMediaReferenceCorrectionManager

/-- The function `computeMediaCorrection( time )`: the outcome together with
the manager after the call.  `huntingAlgorithmLookupScheme` builds a lookup
scheme of the start times. -/
def computeMediaCorrection (huntingAlgorithmLookupScheme : List ℚ → LookUpScheme)
    (self : TabulatedMediaReferenceCorrectionManager) (time : ℚ) :
    Except Exception ℚ × TabulatedMediaReferenceCorrectionManager :=
  if self.correctionVector_.isEmpty then
    (.error (.runtime_error
      "Error when computing reference media correction: no correction object provided. "),
      self)
  else
    let updated : TabulatedMediaReferenceCorrectionManager :=
      if !self.isLookupSchemeUpdated_ then
        { self with
          startTimeLookupScheme_ := huntingAlgorithmLookupScheme self.startTimes_
          isLookupSchemeUpdated_ := true }
      else self
    match vectorAt updated.correctionVector_
        (updated.startTimeLookupScheme_.findNearestLowerNeighbour time) with
    | .error e => (.error e, updated)
    | .ok correction => (correction.computeReferenceCorrection time, updated)

end TabulatedMediaReferenceCorrectionManager

/-- An example manager with three correction objects, which start at the
times 0, 10 and 20 and return `2 * time`, `time + 1` and `time + 2`; its
lookup scheme has not been built yet. -/
def exampleManager : TabulatedMediaReferenceCorrectionManager where
  correctionVector_ := [⟨fun time => .ok (2 * time)⟩, ⟨fun time => .ok (time + 1)⟩,
    ⟨fun time => .ok (time + 2)⟩]
  startTimes_ := [0, 10, 20]
  isLookupSchemeUpdated_ := false
  startTimeLookupScheme_ := nearestLowerNeighbourScheme []

/-- An example correction object with a validity interval: it returns `value`
for a time from `startTime` to `endTime` and raises an error outside, as a
correction object does whose `isTimeValid( time )` raises. -/
def exampleBoundedCorrection (startTime endTime value : ℚ) :
    TabulatedMediaReferenceCorrection where
  computeReferenceCorrection := fun time =>
    if time < startTime ∨ time > endTime then
      .error (.runtime_error "Error when computing tabulated media reference correction: time is invalid.")
    else .ok value

/-- An example manager with three correction objects, valid from 0 to 10, from
10 to 20 and from 20 to 30. -/
def exampleBoundedManager : TabulatedMediaReferenceCorrectionManager where
  correctionVector_ := [exampleBoundedCorrection 0 10 1, exampleBoundedCorrection 10 20 2,
    exampleBoundedCorrection 20 30 3]
  startTimes_ := [0, 10, 20]
  isLookupSchemeUpdated_ := false
  startTimeLookupScheme_ := nearestLowerNeighbourScheme []

/-- An example manager without correction objects. -/
def exampleEmptyManager : TabulatedMediaReferenceCorrectionManager where
  correctionVector_ := []
  startTimes_ := []
  isLookupSchemeUpdated_ := false
  startTimeLookupScheme_ := nearestLowerNeighbourScheme []

/-! ## Examples and reference definitions for the frequency interpolators -/

/-- The frequencies at a list of times. -/
def PiecewiseLinearFrequencyInterpolator.frequenciesAt
    (self : PiecewiseLinearFrequencyInterpolator) : List ℚ → Except Exception (List ℚ)
  | [] => .ok []
  | time :: times =>
    match self.getCurrentFrequency time with
    | .error e => .error e
    | .ok frequency =>
      match PiecewiseLinearFrequencyInterpolator.frequenciesAt self times with
      | .error e => .error e
      | .ok frequencies => .ok (frequency :: frequencies)

/-- The quadrature nodes as the specification words them: the start time, the
start times of the ramps lying between start and end, and the end time. -/
def PiecewiseLinearFrequencyInterpolator.specifiedQuadratureTimes
    (self : PiecewiseLinearFrequencyInterpolator)
    (quadratureStartTime quadratureEndTime : ℚ) : List ℚ :=
  [quadratureStartTime] ++
    self.startTimes_.filter
      (fun time => decide (quadratureStartTime < time) && decide (time < quadratureEndTime)) ++
    [quadratureEndTime]

/-- The frequency integral as the specification words it: the trapezoidal rule
over `specifiedQuadratureTimes`, which is the integral of a frequency that is
linear between consecutive nodes. -/
def PiecewiseLinearFrequencyInterpolator.specifiedFrequencyIntegral
    (self : PiecewiseLinearFrequencyInterpolator)
    (quadratureStartTime quadratureEndTime : ℚ) : Except Exception ℚ :=
  match self.frequenciesAt (self.specifiedQuadratureTimes quadratureStartTime quadratureEndTime) with
  | .error e => .error e
  | .ok frequencies =>
    .ok (performTrapezoidalQuadrature
      (self.specifiedQuadratureTimes quadratureStartTime quadratureEndTime) frequencies)

/-- The ramp tables the specification speaks of: strictly increasing start
times, contiguous ramps (each ramp ends where the next one starts) and a
frequency that is continuous at the ramp boundaries. -/
def PiecewiseLinearFrequencyInterpolator.IsContinuousRampTable
    (self : PiecewiseLinearFrequencyInterpolator) : Prop :=
  self.startTimes_.Chain' (fun earlier later => earlier < later) ∧
    self.endTimes_.length = self.startTimes_.length ∧
    self.rampRates_.length = self.startTimes_.length ∧
    self.startFrequencies_.length = self.startTimes_.length ∧
    ∀ i : ℕ, i + 1 < self.startTimes_.length →
      self.endTimes_.getD i 0 = self.startTimes_.getD (i + 1) 0 ∧
      self.startFrequencies_.getD i 0
          + self.rampRates_.getD i 0 * (self.endTimes_.getD i 0 - self.startTimes_.getD i 0)
        = self.startFrequencies_.getD (i + 1) 0

/-- An example table of constant frequencies 100, 200 and 300 at the reference
times 0, 10 and 20. -/
def exampleConstantTable : PiecewiseConstantFrequencyInterpolator where
  frequencies_ := [100, 200, 300]
  referenceTimes_ := [0, 10, 20]
  timeIntervalsSize_ := 10
  startTimeLookupScheme_ := nearestLowerNeighbourScheme [0, 10, 20]

/-- An example table with the single frequency 5 at the reference time 0. -/
def exampleSingleEntryTable : PiecewiseConstantFrequencyInterpolator where
  frequencies_ := [5]
  referenceTimes_ := [0]
  timeIntervalsSize_ := 1
  startTimeLookupScheme_ := nearestLowerNeighbourScheme [0]

end observation_models
end tudat

/-! # Theorems -/

namespace tudat
namespace numerical_integrators

/-! ## The retry loop of `performIntegrationStep` -/

/-- An accepted outcome comes from one successful stage evaluation at the
accepted step size, which the controller accepted; the new session is
`acceptStep` of the old one. -/
theorem performIntegrationStepLoop_accepted {n : ℕ} {ε : Type} (ig : Integrator n ε)
    (s : Session n) (fuel : ℕ) (h : ℚ) (b : Bool) (e : ε) (h' : ℚ) (s' : Session n) (e' : ε)
    (hstep : performIntegrationStepLoop ig s fuel h b e = some (.accepted h', s', e')) :
    ∃ e0 r, evaluateStep ig.coefficients ig.stateDerivativeFunction
        s.currentIndependentVariable s.currentState h' e0 = some (r, e') ∧
      (ig.newStepSizeFunction h' r.lowerOrderEstimate r.higherOrderEstimate).accepted = true ∧
      s' = acceptStep s h' r
        (ig.newStepSizeFunction h' r.lowerOrderEstimate r.higherOrderEstimate) := by
  induction fuel generalizing h b e with
  | zero => simp [performIntegrationStepLoop] at hstep
  | succ fuel ih =>
    unfold performIntegrationStepLoop at hstep
    split at hstep
    · simp at hstep
    · rename_i r e1 heval
      split at hstep
      · rename_i hacc
        simp only [Option.some.injEq, Prod.mk.injEq, StepOutcome.accepted.injEq] at hstep
        obtain ⟨rfl, rfl, rfl⟩ := hstep
        exact ⟨e, r, heval, hacc, rfl⟩
      · split at hstep
        · simp at hstep
        · exact ih _ _ _ hstep

/-- A failed outcome hands back the session it started from. -/
theorem performIntegrationStepLoop_failed {n : ℕ} {ε : Type} (ig : Integrator n ε)
    (s : Session n) (fuel : ℕ) (h : ℚ) (b : Bool) (e : ε) (err : IntegrationError)
    (s' : Session n) (e' : ε)
    (hstep : performIntegrationStepLoop ig s fuel h b e = some (.failed err, s', e')) :
    s' = s := by
  induction fuel generalizing h b e with
  | zero => simp [performIntegrationStepLoop] at hstep
  | succ fuel ih =>
    unfold performIntegrationStepLoop at hstep
    split at hstep
    · simp only [Option.some.injEq, Prod.mk.injEq] at hstep
      exact hstep.2.1.symm
    · split at hstep
      · simp at hstep
      · split at hstep
        · simp only [Option.some.injEq, Prod.mk.injEq] at hstep
          exact hstep.2.1.symm
        · exact ih _ _ _ hstep

/-! ## Evaluation of the example -/

/-- The example square root is exact on squares. -/
theorem exampleSqrt_mul_self (q : ℚ) : exampleSqrt (q * q) = |q| := by
  unfold exampleSqrt
  rw [Rat.sqrt_eq, abs_mul_abs_self, if_pos rfl]

/-- The example square root lies on the same side of 1 as its argument. -/
theorem exampleSqrt_le_one_iff (y : ℚ) (_hy : 0 ≤ y) : exampleSqrt y ≤ 1 ↔ y ≤ 1 := by
  unfold exampleSqrt
  split_ifs with hsq
  · have hnn := Rat.sqrt_nonneg y
    constructor
    · intro hle
      rw [← hsq]
      nlinarith
    · intro hle
      rw [← hsq] at hle
      nlinarith
  · constructor <;> intro hle <;> linarith

/-- Error norm of the example settings in dimension 1: the magnitude of the
difference of the estimates over the absolute tolerance `1/100000`. -/
theorem example_errorNorm (xLow xHigh : State 1) :
    errorNorm exampleFunctions exampleConfiguration xLow xHigh
      = |(xHigh 0 - xLow 0) * 100000| := by
  have hsq : (1 / ((1 : ℕ) : ℚ)) * sumSquaredScaledDifferences exampleConfiguration xLow xHigh
      = ((xHigh 0 - xLow 0) * 100000) * ((xHigh 0 - xLow 0) * 100000) := by
    simp only [sumSquaredScaledDifferences, errorScale, exampleConfiguration,
      Finset.univ_unique, Finset.sum_singleton, Fin.default_eq_zero, Fin.isValue]
    norm_num
    ring
  unfold errorNorm
  rw [hsq]
  exact exampleSqrt_mul_self _

theorem combineStages_six {n : ℕ} (w : ℕ → ℚ) (k0 k1 k2 k3 k4 k5 : State n) :
    combineStages w [k0, k1, k2, k3, k4, k5] 6
      = w 0 • k0 + w 1 • k1 + w 2 • k2 + w 3 • k3 + w 4 • k4 + w 5 • k5 := by
  simp [combineStages, List.range_succ, add_assoc]

/-- With `dx/dt = 1` every stage derivative is 1 and both estimates are
`x + h`, whatever the point and the step size. -/
theorem unitRate_evaluateStep (t : ℚ) (x : State 1) (h : ℚ) :
    evaluateStep RungeKuttaCoefficients.rungeKuttaFehlberg45Coefficients unitRate t x h ()
      = some ({ lowerOrderEstimate := fun k => x k + h
                higherOrderEstimate := fun k => x k + h
                stageDerivatives := [1, 1, 1, 1, 1, 1] }, ()) := by
  simp only [evaluateStep, evaluateStagesFrom, unitRate,
    RungeKuttaCoefficients.rungeKuttaFehlberg45Coefficients, List.nil_append, List.cons_append,
    combineStages_six, Option.some.injEq, Prod.mk.injEq, StageResult.mk.injEq, and_true]
  refine ⟨?_, ?_, ?_⟩
  · funext k
    simp
    ring
  · funext k
    simp
    ring
  · rfl

/-- Equal estimates have error 0: the example controller accepts and
proposes `4 h`, clamped. -/
theorem example_decision (h : ℚ) (x : State 1) :
    defaultStepSizeController exampleFunctions exampleConfiguration 4 h x x
      = { accepted := true
          nextStepSize := clampStepSize exampleConfiguration h (h * 4)
          relativeError := 0 } := by
  simp only [defaultStepSizeController, example_errorNorm]
  simp [stepFactor, exampleConfiguration]

/-- One step of the example integrator: any proposed step size is accepted at
the first attempt. -/
theorem example_performIntegrationStep (fuel : ℕ) (h : ℚ) (s : Session 1) :
    performIntegrationStep exampleIntegrator (fuel + 1) h s ()
      = some (.accepted h,
          { currentIndependentVariable := s.currentIndependentVariable + h
            currentState := fun k => s.currentState k + h
            previousIndependentVariable := s.currentIndependentVariable
            previousState := s.currentState
            stepSize := clampStepSize exampleConfiguration h (h * 4)
            relativeError := 0
            rollbackAvailable := true }, ()) := by
  have h1 : evaluateStep exampleIntegrator.coefficients exampleIntegrator.stateDerivativeFunction
      s.currentIndependentVariable s.currentState h () = _ := unitRate_evaluateStep _ _ _
  have h2 : exampleIntegrator.newStepSizeFunction h (fun k => s.currentState k + h)
      (fun k => s.currentState k + h) = _ := example_decision _ _
  unfold performIntegrationStep performIntegrationStepLoop
  rw [h1]
  simp only [h2, if_true]
  rfl

/-- The example: one step of size `1/4` from `(0, 1/2)` is accepted at the
first attempt and leads to `(1/4, 3/4)`. -/
theorem example_step :
    performIntegrationStep exampleIntegrator 1 (1 / 4) exampleSession ()
      = some (.accepted (1 / 4), exampleSteppedSession, ()) := by
  rw [example_performIntegrationStep]
  simp only [exampleSession, Session.initial, exampleSteppedSession, Option.some.injEq,
    Prod.mk.injEq, Session.mk.injEq, true_and, and_true]
  refine ⟨by norm_num, ?_, ?_⟩
  · funext k
    norm_num
  · norm_num [clampStepSize, clamp, exampleConfiguration, abs_of_pos]

/-! ## Rollback (C1, C2) -/

/-- C1 (rollback exactness): if `performIntegrationStep` succeeds from the
current pair `(t, x)`, the rollback that follows returns `true` and afterwards
the current independent variable is `t` and the current state is `x`,
exactly. -/
theorem rollback_restores_pair_before_step {n : ℕ} {ε : Type} (ig : Integrator n ε)
    (fuel : ℕ) (h : ℚ) (s : Session n) (e : ε) (h' : ℚ) (s' : Session n) (e' : ε)
    (hstep : performIntegrationStep ig fuel h s e = some (.accepted h', s', e')) :
    (Session.rollbackToPreviousState s').1 = true ∧
      (Session.rollbackToPreviousState s').2.getCurrentIndependentVariable
        = s.getCurrentIndependentVariable ∧
      (Session.rollbackToPreviousState s').2.getCurrentState = s.getCurrentState := by
  obtain ⟨e0, r, -, -, rfl⟩ := performIntegrationStepLoop_accepted ig s fuel h false e h' s' e' hstep
  simp [Session.rollbackToPreviousState, acceptStep, Session.getCurrentIndependentVariable,
    Session.getCurrentState]

/-- Witness of C1 on the example: the step of size `1/4` from `(0, 1/2)`
succeeds and the rollback restores `(0, 1/2)`. -/
theorem rollback_restores_pair_before_step_witness :
    performIntegrationStep exampleIntegrator 1 (1 / 4) exampleSession ()
        = some (.accepted (1 / 4), exampleSteppedSession, ()) ∧
      ((Session.rollbackToPreviousState exampleSteppedSession).1 = true ∧
        (Session.rollbackToPreviousState exampleSteppedSession).2.getCurrentIndependentVariable
          = exampleSession.getCurrentIndependentVariable ∧
        (Session.rollbackToPreviousState exampleSteppedSession).2.getCurrentState
          = exampleSession.getCurrentState) :=
  ⟨example_step,
    rollback_restores_pair_before_step exampleIntegrator 1 (1 / 4) exampleSession ()
      (1 / 4) exampleSteppedSession () example_step⟩

/-- Rollback is unavailable after `rollbackToPreviousState`. -/
theorem rollbackAvailable_after_rollback {n : ℕ} (s : Session n) :
    (Session.rollbackToPreviousState s).2.rollbackAvailable = false := by
  unfold Session.rollbackToPreviousState
  split
  · rfl
  · rename_i hs
    simpa using hs

/-- Rollback is unavailable in every session in which no step has been
accepted since construction or since the last rollback. -/
theorem rollbackAvailable_of_noStepAcceptedSince {n : ℕ} (s : Session n)
    (hs : NoStepAcceptedSince s) : s.rollbackAvailable = false := by
  induction hs with
  | constructed t0 x0 => rfl
  | rolledBack s => exact rollbackAvailable_after_rollback s
  | stepFailed ig fuel h s e err s' e' _ hstep ih =>
    have := performIntegrationStepLoop_failed ig s fuel h false e err s' e' hstep
    rw [this]
    exact ih

/-- C2 (rollback is one level only and never faults): `rollbackToPreviousState`
is a total function that returns a boolean and a session, so it raises no
error.  Called when no step has been accepted since construction or since
the last rollback (in particular as a second consecutive rollback) it returns
`false` and the session as it was: current time and current state are
unchanged. -/
theorem rollback_unavailable_returns_false {n : ℕ} (s : Session n)
    (hs : NoStepAcceptedSince s) :
    (Session.rollbackToPreviousState s).1 = false ∧
      (Session.rollbackToPreviousState s).2 = s ∧
      (Session.rollbackToPreviousState s).2.getCurrentIndependentVariable
        = s.getCurrentIndependentVariable ∧
      (Session.rollbackToPreviousState s).2.getCurrentState = s.getCurrentState := by
  have hflag := rollbackAvailable_of_noStepAcceptedSince s hs
  have hroll : Session.rollbackToPreviousState s = (false, s) := by
    simp [Session.rollbackToPreviousState, hflag]
  rw [hroll]
  exact ⟨rfl, rfl, rfl, rfl⟩

/-- Witness of C2 on the example: the stepped session is rolled back once,
to `(0, 1/2)`; no step has been accepted since, and the second consecutive
rollback returns `false` and leaves `(0, 1/2)` in place. -/
theorem rollback_unavailable_returns_false_witness :
    NoStepAcceptedSince (Session.rollbackToPreviousState exampleSteppedSession).2 ∧
      (Session.rollbackToPreviousState
        (Session.rollbackToPreviousState exampleSteppedSession).2).1 = false ∧
      (Session.rollbackToPreviousState
        (Session.rollbackToPreviousState exampleSteppedSession).2).2.getCurrentIndependentVariable
          = 0 :=
  ⟨NoStepAcceptedSince.rolledBack exampleSteppedSession,
    (rollback_unavailable_returns_false _
      (NoStepAcceptedSince.rolledBack exampleSteppedSession)).1,
    (rollback_unavailable_returns_false _
      (NoStepAcceptedSince.rolledBack exampleSteppedSession)).2.2.1⟩

/-! ## Accepted step (C4) -/

/-- The two estimates of a stage evaluation are the weighted combinations of
its stage derivatives with the lower-order and the higher-order weights. -/
theorem evaluateStep_estimates {n : ℕ} {ε : Type} (tab : RungeKuttaCoefficients)
    (f : StateDerivativeFunction n ε) (t : ℚ) (x : State n) (h : ℚ) (e : ε)
    (r : StageResult n) (e' : ε) (heval : evaluateStep tab f t x h e = some (r, e')) :
    r.lowerOrderEstimate
        = x + h • combineStages (fun i => tab.bLower.getD i 0) r.stageDerivatives tab.stages ∧
      r.higherOrderEstimate
        = x + h • combineStages (fun i => tab.bHigher.getD i 0) r.stageDerivatives tab.stages := by
  unfold evaluateStep at heval
  split at heval
  · simp at heval
  · simp only [Option.some.injEq, Prod.mk.injEq] at heval
    obtain ⟨rfl, -⟩ := heval
    exact ⟨rfl, rfl⟩

/-- C4 (accepted-step update): when `performIntegrationStep` accepts a step of
size `h'` from the current pair `(t, x)` — `h'` is the returned value — the
stage evaluator ran at `(t, x, h')`, the controller accepted its estimates,
the previous pair has become `(t, x)` and the current pair `(t + h', x_low)`
with `x_low = x + h'·Σ_i b_low_i·k_i` the lower-order estimate.  Hence the
current time has increased by exactly `h'`, strictly so in forward
integration. -/
theorem accepted_step_update {n : ℕ} {ε : Type} (ig : Integrator n ε)
    (fuel : ℕ) (h : ℚ) (s : Session n) (e : ε) (h' : ℚ) (s' : Session n) (e' : ε)
    (hstep : performIntegrationStep ig fuel h s e = some (.accepted h', s', e')) :
    ∃ e0 r,
      evaluateStep ig.coefficients ig.stateDerivativeFunction
        s.currentIndependentVariable s.currentState h' e0 = some (r, e') ∧
      (ig.newStepSizeFunction h' r.lowerOrderEstimate r.higherOrderEstimate).accepted = true ∧
      s'.previousIndependentVariable = s.currentIndependentVariable ∧
      s'.previousState = s.currentState ∧
      s'.currentIndependentVariable = s.currentIndependentVariable + h' ∧
      s'.currentState = r.lowerOrderEstimate ∧
      s'.currentState = s.currentState + h' • combineStages
        (fun i => ig.coefficients.bLower.getD i 0) r.stageDerivatives ig.coefficients.stages ∧
      s'.currentIndependentVariable - s.currentIndependentVariable = h' ∧
      (0 < h' → s.currentIndependentVariable < s'.currentIndependentVariable) := by
  obtain ⟨e0, r, heval, hacc, rfl⟩ :=
    performIntegrationStepLoop_accepted ig s fuel h false e h' s' e' hstep
  refine ⟨e0, r, heval, hacc, rfl, rfl, rfl, rfl, ?_, ?_, ?_⟩
  · exact (evaluateStep_estimates _ _ _ _ _ _ _ _ heval).1
  · simp [acceptStep]
  · intro hpos
    simp only [acceptStep]
    linarith

/-- Witness of C4 on the example: the step of size `1/4` from `(0, 1/2)` is
accepted and C4 describes the session it leads to. -/
theorem accepted_step_update_witness :
    performIntegrationStep exampleIntegrator 1 (1 / 4) exampleSession ()
        = some (.accepted (1 / 4), exampleSteppedSession, ()) ∧
      ∃ e0 r,
        evaluateStep exampleIntegrator.coefficients exampleIntegrator.stateDerivativeFunction
          exampleSession.currentIndependentVariable exampleSession.currentState (1 / 4) e0
            = some (r, ()) ∧
        (exampleIntegrator.newStepSizeFunction (1 / 4) r.lowerOrderEstimate
          r.higherOrderEstimate).accepted = true ∧
        exampleSteppedSession.previousIndependentVariable
          = exampleSession.currentIndependentVariable ∧
        exampleSteppedSession.previousState = exampleSession.currentState ∧
        exampleSteppedSession.currentIndependentVariable
          = exampleSession.currentIndependentVariable + 1 / 4 ∧
        exampleSteppedSession.currentState = r.lowerOrderEstimate ∧
        exampleSteppedSession.currentState = exampleSession.currentState + (1 / 4 : ℚ) •
          combineStages (fun i => exampleIntegrator.coefficients.bLower.getD i 0)
            r.stageDerivatives exampleIntegrator.coefficients.stages ∧
        exampleSteppedSession.currentIndependentVariable
          - exampleSession.currentIndependentVariable = 1 / 4 ∧
        ((0 : ℚ) < 1 / 4 → exampleSession.currentIndependentVariable
          < exampleSteppedSession.currentIndependentVariable) :=
  ⟨example_step,
    accepted_step_update exampleIntegrator 1 (1 / 4) exampleSession () (1 / 4)
      exampleSteppedSession () example_step⟩

/-! ## Default step-size controller (C5, C6) -/

/-- The sum of the squared scaled differences is not negative. -/
theorem sumSquaredScaledDifferences_nonneg {n : ℕ} (cfg : Configuration)
    (xLow xHigh : State n) : 0 ≤ sumSquaredScaledDifferences cfg xLow xHigh :=
  Finset.sum_nonneg (fun _ _ => sq_nonneg _)

/-- C5 (default step-size controller acceptance): for estimates of dimension
`n ≥ 1` with positive scales, and a square root that lies on the same side of
1 as its argument, the step is accepted iff `err ≤ 1`, where `err` is the
square root of the mean over the `n` components of the squared scaled
differences; equivalently, iff the sum of the squared scaled differences is
at most `n`. -/
theorem default_controller_accepts_iff {n : ℕ} (m : ElementaryFunctions)
    (cfg : Configuration) (p : ℕ) (h : ℚ) (xLow xHigh : State n) (hn : 1 ≤ n)
    (_hsc : ∀ k, 0 < errorScale cfg xLow xHigh k)
    (hsqrt : ∀ y : ℚ, 0 ≤ y → (m.sqrt y ≤ 1 ↔ y ≤ 1)) :
    ((defaultStepSizeController m cfg p h xLow xHigh).accepted = true
        ↔ errorNorm m cfg xLow xHigh ≤ 1) ∧
      errorNorm m cfg xLow xHigh
        = m.sqrt ((1 / (n : ℚ)) *
            ∑ k : Fin n, ((xHigh k - xLow k) / errorScale cfg xLow xHigh k) ^ 2) ∧
      ((defaultStepSizeController m cfg p h xLow xHigh).accepted = true
        ↔ ∑ k : Fin n, ((xHigh k - xLow k) / errorScale cfg xLow xHigh k) ^ 2 ≤ (n : ℚ)) := by
  have hnpos : (0 : ℚ) < n := by exact_mod_cast hn
  have hsum := sumSquaredScaledDifferences_nonneg cfg xLow xHigh
  have hacc : (defaultStepSizeController m cfg p h xLow xHigh).accepted = true
      ↔ errorNorm m cfg xLow xHigh ≤ 1 := by
    simp [defaultStepSizeController]
  refine ⟨hacc, rfl, ?_⟩
  rw [hacc, errorNorm, hsqrt _ (mul_nonneg (by positivity) hsum)]
  unfold sumSquaredScaledDifferences
  rw [one_div, inv_mul_le_iff₀ hnpos, mul_one]

/-- Witness of C5 on the example: dimension 1, scale `1/100000`, estimates
`3/4` and `3/4 + 1/200000`: the scaled difference is `1/2` and the step is
accepted. -/
theorem default_controller_accepts_iff_witness :
    (1 ≤ 1) ∧
      (∀ k, 0 < errorScale exampleConfiguration (fun _ => 3 / 4 : State 1)
        (fun _ => 3 / 4 + 1 / 200000) k) ∧
      (∀ y : ℚ, 0 ≤ y → (exampleFunctions.sqrt y ≤ 1 ↔ y ≤ 1)) ∧
      ((defaultStepSizeController exampleFunctions exampleConfiguration 4 (1 / 4)
          (fun _ => 3 / 4 : State 1) (fun _ => 3 / 4 + 1 / 200000)).accepted = true
        ↔ ∑ k : Fin 1, (((fun _ => 3 / 4 + 1 / 200000 : State 1) k - (fun _ => 3 / 4 : State 1) k)
            / errorScale exampleConfiguration (fun _ => 3 / 4 : State 1)
              (fun _ => 3 / 4 + 1 / 200000) k) ^ 2 ≤ ((1 : ℕ) : ℚ)) :=
  have hsc : ∀ k, 0 < errorScale exampleConfiguration (fun _ => 3 / 4 : State 1)
      (fun _ => 3 / 4 + 1 / 200000) k := by
    intro k
    norm_num [errorScale, exampleConfiguration]
  have hsqrt : ∀ y : ℚ, 0 ≤ y → (exampleFunctions.sqrt y ≤ 1 ↔ y ≤ 1) :=
    exampleSqrt_le_one_iff
  ⟨le_refl 1, hsc, hsqrt,
    (default_controller_accepts_iff exampleFunctions exampleConfiguration 4 (1 / 4)
      (fun _ => 3 / 4) (fun _ => 3 / 4 + 1 / 200000) (le_refl 1) hsc hsqrt).2.2⟩

/-- A clamp to `[lo, hi]` with `lo ≤ hi` lies in `[lo, hi]`. -/
theorem clamp_mem (v lo hi : ℚ) (hle : lo ≤ hi) : lo ≤ clamp v lo hi ∧ clamp v lo hi ≤ hi := by
  unfold clamp
  split_ifs with h1 h2
  · exact ⟨le_refl _, hle⟩
  · exact ⟨hle, le_refl _⟩
  · exact ⟨not_lt.mp h1, not_lt.mp h2⟩

/-- The clamped step size has its magnitude within the step size bounds and
the sign of the attempted step. -/
theorem clampStepSize_bounds (cfg : Configuration) (h hNext : ℚ)
    (hmin : 0 < cfg.minimumStepSize) (hle : cfg.minimumStepSize ≤ cfg.maximumStepSize) :
    (0 ≤ h → 0 < clampStepSize cfg h hNext) ∧ (h < 0 → clampStepSize cfg h hNext < 0) ∧
      cfg.minimumStepSize ≤ |clampStepSize cfg h hNext| ∧
      |clampStepSize cfg h hNext| ≤ cfg.maximumStepSize := by
  obtain ⟨hlo, hhi⟩ := clamp_mem |hNext| cfg.minimumStepSize cfg.maximumStepSize hle
  have hpos : 0 < clamp |hNext| cfg.minimumStepSize cfg.maximumStepSize := lt_of_lt_of_le hmin hlo
  unfold clampStepSize
  split_ifs with hneg
  · refine ⟨fun h0 => absurd hneg (not_lt.mpr h0), fun _ => by linarith, ?_, ?_⟩
    · rw [abs_neg, abs_of_pos hpos]
      exact hlo
    · rw [abs_neg, abs_of_pos hpos]
      exact hhi
  · refine ⟨fun _ => hpos, fun h0 => absurd h0 hneg, ?_, ?_⟩
    · rw [abs_of_pos hpos]
      exact hlo
    · rw [abs_of_pos hpos]
      exact hhi

/-- The step size of an accepted outcome is the proposed step size or a next
step size that the controller proposed after a rejection. -/
theorem performIntegrationStepLoop_accepted_size {n : ℕ} {ε : Type} (ig : Integrator n ε)
    (s : Session n) (fuel : ℕ) (h : ℚ) (b : Bool) (e : ε) (h' : ℚ) (s' : Session n) (e' : ε)
    (hstep : performIntegrationStepLoop ig s fuel h b e = some (.accepted h', s', e')) :
    h' = h ∨ ∃ hPrev xLow xHigh, h' = (ig.newStepSizeFunction hPrev xLow xHigh).nextStepSize := by
  induction fuel generalizing h b e with
  | zero => simp [performIntegrationStepLoop] at hstep
  | succ fuel ih =>
    unfold performIntegrationStepLoop at hstep
    split at hstep
    · simp at hstep
    · rename_i r e1 heval
      split at hstep
      · simp only [Option.some.injEq, Prod.mk.injEq, StepOutcome.accepted.injEq] at hstep
        exact Or.inl hstep.1.symm
      · split at hstep
        · simp at hstep
        · rcases ih _ _ _ hstep with heq | hex
          · exact Or.inr ⟨h, r.lowerOrderEstimate, r.higherOrderEstimate, heq⟩
          · exact Or.inr hex

/-- C6, amended (step-size bounds): with `0 < minimumStepSize ≤
maximumStepSize`, for every step attempt with nonzero step `h`, accepted or
rejected, the next step size the default controller proposes has the sign of
`h` and a magnitude in `[minimumStepSize, maximumStepSize]`.  Consequently
every accepted step size is either the step size the caller proposed, which is
used as given, or lies in that range. -/
theorem next_step_size_within_bounds {n : ℕ} {ε : Type} (m : ElementaryFunctions)
    (tab : RungeKuttaCoefficients) (f : StateDerivativeFunction n ε) (cfg : Configuration)
    (hmin : 0 < cfg.minimumStepSize) (hle : cfg.minimumStepSize ≤ cfg.maximumStepSize) :
    (∀ (h : ℚ) (xLow xHigh : State n), h ≠ 0 →
      (0 < h → 0 <
        (defaultStepSizeController m cfg tab.lowerOrder h xLow xHigh).nextStepSize) ∧
      (h < 0 →
        (defaultStepSizeController m cfg tab.lowerOrder h xLow xHigh).nextStepSize < 0) ∧
      cfg.minimumStepSize
        ≤ |(defaultStepSizeController m cfg tab.lowerOrder h xLow xHigh).nextStepSize| ∧
      |(defaultStepSizeController m cfg tab.lowerOrder h xLow xHigh).nextStepSize|
        ≤ cfg.maximumStepSize) ∧
    (∀ (fuel : ℕ) (h : ℚ) (s : Session n) (e : ε) (h' : ℚ) (s' : Session n) (e' : ε),
      performIntegrationStep (Integrator.withDefaultController m tab f cfg) fuel h s e
        = some (.accepted h', s', e') →
      h' = h ∨ (cfg.minimumStepSize ≤ |h'| ∧ |h'| ≤ cfg.maximumStepSize)) := by
  constructor
  · intro h xLow xHigh _
    have hb := clampStepSize_bounds cfg h
      (h * stepFactor m cfg tab.lowerOrder (errorNorm m cfg xLow xHigh)) hmin hle
    exact ⟨fun hpos => hb.1 (le_of_lt hpos), hb.2.1, hb.2.2.1, hb.2.2.2⟩
  · intro fuel h s e h' s' e' hstep
    rcases performIntegrationStepLoop_accepted_size _ s fuel h false e h' s' e' hstep with
      heq | ⟨hPrev, xLow, xHigh, heq⟩
    · exact Or.inl heq
    · right
      have hb := clampStepSize_bounds cfg hPrev
        (hPrev * stepFactor m cfg tab.lowerOrder (errorNorm m cfg xLow xHigh)) hmin hle
      rw [heq]
      exact ⟨hb.2.2.1, hb.2.2.2⟩

/-- Witness of C6, amended, on the example: the bounds `1/100 ≤ 1/4` satisfy
the hypotheses; the step of size `1/4` proposes a next step size in range and
is itself accepted. -/
theorem next_step_size_within_bounds_witness :
    0 < exampleConfiguration.minimumStepSize ∧
      exampleConfiguration.minimumStepSize ≤ exampleConfiguration.maximumStepSize ∧
      exampleConfiguration.minimumStepSize
        ≤ |(defaultStepSizeController exampleFunctions exampleConfiguration
            RungeKuttaCoefficients.rungeKuttaFehlberg45Coefficients.lowerOrder (1 / 4)
            (fun _ => 3 / 4 : State 1) (fun _ => 3 / 4)).nextStepSize| ∧
      ((1 / 4 : ℚ) = 1 / 4 ∨ (exampleConfiguration.minimumStepSize ≤ |(1 / 4 : ℚ)| ∧
        |(1 / 4 : ℚ)| ≤ exampleConfiguration.maximumStepSize)) :=
  have hmin : 0 < exampleConfiguration.minimumStepSize := by
    norm_num [exampleConfiguration]
  have hle : exampleConfiguration.minimumStepSize ≤ exampleConfiguration.maximumStepSize := by
    norm_num [exampleConfiguration]
  ⟨hmin, hle,
    ((next_step_size_within_bounds exampleFunctions
      RungeKuttaCoefficients.rungeKuttaFehlberg45Coefficients unitRate exampleConfiguration
      hmin hle).1 (1 / 4) (fun _ => 3 / 4) (fun _ => 3 / 4) (by norm_num)).2.2.1,
    (next_step_size_within_bounds exampleFunctions
      RungeKuttaCoefficients.rungeKuttaFehlberg45Coefficients unitRate exampleConfiguration
      hmin hle).2 1 (1 / 4) exampleSession () (1 / 4) exampleSteppedSession () example_step⟩

/-- Counterexample to C6 as stated: with bounds `1/100 ≤ 1/4`, the example
integrator accepts the proposed step size `1`, above the maximum, and the
proposed step size `1/200`, below the minimum; `integrateTo` the target time
`1/200` takes that step of size `1/200` to end on the target. -/
theorem accepted_step_size_outside_bounds :
    0 < exampleConfiguration.minimumStepSize ∧
      exampleConfiguration.minimumStepSize ≤ exampleConfiguration.maximumStepSize ∧
      (∃ s', performIntegrationStep exampleIntegrator 1 1 exampleSession ()
          = some (.accepted 1, s', ())) ∧
      ¬ |(1 : ℚ)| ≤ exampleConfiguration.maximumStepSize ∧
      (∃ s', performIntegrationStep exampleIntegrator 1 (1 / 200) exampleSession ()
          = some (.accepted (1 / 200), s', ())) ∧
      ¬ exampleConfiguration.minimumStepSize ≤ |(1 / 200 : ℚ)| ∧
      (∃ x s', integrateTo exampleIntegrator 1 (1 / 200) 2 (1 / 4) exampleSession ()
          = some (.ok x, s', ()) ∧
        s'.currentIndependentVariable - s'.previousIndependentVariable = 1 / 200) := by
  refine ⟨by norm_num [exampleConfiguration], by norm_num [exampleConfiguration],
    ⟨_, example_performIntegrationStep 0 1 exampleSession⟩,
    by norm_num [exampleConfiguration],
    ⟨_, example_performIntegrationStep 0 (1 / 200) exampleSession⟩,
    by norm_num [exampleConfiguration, abs_of_pos], ?_⟩
  have ht1 : clampToTarget (1 / 4) (1 / 200 - 0) = 1 / 200 := by
    norm_num [clampToTarget, abs_of_pos]
  refine ⟨fun _ => 101 / 200,
    { currentIndependentVariable := 1 / 200
      currentState := fun _ => 101 / 200
      previousIndependentVariable := 0
      previousState := fun _ => 1 / 2
      stepSize := 1 / 50
      relativeError := 0
      rollbackAvailable := true }, ?_, by norm_num⟩
  simp only [integrateTo, exampleSession, Session.initial, example_performIntegrationStep, ht1]
  norm_num [clampStepSize, clamp, exampleConfiguration, abs_of_pos]

/-! ## Step-size exhaustion (C7) -/

/-- A chain of rejected attempts that reaches the minimum step size ends the
retry loop with step-size exhaustion and the session it started from. -/
theorem performIntegrationStepLoop_exhaustion {n : ℕ} {ε : Type} (ig : Integrator n ε)
    (s : Session n) (K : ℕ) :
    ∀ (hs : ℕ → ℚ) (es : ℕ → ε) (b : Bool),
      (∀ k, k ≤ K → ∃ r, evaluateStep ig.coefficients ig.stateDerivativeFunction
          s.currentIndependentVariable s.currentState (hs k) (es k) = some (r, es (k + 1)) ∧
        (ig.newStepSizeFunction (hs k) r.lowerOrderEstimate r.higherOrderEstimate).accepted
          = false ∧
        hs (k + 1)
          = (ig.newStepSizeFunction (hs k) r.lowerOrderEstimate
              r.higherOrderEstimate).nextStepSize) →
      (b = true ∨ (1 ≤ K ∧ |hs K| = ig.configuration.minimumStepSize)) →
      ∀ fuel, K < fuel → ∃ e', performIntegrationStepLoop ig s fuel (hs 0) b (es 0)
        = some (.failed .stepSizeExhaustion, s, e') := by
  induction K with
  | zero =>
    intro hs es b hrej hb fuel hfuel
    obtain ⟨fuel, rfl⟩ : ∃ f, fuel = f + 1 := ⟨fuel - 1, by omega⟩
    obtain ⟨r, heval, hacc, -⟩ := hrej 0 (le_refl 0)
    have hb' : b = true := by
      rcases hb with hb | ⟨h1, -⟩
      · exact hb
      · omega
    unfold performIntegrationStepLoop
    rw [heval]
    simp [hacc, hb']
  | succ K ih =>
    intro hs es b hrej hb fuel hfuel
    obtain ⟨fuel, rfl⟩ : ∃ f, fuel = f + 1 := ⟨fuel - 1, by omega⟩
    obtain ⟨r, heval, hacc, hnext⟩ := hrej 0 (Nat.zero_le _)
    unfold performIntegrationStepLoop
    rw [heval]
    cases b with
    | true => simp [hacc]
    | false =>
      have hmin : |hs (K + 1)| = ig.configuration.minimumStepSize := by
        rcases hb with hb | ⟨-, hm⟩
        · simp at hb
        · exact hm
      have hrec := ih (fun k => hs (k + 1)) (fun k => es (k + 1))
        (decide (|hs 1| = ig.configuration.minimumStepSize))
        (fun k hk => hrej (k + 1) (by omega))
        (by
          rcases Nat.eq_zero_or_pos K with hK | hK
          · left
            subst hK
            simpa using hmin
          · right
            exact ⟨hK, hmin⟩)
        fuel (by omega)
      simp only [hacc, Bool.false_eq_true, if_false]
      rw [← hnext]
      exact hrec

/-- C7 (step-size exhaustion is atomic): if the attempts of
`performIntegrationStep`, with step sizes `hs 0, hs 1, .., hs K`, are all
rejected, each next step size being the one the controller proposed, and
the proposal `hs K` has been clamped to the minimum step size, then the
operation ends, within `K + 1` attempts, with the step-size exhaustion error
and hands back the very session it started from: current time, current
state, previous time, previous state and rollback availability are what they
were before the call. -/
theorem step_size_exhaustion_is_atomic {n : ℕ} {ε : Type} (ig : Integrator n ε)
    (s : Session n) (hs : ℕ → ℚ) (es : ℕ → ε) (K : ℕ)
    (hrej : ∀ k, k ≤ K → ∃ r, evaluateStep ig.coefficients ig.stateDerivativeFunction
        s.currentIndependentVariable s.currentState (hs k) (es k) = some (r, es (k + 1)) ∧
      (ig.newStepSizeFunction (hs k) r.lowerOrderEstimate r.higherOrderEstimate).accepted
        = false ∧
      hs (k + 1)
        = (ig.newStepSizeFunction (hs k) r.lowerOrderEstimate
            r.higherOrderEstimate).nextStepSize)
    (hK : 1 ≤ K) (hmin : |hs K| = ig.configuration.minimumStepSize) :
    ∀ fuel, K < fuel → ∃ e' s',
      performIntegrationStep ig fuel (hs 0) s (es 0)
        = some (.failed .stepSizeExhaustion, s', e') ∧
      s'.currentIndependentVariable = s.currentIndependentVariable ∧
      s'.currentState = s.currentState ∧
      s'.previousIndependentVariable = s.previousIndependentVariable ∧
      s'.previousState = s.previousState ∧
      s'.rollbackAvailable = s.rollbackAvailable := by
  intro fuel hfuel
  obtain ⟨e', he'⟩ := performIntegrationStepLoop_exhaustion ig s K hs es false hrej
    (Or.inr ⟨hK, hmin⟩) fuel hfuel
  exact ⟨e', s, he', rfl, rfl, rfl, rfl, rfl⟩

/-- With Heun-Euler and `dx/dt = t`, from `(0, 1/2)`: the stage derivatives
are `0` and `h`, the lower-order estimate is `1/2` and the higher-order one
`1/2 + h^2/2`. -/
theorem ramp_evaluateStep (h : ℚ) :
    evaluateStep exampleHeunEulerTable ramp 0 (fun _ => 1 / 2) h ()
      = some ({ lowerOrderEstimate := fun _ => 1 / 2
                higherOrderEstimate := fun _ => 1 / 2 + h ^ 2 / 2
                stageDerivatives := [fun _ => 0, fun _ => h] }, ()) := by
  simp only [evaluateStep, evaluateStagesFrom, ramp, exampleHeunEulerTable, stagePoint,
    RungeKuttaCoefficients.c, List.nil_append, List.cons_append, combineStages,
    Option.some.injEq, Prod.mk.injEq, StageResult.mk.injEq, and_true]
  refine ⟨?_, ?_, ?_⟩
  · funext k
    simp [List.range_succ]
  · funext k
    simp [List.range_succ]
    ring
  · simp

/-- The example controller rejects the estimates `1/2` and `1/2 + h^2/2` for
the step sizes `1/4`, `1/40` and `1/100`, proposing `1/40`, `1/100` and
`1/100`. -/
theorem example_rejections :
    defaultStepSizeController exampleFunctions exampleConfiguration 1 (1 / 4)
        (fun _ => 1 / 2 : State 1) (fun _ => 1 / 2 + (1 / 4) ^ 2 / 2)
      = { accepted := false, nextStepSize := 1 / 40, relativeError := 3125 } ∧
    defaultStepSizeController exampleFunctions exampleConfiguration 1 (1 / 40)
        (fun _ => 1 / 2 : State 1) (fun _ => 1 / 2 + (1 / 40) ^ 2 / 2)
      = { accepted := false, nextStepSize := 1 / 100, relativeError := 125 / 4 } ∧
    defaultStepSizeController exampleFunctions exampleConfiguration 1 (1 / 100)
        (fun _ => 1 / 2 : State 1) (fun _ => 1 / 2 + (1 / 100) ^ 2 / 2)
      = { accepted := false, nextStepSize := 1 / 100, relativeError := 5 } := by
  refine ⟨?_, ?_, ?_⟩ <;>
  · simp only [defaultStepSizeController, example_errorNorm]
    norm_num [exampleFunctions, stepFactor, clampStepSize, clamp, exampleConfiguration,
      abs_of_pos]

/-- The attempts of the second example from the proposed step size `1/4`:
all three are rejected, and each next step size is the proposed one. -/
theorem example_rejection_chain :
    ∀ k, k ≤ 2 → ∃ r, evaluateStep exampleRejectingIntegrator.coefficients
        exampleRejectingIntegrator.stateDerivativeFunction
        exampleSession.currentIndependentVariable exampleSession.currentState
        (exampleStepSizes k) ((fun _ => ()) k) = some (r, (fun _ => ()) (k + 1)) ∧
      (exampleRejectingIntegrator.newStepSizeFunction (exampleStepSizes k)
        r.lowerOrderEstimate r.higherOrderEstimate).accepted = false ∧
      exampleStepSizes (k + 1)
        = (exampleRejectingIntegrator.newStepSizeFunction (exampleStepSizes k)
            r.lowerOrderEstimate r.higherOrderEstimate).nextStepSize := by
  intro k hk
  refine ⟨_, ramp_evaluateStep (exampleStepSizes k), ?_⟩
  have hctrl : exampleRejectingIntegrator.newStepSizeFunction
      = defaultStepSizeController exampleFunctions exampleConfiguration 1 := rfl
  obtain ⟨h0, h1, h2⟩ := example_rejections
  rw [hctrl]
  interval_cases k
  · have : exampleStepSizes 0 = 1 / 4 := rfl
    rw [this, h0]
    exact ⟨rfl, rfl⟩
  · have : exampleStepSizes 1 = 1 / 40 := rfl
    rw [this, h1]
    exact ⟨rfl, rfl⟩
  · have : exampleStepSizes 2 = 1 / 100 := rfl
    rw [this, h2]
    exact ⟨rfl, rfl⟩

/-- Witness of C7 on the second example: from the proposed step size `1/4`
the attempts `1/4`, `1/40` and `1/100` are rejected, `1/100` is the minimum
step size, and `performIntegrationStep` ends with step-size exhaustion and
the session unchanged. -/
theorem step_size_exhaustion_is_atomic_witness :
    (1 ≤ 2 ∧ |exampleStepSizes 2| = exampleRejectingIntegrator.configuration.minimumStepSize) ∧
      ∃ e' s',
        performIntegrationStep exampleRejectingIntegrator 3 (exampleStepSizes 0) exampleSession ()
          = some (.failed .stepSizeExhaustion, s', e') ∧
        s'.currentIndependentVariable = exampleSession.currentIndependentVariable ∧
        s'.currentState = exampleSession.currentState ∧
        s'.previousIndependentVariable = exampleSession.previousIndependentVariable ∧
        s'.previousState = exampleSession.previousState ∧
        s'.rollbackAvailable = exampleSession.rollbackAvailable :=
  have hmin : |exampleStepSizes 2| = exampleRejectingIntegrator.configuration.minimumStepSize := by
    norm_num [exampleStepSizes, exampleRejectingIntegrator, Integrator.withDefaultController,
      exampleConfiguration, abs_of_pos]
  ⟨⟨by norm_num, hmin⟩,
    step_size_exhaustion_is_atomic exampleRejectingIntegrator exampleSession exampleStepSizes
      (fun _ => ()) 2 example_rejection_chain (by norm_num) hmin 3 (by norm_num)⟩

/-! ## Stage evaluation order (C8) -/

/-- The combination of the first `i` stage derivatives does not read the
entries from index `i` on. -/
theorem combineStages_append {n : ℕ} (w : ℕ → ℚ) (ks more : List (State n)) (i : ℕ)
    (hi : i ≤ ks.length) : combineStages w (ks ++ more) i = combineStages w ks i := by
  unfold combineStages
  congr 1
  apply List.map_congr_left
  intro j hj
  rw [List.getD_append _ _ _ _ (lt_of_lt_of_le (List.mem_range.mp hj) hi)]

/-- The point of stage `i` does not depend on the stage derivatives from
index `i` on. -/
theorem stagePoint_append {n : ℕ} (tab : RungeKuttaCoefficients) (t : ℚ) (x : State n) (h : ℚ)
    (ks more : List (State n)) (i : ℕ) (hi : i ≤ ks.length) :
    stagePoint tab t x h (ks ++ more) i = stagePoint tab t x h ks i := by
  unfold stagePoint
  rw [combineStages_append _ _ _ _ hi]

/-- Invariant of the stage loop run on the instrumented derivative function:
it appends one stage derivative and one logged point per stage, the `j`-th
logged point is the point of stage `i + j`, the calls are made to `f` in this
order, and the loop on `f` itself computes the same stage derivatives. -/
theorem evaluateStagesFrom_recordCalls {n : ℕ} {ε : Type} (tab : RungeKuttaCoefficients)
    (f : StateDerivativeFunction n ε) (t : ℚ) (x : State n) (h : ℚ) (todo : ℕ) :
    ∀ (i : ℕ) (ks : List (State n)) (e : ε) (log : List (ℚ × State n))
      (ks' : List (State n)) (e' : ε) (log' : List (ℚ × State n)),
      ks.length = i →
      evaluateStagesFrom tab (recordCalls f) t x h todo i ks (e, log) = some (ks', (e', log')) →
      ∃ newKs newLog, ks' = ks ++ newKs ∧ log' = log ++ newLog ∧
        newKs.length = todo ∧ newLog.length = todo ∧
        (∀ j, j < todo → newLog[j]? = some (stagePoint tab t x h ks' (i + j))) ∧
        CallsInOrder f newLog newKs e e' ∧
        evaluateStagesFrom tab f t x h todo i ks e = some (ks', e') := by
  induction todo with
  | zero =>
    intro i ks e log ks' e' log' _ hrun
    simp only [evaluateStagesFrom, Option.some.injEq, Prod.mk.injEq] at hrun
    obtain ⟨rfl, rfl, rfl⟩ := hrun
    exact ⟨[], [], by simp, by simp, rfl, rfl, fun j hj => absurd hj (Nat.not_lt_zero j),
      rfl, rfl⟩
  | succ todo ih =>
    intro i ks e log ks' e' log' hlen hrun
    unfold evaluateStagesFrom at hrun
    simp only [recordCalls] at hrun
    cases hf : f (stagePoint tab t x h ks i).1 (stagePoint tab t x h ks i).2 e with
    | none => simp [hf] at hrun
    | some ke =>
      obtain ⟨k, e1⟩ := ke
      simp only [hf] at hrun
      obtain ⟨newKs, newLog, rfl, rfl, hk, hl, hpts, hcalls, hplain⟩ :=
        ih (i + 1) (ks ++ [k]) e1 (log ++ [stagePoint tab t x h ks i]) ks' e' log'
          (by simp [hlen]) hrun
      refine ⟨k :: newKs, stagePoint tab t x h ks i :: newLog, by simp, by simp,
        by simp [hk], by simp [hl], ?_, ⟨e1, hf, hcalls⟩, ?_⟩
      · intro j hj
        cases j with
        | zero =>
          simp only [List.getElem?_cons_zero, Nat.add_zero, Option.some.injEq]
          rw [List.append_assoc, stagePoint_append _ _ _ _ _ _ _ (le_of_eq hlen.symm)]
        | succ j =>
          rw [List.getElem?_cons_succ, hpts j (by omega)]
          congr 2
          omega
      · unfold evaluateStagesFrom
        simp only [hf]
        exact hplain

/-- The stage loop finishes when the derivative function never fails. -/
theorem evaluateStagesFrom_isSome {n : ℕ} {ε : Type} (tab : RungeKuttaCoefficients)
    (f : StateDerivativeFunction n ε) (t : ℚ) (x : State n) (h : ℚ)
    (hf : ∀ t' x' e0, (f t' x' e0).isSome = true) (todo : ℕ) :
    ∀ (i : ℕ) (ks : List (State n)) (e : ε),
      (evaluateStagesFrom tab f t x h todo i ks e).isSome = true := by
  induction todo with
  | zero => intro i ks e; rfl
  | succ todo ih =>
    intro i ks e
    unfold evaluateStagesFrom
    have hsome := hf (stagePoint tab t x h ks i).1 (stagePoint tab t x h ks i).2 e
    cases hcall : f (stagePoint tab t x h ks i).1 (stagePoint tab t x h ks i).2 e with
    | none => simp [hcall] at hsome
    | some ke => exact ih _ _ _

/-- C8 (stage evaluation order): for every coefficient table with `s` stages
and every `(t, x, h)`, a step attempt that completes calls the derivative
function exactly `s` times (the log of the instrumented function has `s`
entries), the `i`-th call being at the point
`(t + c_i·h, x + h·Σ_{j<i} a_ij·k_j)`, where `k_j` is the value the `j`-th call
returned; the calls are made in this order, each in the environment the
previous one left.  The attempt completes whenever the derivative function
does not fail. -/
theorem stage_evaluation_order {n : ℕ} {ε : Type} (tab : RungeKuttaCoefficients)
    (f : StateDerivativeFunction n ε) (t : ℚ) (x : State n) (h : ℚ) (e : ε) :
    (∀ (r : StageResult n) (e' : ε) (log : List (ℚ × State n)),
      evaluateStep tab (recordCalls f) t x h (e, []) = some (r, (e', log)) →
      evaluateStep tab f t x h e = some (r, e') ∧
      log.length = tab.stages ∧
      r.stageDerivatives.length = tab.stages ∧
      (∀ i, i < tab.stages → log[i]? = some (t + tab.c i * h,
        x + h • ((List.range i).map (fun j => tab.a i j • r.stageDerivatives.getD j 0)).sum)) ∧
      CallsInOrder f log r.stageDerivatives e e') ∧
    ((∀ t' x' e0, (f t' x' e0).isSome = true) →
      (evaluateStep tab (recordCalls f) t x h (e, [])).isSome = true) := by
  constructor
  · intro r e' log hrun
    unfold evaluateStep at hrun
    cases hloop : evaluateStagesFrom tab (recordCalls f) t x h tab.stages 0 [] (e, []) with
    | none => simp [hloop] at hrun
    | some res =>
      obtain ⟨ks', e1, log1⟩ := res
      simp only [hloop, Option.some.injEq, Prod.mk.injEq] at hrun
      obtain ⟨rfl, rfl, rfl⟩ := hrun
      obtain ⟨newKs, newLog, hks, hlog, hk, hl, hpts, hcalls, hplain⟩ :=
        evaluateStagesFrom_recordCalls tab f t x h tab.stages 0 [] e [] ks' e1 log1 rfl hloop
      simp only [List.nil_append] at hks hlog
      subst hks hlog
      refine ⟨?_, hl, hk, ?_, hcalls⟩
      · unfold evaluateStep
        rw [hplain]
      · intro i hi
        have := hpts i hi
        simpa [stagePoint, combineStages] using this
  · intro hf
    have hrec : ∀ t' x' el, (recordCalls f t' x' el).isSome = true := by
      intro t' x' el
      have hsome := hf t' x' el.1
      unfold recordCalls
      cases hcall : f t' x' el.1 with
      | none => simp [hcall] at hsome
      | some ke => rfl
    have hloop := evaluateStagesFrom_isSome tab (recordCalls f) t x h hrec tab.stages 0 [] (e, [])
    unfold evaluateStep
    cases hres : evaluateStagesFrom tab (recordCalls f) t x h tab.stages 0 [] (e, []) with
    | none => simp [hres] at hloop
    | some res => rfl

/-- The instrumented run of the second example from `(0, 1/2)` with step size
`1/4`: two calls, at `(0, 1/2)` and at `(1/4, 1/2)`, returning `0` and `1/4`. -/
theorem ramp_recorded_evaluateStep :
    evaluateStep exampleHeunEulerTable (recordCalls ramp) 0 (fun _ => 1 / 2) (1 / 4) ((), [])
      = some ({ lowerOrderEstimate := fun _ => 1 / 2
                higherOrderEstimate := fun _ => 17 / 32
                stageDerivatives := [fun _ => 0, fun _ => 1 / 4] },
              ((), [(0, fun _ => 1 / 2), (1 / 4, fun _ => 1 / 2)])) := by
  simp only [evaluateStep, evaluateStagesFrom, recordCalls, ramp, exampleHeunEulerTable,
    stagePoint, RungeKuttaCoefficients.c, RungeKuttaCoefficients.a, List.nil_append,
    List.cons_append, combineStages, Option.some.injEq, Prod.mk.injEq, StageResult.mk.injEq,
    List.cons.injEq, and_true, true_and]
  refine ⟨⟨?_, ?_, ?_⟩, ?_, ?_, ?_⟩
  · funext k
    simp [List.range_succ]
  · funext k
    simp [List.range_succ]
    norm_num
  · simp
  · simp
  · simp
  · funext k
    simp [List.range_succ]

/-- Witness of C8 on the second example: Heun-Euler on `dx/dt = t` from
`(0, 1/2)` with step size `1/4` makes exactly two calls, in the order of the
stages, at the points C8 gives. -/
theorem stage_evaluation_order_witness :
    evaluateStep exampleHeunEulerTable (recordCalls ramp) 0 (fun _ => 1 / 2) (1 / 4) ((), [])
        = some ({ lowerOrderEstimate := fun _ => 1 / 2
                  higherOrderEstimate := fun _ => 17 / 32
                  stageDerivatives := [fun _ => 0, fun _ => 1 / 4] },
                ((), [(0, fun _ => 1 / 2), (1 / 4, fun _ => 1 / 2)])) ∧
      [((0 : ℚ), (fun _ => 1 / 2 : State 1)), (1 / 4, fun _ => 1 / 2)].length
        = exampleHeunEulerTable.stages ∧
      CallsInOrder ramp [(0, fun _ => 1 / 2), (1 / 4, fun _ => 1 / 2)]
        [fun _ => 0, fun _ => 1 / 4] () () :=
  ⟨ramp_recorded_evaluateStep,
    ((stage_evaluation_order exampleHeunEulerTable ramp 0 (fun _ => 1 / 2) (1 / 4) ()).1
      _ _ _ ramp_recorded_evaluateStep).2.1,
    ((stage_evaluation_order exampleHeunEulerTable ramp 0 (fun _ => 1 / 2) (1 / 4) ()).1
      _ _ _ ramp_recorded_evaluateStep).2.2.2.2⟩

/-! ## Coefficient table (C9) -/

/-- The Runge-Kutta-Fehlberg 4(5) tableau passes the consistency check. -/
theorem rungeKuttaFehlberg45Coefficients_isConsistent :
    RungeKuttaCoefficients.rungeKuttaFehlberg45Coefficients.isConsistent = true := by
  simp only [RungeKuttaCoefficients.isConsistent, RungeKuttaCoefficients.rowSum,
    RungeKuttaCoefficients.c, RungeKuttaCoefficients.rungeKuttaFehlberg45Coefficients,
    List.range_succ, List.range_zero]
  norm_num

/-- C9 (coefficient-table consistency): `RungeKuttaCoefficients::get(
rungeKuttaFehlberg45)` returns the Runge-Kutta-Fehlberg 4(5) table, which has
six stages; for every stage `i` the sum of row `i` of its coupling matrix
equals the stage time fraction `c_i`, and the lower-order and the higher-order
weight vectors each sum to 1, exactly. -/
theorem rungeKuttaFehlberg45_table_consistent :
    ∃ tab, RungeKuttaCoefficients.get .rungeKuttaFehlberg45 = .ok tab ∧
      tab.stages = 6 ∧
      (∀ i, i < tab.stages → (tab.aCoefficients.getD i []).sum = tab.cCoefficients.getD i 0) ∧
      tab.bLower.sum = 1 ∧ tab.bHigher.sum = 1 := by
  refine ⟨RungeKuttaCoefficients.rungeKuttaFehlberg45Coefficients, ?_, rfl, ?_, ?_, ?_⟩
  · simp [RungeKuttaCoefficients.get, rungeKuttaFehlberg45Coefficients_isConsistent]
  · intro i hi
    have hi6 : i < 6 := hi
    interval_cases i <;>
      norm_num [RungeKuttaCoefficients.rungeKuttaFehlberg45Coefficients]
  · norm_num [RungeKuttaCoefficients.rungeKuttaFehlberg45Coefficients]
  · norm_num [RungeKuttaCoefficients.rungeKuttaFehlberg45Coefficients]

/-! ## Termination of the retry loop under the default controller -/

/-- A clamp is at most the larger of its lower bound and its argument. -/
theorem clamp_le_max (v lo hi : ℚ) : clamp v lo hi ≤ max lo v := by
  unfold clamp
  split_ifs with h1 h2
  · exact le_max_left _ _
  · exact le_trans (le_of_lt h2) (le_max_right _ _)
  · exact le_max_right _ _

/-- Magnitude of a clamped step size. -/
theorem abs_clampStepSize (cfg : Configuration) (h hNext : ℚ)
    (hmin : 0 < cfg.minimumStepSize) (hle : cfg.minimumStepSize ≤ cfg.maximumStepSize) :
    |clampStepSize cfg h hNext| = clamp |hNext| cfg.minimumStepSize cfg.maximumStepSize := by
  have hpos : 0 < clamp |hNext| cfg.minimumStepSize cfg.maximumStepSize :=
    lt_of_lt_of_le hmin (clamp_mem _ _ _ hle).1
  unfold clampStepSize
  split_ifs
  · rw [abs_neg, abs_of_pos hpos]
  · rw [abs_of_pos hpos]

/-- The stage evaluator completes when the derivative function never fails. -/
theorem evaluateStep_isSome {n : ℕ} {ε : Type} (tab : RungeKuttaCoefficients)
    (f : StateDerivativeFunction n ε) (hf : ∀ t' x' e0, (f t' x' e0).isSome = true)
    (t : ℚ) (x : State n) (h : ℚ) (e : ε) :
    ∃ r e', evaluateStep tab f t x h e = some (r, e') := by
  have hloop := evaluateStagesFrom_isSome tab f t x h hf tab.stages 0 [] e
  unfold evaluateStep
  cases hres : evaluateStagesFrom tab f t x h tab.stages 0 [] e with
  | none => simp [hres] at hloop
  | some res => exact ⟨_, _, rfl⟩

/-- After a rejection the default controller shrinks the step: the magnitude
of the next step size is at least the minimum step size and at most the
larger of the minimum step size and `q · |h|`, with
`q = max(minimumFactorDecrease, safetyFactor)`. -/
theorem defaultStepSizeController_rejected_shrinks {n : ℕ} (m : ElementaryFunctions)
    (cfg : Configuration) (p : ℕ) (h : ℚ) (xLow xHigh : State n)
    (hmin : 0 < cfg.minimumStepSize) (hle : cfg.minimumStepSize ≤ cfg.maximumStepSize)
    (hsafe : 0 ≤ cfg.safetyFactor) (hdec : 0 < cfg.minimumFactorDecrease)
    (hinc : cfg.minimumFactorDecrease ≤ cfg.maximumFactorIncrease)
    (hroot : ∀ err p, 1 < err → m.invRoot err p ≤ 1)
    (hrej : (defaultStepSizeController m cfg p h xLow xHigh).accepted = false) :
    cfg.minimumStepSize ≤ |(defaultStepSizeController m cfg p h xLow xHigh).nextStepSize| ∧
      |(defaultStepSizeController m cfg p h xLow xHigh).nextStepSize|
        ≤ max cfg.minimumStepSize (max cfg.minimumFactorDecrease cfg.safetyFactor * |h|) := by
  have herr : 1 < errorNorm m cfg xLow xHigh := by
    simpa [defaultStepSizeController] using hrej
  have hne : errorNorm m cfg xLow xHigh ≠ 0 := by linarith
  have hfac : stepFactor m cfg p (errorNorm m cfg xLow xHigh)
      = clamp (cfg.safetyFactor * m.invRoot (errorNorm m cfg xLow xHigh) p)
          cfg.minimumFactorDecrease cfg.maximumFactorIncrease := by
    simp [stepFactor, hne]
  have hfpos : 0 < stepFactor m cfg p (errorNorm m cfg xLow xHigh) := by
    rw [hfac]
    exact lt_of_lt_of_le hdec (clamp_mem _ _ _ hinc).1
  have hfle : stepFactor m cfg p (errorNorm m cfg xLow xHigh)
      ≤ max cfg.minimumFactorDecrease cfg.safetyFactor := by
    rw [hfac]
    refine le_trans (clamp_le_max _ _ _) (max_le_max (le_refl _) ?_)
    have := hroot _ p herr
    nlinarith
  show cfg.minimumStepSize ≤ |clampStepSize cfg h _| ∧ |clampStepSize cfg h _| ≤ _
  rw [abs_clampStepSize cfg h _ hmin hle]
  refine ⟨(clamp_mem _ _ _ hle).1, le_trans (clamp_le_max _ _ _) (max_le_max (le_refl _) ?_)⟩
  rw [abs_mul, abs_of_pos hfpos, mul_comm]
  exact mul_le_mul_of_nonneg_right hfle (abs_nonneg h)

/-- With a derivative function that never fails, an attempt whose step size
is a proposal clamped to the minimum ends the retry loop. -/
theorem performIntegrationStepLoop_atMinimum_isSome {n : ℕ} {ε : Type} (ig : Integrator n ε)
    (hf : ∀ t' x' e0, (ig.stateDerivativeFunction t' x' e0).isSome = true)
    (s : Session n) (fuel : ℕ) (h : ℚ) (e : ε) :
    (performIntegrationStepLoop ig s (fuel + 1) h true e).isSome = true := by
  obtain ⟨r, e', heval⟩ := evaluateStep_isSome ig.coefficients ig.stateDerivativeFunction hf
    s.currentIndependentVariable s.currentState h e
  unfold performIntegrationStepLoop
  rw [heval]
  simp only
  split_ifs <;> rfl

/-- Under the default controller the retry loop ends: when `q^k · |h|` is at
most the minimum step size, `k + 2` attempts suffice. -/
theorem performIntegrationStepLoop_default_isSome {n : ℕ} {ε : Type}
    (m : ElementaryFunctions) (tab : RungeKuttaCoefficients) (f : StateDerivativeFunction n ε)
    (cfg : Configuration) (hf : ∀ t' x' e0, (f t' x' e0).isSome = true)
    (hmin : 0 < cfg.minimumStepSize) (hle : cfg.minimumStepSize ≤ cfg.maximumStepSize)
    (hsafe : 0 ≤ cfg.safetyFactor) (hsafe1 : cfg.safetyFactor < 1)
    (hdec : 0 < cfg.minimumFactorDecrease) (hdec1 : cfg.minimumFactorDecrease < 1)
    (hinc : cfg.minimumFactorDecrease ≤ cfg.maximumFactorIncrease)
    (hroot : ∀ err p, 1 < err → m.invRoot err p ≤ 1) (s : Session n) (k : ℕ) :
    ∀ (h : ℚ) (b : Bool) (e : ε),
      max cfg.minimumFactorDecrease cfg.safetyFactor ^ k * |h| ≤ cfg.minimumStepSize →
      ∀ fuel, k + 2 ≤ fuel →
        (performIntegrationStepLoop (Integrator.withDefaultController m tab f cfg) s fuel h b e).isSome
          = true := by
  have hq0 : 0 < max cfg.minimumFactorDecrease cfg.safetyFactor :=
    lt_of_lt_of_le hdec (le_max_left _ _)
  have hq1 : max cfg.minimumFactorDecrease cfg.safetyFactor < 1 := max_lt hdec1 hsafe1
  induction k with
  | zero =>
    intro h b e hk fuel hfuel
    obtain ⟨fuel, rfl⟩ : ∃ j, fuel = j + 2 := ⟨fuel - 2, by omega⟩
    obtain ⟨r, e', heval⟩ := evaluateStep_isSome tab f hf
      s.currentIndependentVariable s.currentState h e
    have heval' : evaluateStep (Integrator.withDefaultController m tab f cfg).coefficients
        (Integrator.withDefaultController m tab f cfg).stateDerivativeFunction
        s.currentIndependentVariable s.currentState h e = some (r, e') := heval
    unfold performIntegrationStepLoop
    rw [heval']
    simp only
    split_ifs with hacc hb
    · rfl
    · rfl
    · have hrej : (defaultStepSizeController m cfg tab.lowerOrder h r.lowerOrderEstimate
          r.higherOrderEstimate).accepted = false := by
        simpa using hacc
      obtain ⟨hlo, hhi⟩ := defaultStepSizeController_rejected_shrinks m cfg tab.lowerOrder h
        r.lowerOrderEstimate r.higherOrderEstimate hmin hle hsafe hdec hinc hroot hrej
      have hh : |h| ≤ cfg.minimumStepSize := by simpa using hk
      have hqh : max cfg.minimumFactorDecrease cfg.safetyFactor * |h| ≤ cfg.minimumStepSize := by
        nlinarith [abs_nonneg h]
      have heq : |(defaultStepSizeController m cfg tab.lowerOrder h r.lowerOrderEstimate
          r.higherOrderEstimate).nextStepSize| = cfg.minimumStepSize :=
        le_antisymm (le_trans hhi (max_le (le_refl _) hqh)) hlo
      have hflag : decide (|((Integrator.withDefaultController m tab f cfg).newStepSizeFunction h
          r.lowerOrderEstimate r.higherOrderEstimate).nextStepSize|
            = (Integrator.withDefaultController m tab f cfg).configuration.minimumStepSize)
          = true := by
        simpa [Integrator.withDefaultController] using heq
      rw [hflag]
      exact performIntegrationStepLoop_atMinimum_isSome _ hf s fuel _ e'
  | succ k ih =>
    intro h b e hk fuel hfuel
    obtain ⟨fuel, rfl⟩ : ∃ j, fuel = j + 1 := ⟨fuel - 1, by omega⟩
    obtain ⟨r, e', heval⟩ := evaluateStep_isSome tab f hf
      s.currentIndependentVariable s.currentState h e
    have heval' : evaluateStep (Integrator.withDefaultController m tab f cfg).coefficients
        (Integrator.withDefaultController m tab f cfg).stateDerivativeFunction
        s.currentIndependentVariable s.currentState h e = some (r, e') := heval
    unfold performIntegrationStepLoop
    rw [heval']
    simp only
    split_ifs with hacc hb
    · rfl
    · rfl
    · have hrej : (defaultStepSizeController m cfg tab.lowerOrder h r.lowerOrderEstimate
          r.higherOrderEstimate).accepted = false := by
        simpa using hacc
      obtain ⟨-, hhi⟩ := defaultStepSizeController_rejected_shrinks m cfg tab.lowerOrder h
        r.lowerOrderEstimate r.higherOrderEstimate hmin hle hsafe hdec hinc hroot hrej
      refine ih _ _ e' ?_ fuel (by omega)
      have hpow : 0 ≤ max cfg.minimumFactorDecrease cfg.safetyFactor ^ k :=
        pow_nonneg (le_of_lt hq0) k
      have hpow1 : max cfg.minimumFactorDecrease cfg.safetyFactor ^ k ≤ 1 :=
        pow_le_one₀ (le_of_lt hq0) (le_of_lt hq1)
      refine le_trans (mul_le_mul_of_nonneg_left hhi hpow) ?_
      rcases le_total cfg.minimumStepSize
          (max cfg.minimumFactorDecrease cfg.safetyFactor * |h|) with hc | hc
      · rw [max_eq_right hc, ← mul_assoc, ← pow_succ]
        exact hk
      · rw [max_eq_left hc]
        nlinarith

/-- Termination of `performIntegrationStep` under the default controller: with
a derivative function that never fails, step size bounds
`0 < minimumStepSize ≤ maximumStepSize`, a safety factor in `[0, 1)`, a
minimum decrease factor in `(0, 1)` below the maximum increase factor, and an
inverse root that is at most 1 for `err > 1`, the operation returns for every
session and every proposed step size once enough attempts are allowed: it
does not retry forever. -/
theorem performIntegrationStep_default_terminates {n : ℕ} {ε : Type}
    (m : ElementaryFunctions) (tab : RungeKuttaCoefficients) (f : StateDerivativeFunction n ε)
    (cfg : Configuration) (hf : ∀ t' x' e0, (f t' x' e0).isSome = true)
    (hmin : 0 < cfg.minimumStepSize) (hle : cfg.minimumStepSize ≤ cfg.maximumStepSize)
    (hsafe : 0 ≤ cfg.safetyFactor) (hsafe1 : cfg.safetyFactor < 1)
    (hdec : 0 < cfg.minimumFactorDecrease) (hdec1 : cfg.minimumFactorDecrease < 1)
    (hinc : cfg.minimumFactorDecrease ≤ cfg.maximumFactorIncrease)
    (hroot : ∀ err p, 1 < err → m.invRoot err p ≤ 1)
    (s : Session n) (h : ℚ) (e : ε) :
    ∃ N, ∀ fuel, N ≤ fuel →
      (performIntegrationStep (Integrator.withDefaultController m tab f cfg) fuel h s e).isSome
        = true := by
  have hq1 : max cfg.minimumFactorDecrease cfg.safetyFactor < 1 := max_lt hdec1 hsafe1
  obtain ⟨k, hk⟩ : ∃ k, max cfg.minimumFactorDecrease cfg.safetyFactor ^ k * |h|
      ≤ cfg.minimumStepSize := by
    rcases eq_or_lt_of_le (abs_nonneg h) with h0 | hpos
    · exact ⟨0, by rw [← h0]; simpa using le_of_lt hmin⟩
    · obtain ⟨k, hk⟩ := exists_pow_lt_of_lt_one (div_pos hmin hpos) hq1
      exact ⟨k, le_of_lt ((lt_div_iff₀ hpos).mp hk)⟩
  exact ⟨k + 2, fun fuel hfuel =>
    performIntegrationStepLoop_default_isSome m tab f cfg hf hmin hle hsafe hsafe1 hdec hdec1
      hinc hroot s k h false e hk fuel hfuel⟩

/-- The second example meets the hypotheses of the termination theorem, so
`performIntegrationStep` returns for each of its sessions and proposed step
sizes. -/
theorem example_performIntegrationStep_terminates (s : Session 1) (h : ℚ) :
    ∃ N, ∀ fuel, N ≤ fuel →
      (performIntegrationStep exampleRejectingIntegrator fuel h s ()).isSome = true :=
  performIntegrationStep_default_terminates exampleFunctions exampleHeunEulerTable ramp
    exampleConfiguration (fun _ _ _ => rfl) (by norm_num [exampleConfiguration])
    (by norm_num [exampleConfiguration]) (by norm_num [exampleConfiguration])
    (by norm_num [exampleConfiguration]) (by norm_num [exampleConfiguration])
    (by norm_num [exampleConfiguration]) (by norm_num [exampleConfiguration])
    (fun err _ herr => by
      show 1 / err ≤ 1
      rw [div_le_one (by linarith)]
      exact le_of_lt herr)
    s h ()

/-! ## `integrateTo` (C3) -/

/-- A clamped step size has the sign of the attempted step. -/
theorem clampStepSize_sign (cfg : Configuration) (h hNext : ℚ)
    (hmin : 0 < cfg.minimumStepSize) (hle : cfg.minimumStepSize ≤ cfg.maximumStepSize) :
    (0 < h → 0 < clampStepSize cfg h hNext) ∧ (h < 0 → clampStepSize cfg h hNext < 0) := by
  have hpos : 0 < clamp |hNext| cfg.minimumStepSize cfg.maximumStepSize :=
    lt_of_lt_of_le hmin (clamp_mem _ _ _ hle).1
  unfold clampStepSize
  constructor
  · intro h0
    rw [if_neg (not_lt.mpr (le_of_lt h0))]
    exact hpos
  · intro h0
    rw [if_pos h0]
    linarith

/-- The session after an accepted step of the default controller: the time
has grown by the step, and the recommended next step size has the sign of the
step and a magnitude within the step size bounds. -/
theorem acceptStep_default {n : ℕ} (m : ElementaryFunctions) (cfg : Configuration) (p : ℕ)
    (hmin : 0 < cfg.minimumStepSize) (hle : cfg.minimumStepSize ≤ cfg.maximumStepSize)
    (s : Session n) (h : ℚ) (r : StageResult n) :
    (acceptStep s h r (defaultStepSizeController m cfg p h r.lowerOrderEstimate
        r.higherOrderEstimate)).currentIndependentVariable = s.currentIndependentVariable + h ∧
      (0 < h → 0 < (acceptStep s h r (defaultStepSizeController m cfg p h r.lowerOrderEstimate
        r.higherOrderEstimate)).stepSize) ∧
      (h < 0 → (acceptStep s h r (defaultStepSizeController m cfg p h r.lowerOrderEstimate
        r.higherOrderEstimate)).stepSize < 0) ∧
      cfg.minimumStepSize ≤ |(acceptStep s h r (defaultStepSizeController m cfg p h
        r.lowerOrderEstimate r.higherOrderEstimate)).stepSize| ∧
      |(acceptStep s h r (defaultStepSizeController m cfg p h r.lowerOrderEstimate
        r.higherOrderEstimate)).stepSize| ≤ cfg.maximumStepSize := by
  have hsign := clampStepSize_sign cfg h
    (h * stepFactor m cfg p (errorNorm m cfg r.lowerOrderEstimate r.higherOrderEstimate)) hmin hle
  have habs := abs_clampStepSize cfg h
    (h * stepFactor m cfg p (errorNorm m cfg r.lowerOrderEstimate r.higherOrderEstimate)) hmin hle
  have hmem := clamp_mem
    |h * stepFactor m cfg p (errorNorm m cfg r.lowerOrderEstimate r.higherOrderEstimate)|
    cfg.minimumStepSize cfg.maximumStepSize hle
  refine ⟨rfl, hsign.1, hsign.2, ?_, ?_⟩
  · show cfg.minimumStepSize ≤ |clampStepSize cfg h _|
    rw [habs]
    exact hmem.1
  · show |clampStepSize cfg h _| ≤ cfg.maximumStepSize
    rw [habs]
    exact hmem.2

/-- Under the default controller, when the derivative function never fails
and every attempt with a step of at most the minimum step size meets the
tolerance, the retry loop ends with an accepted step: it has the sign of the
proposed step `h`, its magnitude is at most `|h|` and at least the smaller of
`|h|` and the minimum step size. -/
theorem performIntegrationStepLoop_default_accepted {n : ℕ} {ε : Type}
    (m : ElementaryFunctions) (tab : RungeKuttaCoefficients) (f : StateDerivativeFunction n ε)
    (cfg : Configuration) (hf : ∀ t' x' e0, (f t' x' e0).isSome = true)
    (hmin : 0 < cfg.minimumStepSize) (hle : cfg.minimumStepSize ≤ cfg.maximumStepSize)
    (hsafe : 0 ≤ cfg.safetyFactor) (hsafe1 : cfg.safetyFactor < 1)
    (hdec : 0 < cfg.minimumFactorDecrease) (hdec1 : cfg.minimumFactorDecrease < 1)
    (hinc : cfg.minimumFactorDecrease ≤ cfg.maximumFactorIncrease)
    (hroot : ∀ err p, 1 < err → m.invRoot err p ≤ 1)
    (hsmall : ∀ t x h e r e', evaluateStep tab f t x h e = some (r, e') →
      |h| ≤ cfg.minimumStepSize →
      (defaultStepSizeController m cfg tab.lowerOrder h r.lowerOrderEstimate
        r.higherOrderEstimate).accepted = true)
    (s : Session n) (k : ℕ) :
    ∀ (h : ℚ) (b : Bool) (e : ε), (b = true → |h| ≤ cfg.minimumStepSize) →
      max cfg.minimumFactorDecrease cfg.safetyFactor ^ k * |h| ≤ cfg.minimumStepSize →
      ∀ fuel, k + 2 ≤ fuel →
        ∃ h' s' e', performIntegrationStepLoop (Integrator.withDefaultController m tab f cfg)
            s fuel h b e = some (.accepted h', s', e') ∧
          (0 < h → 0 < h') ∧ (h < 0 → h' < 0) ∧
          min cfg.minimumStepSize |h| ≤ |h'| ∧ |h'| ≤ |h| ∧
          s'.currentIndependentVariable = s.currentIndependentVariable + h' ∧
          (0 < h' → 0 < s'.stepSize) ∧ (h' < 0 → s'.stepSize < 0) ∧
          cfg.minimumStepSize ≤ |s'.stepSize| ∧ |s'.stepSize| ≤ cfg.maximumStepSize := by
  have hq0 : 0 < max cfg.minimumFactorDecrease cfg.safetyFactor :=
    lt_of_lt_of_le hdec (le_max_left _ _)
  have hq1 : max cfg.minimumFactorDecrease cfg.safetyFactor < 1 := max_lt hdec1 hsafe1
  -- the first attempt, when it is accepted
  have haccept : ∀ (h : ℚ) (b : Bool) (e : ε) (fuel : ℕ) (r : StageResult n) (e' : ε),
      evaluateStep tab f s.currentIndependentVariable s.currentState h e = some (r, e') →
      (defaultStepSizeController m cfg tab.lowerOrder h r.lowerOrderEstimate
        r.higherOrderEstimate).accepted = true →
      ∃ h' s' e', performIntegrationStepLoop (Integrator.withDefaultController m tab f cfg)
            s (fuel + 1) h b e = some (.accepted h', s', e') ∧
          (0 < h → 0 < h') ∧ (h < 0 → h' < 0) ∧
          min cfg.minimumStepSize |h| ≤ |h'| ∧ |h'| ≤ |h| ∧
          s'.currentIndependentVariable = s.currentIndependentVariable + h' ∧
          (0 < h' → 0 < s'.stepSize) ∧ (h' < 0 → s'.stepSize < 0) ∧
          cfg.minimumStepSize ≤ |s'.stepSize| ∧ |s'.stepSize| ≤ cfg.maximumStepSize := by
    intro h b e fuel r e' heval hacc
    have heval' : evaluateStep (Integrator.withDefaultController m tab f cfg).coefficients
        (Integrator.withDefaultController m tab f cfg).stateDerivativeFunction
        s.currentIndependentVariable s.currentState h e = some (r, e') := heval
    have hacc' : ((Integrator.withDefaultController m tab f cfg).newStepSizeFunction h
        r.lowerOrderEstimate r.higherOrderEstimate).accepted = true := hacc
    obtain ⟨ht, hs1, hs2, hs3, hs4⟩ := acceptStep_default m cfg tab.lowerOrder hmin hle s h r
    refine ⟨h, _, e', ?_, id, id, min_le_right _ _, le_refl _, ht, hs1, hs2, hs3, hs4⟩
    unfold performIntegrationStepLoop
    rw [heval']
    simp only [hacc', if_true]
    rfl
  induction k with
  | zero =>
    intro h b e _ hk fuel hfuel
    obtain ⟨fuel, rfl⟩ : ∃ j, fuel = j + 1 := ⟨fuel - 1, by omega⟩
    obtain ⟨r, e', heval⟩ := evaluateStep_isSome tab f hf
      s.currentIndependentVariable s.currentState h e
    have hh : |h| ≤ cfg.minimumStepSize := by simpa using hk
    exact haccept h b e fuel r e' heval (hsmall _ _ _ _ _ _ heval hh)
  | succ k ih =>
    intro h b e hb hk fuel hfuel
    obtain ⟨fuel, rfl⟩ : ∃ j, fuel = j + 1 := ⟨fuel - 1, by omega⟩
    obtain ⟨r, e', heval⟩ := evaluateStep_isSome tab f hf
      s.currentIndependentVariable s.currentState h e
    by_cases hacc : (defaultStepSizeController m cfg tab.lowerOrder h r.lowerOrderEstimate
        r.higherOrderEstimate).accepted = true
    · exact haccept h b e fuel r e' heval hacc
    · have hrej : (defaultStepSizeController m cfg tab.lowerOrder h r.lowerOrderEstimate
          r.higherOrderEstimate).accepted = false := by
        simpa using hacc
      have hbig : cfg.minimumStepSize < |h| := by
        by_contra hnot
        exact hacc (hsmall _ _ _ _ _ _ heval (not_lt.mp hnot))
      have hbfalse : b = false := by
        cases b with
        | false => rfl
        | true => exact absurd (hb rfl) (not_le.mpr hbig)
      obtain ⟨hlo, hhi⟩ := defaultStepSizeController_rejected_shrinks m cfg tab.lowerOrder h
        r.lowerOrderEstimate r.higherOrderEstimate hmin hle hsafe hdec hinc hroot hrej
      have hsign := clampStepSize_sign cfg h
        (h * stepFactor m cfg tab.lowerOrder
          (errorNorm m cfg r.lowerOrderEstimate r.higherOrderEstimate)) hmin hle
      have hsign1 : 0 < h → 0 < (defaultStepSizeController m cfg tab.lowerOrder h
          r.lowerOrderEstimate r.higherOrderEstimate).nextStepSize := hsign.1
      have hsign2 : h < 0 → (defaultStepSizeController m cfg tab.lowerOrder h
          r.lowerOrderEstimate r.higherOrderEstimate).nextStepSize < 0 := hsign.2
      have hqh : max cfg.minimumFactorDecrease cfg.safetyFactor * |h| ≤ |h| := by
        nlinarith [abs_nonneg h]
      have hnext_le : |(defaultStepSizeController m cfg tab.lowerOrder h r.lowerOrderEstimate
          r.higherOrderEstimate).nextStepSize| ≤ |h| :=
        le_trans hhi (max_le (le_of_lt hbig) hqh)
      have hpow : 0 ≤ max cfg.minimumFactorDecrease cfg.safetyFactor ^ k :=
        pow_nonneg (le_of_lt hq0) k
      have hpow1 : max cfg.minimumFactorDecrease cfg.safetyFactor ^ k ≤ 1 :=
        pow_le_one₀ (le_of_lt hq0) (le_of_lt hq1)
      have hknext : max cfg.minimumFactorDecrease cfg.safetyFactor ^ k
          * |(defaultStepSizeController m cfg tab.lowerOrder h r.lowerOrderEstimate
            r.higherOrderEstimate).nextStepSize| ≤ cfg.minimumStepSize := by
        refine le_trans (mul_le_mul_of_nonneg_left hhi hpow) ?_
        rcases le_total cfg.minimumStepSize
            (max cfg.minimumFactorDecrease cfg.safetyFactor * |h|) with hc | hc
        · rw [max_eq_right hc, ← mul_assoc, ← pow_succ]
          exact hk
        · rw [max_eq_left hc]
          nlinarith
      obtain ⟨h', s', e'', hloop, hp1, hp2, hp3, hp4, hrest⟩ :=
        ih (defaultStepSizeController m cfg tab.lowerOrder h r.lowerOrderEstimate
            r.higherOrderEstimate).nextStepSize
          (decide (|(defaultStepSizeController m cfg tab.lowerOrder h r.lowerOrderEstimate
            r.higherOrderEstimate).nextStepSize| = cfg.minimumStepSize)) e'
          (fun hd => le_of_eq (of_decide_eq_true hd)) hknext fuel (by omega)
      have heval' : evaluateStep (Integrator.withDefaultController m tab f cfg).coefficients
          (Integrator.withDefaultController m tab f cfg).stateDerivativeFunction
          s.currentIndependentVariable s.currentState h e = some (r, e') := heval
      have hacc' : ¬ ((Integrator.withDefaultController m tab f cfg).newStepSizeFunction h
          r.lowerOrderEstimate r.higherOrderEstimate).accepted = true := hacc
      refine ⟨h', s', e'', ?_, fun h0 => hp1 (hsign1 h0), fun h0 => hp2 (hsign2 h0), ?_,
        le_trans hp4 hnext_le, hrest⟩
      · subst hbfalse
        unfold performIntegrationStepLoop
        rw [heval']
        simp only [if_neg hacc', Bool.false_eq_true, if_false]
        exact hloop
      · rw [min_eq_left (le_of_lt hbig)]
        rw [min_eq_left hlo] at hp3
        exact hp3

/-- The step size `integrateTo` proposes: it has the sign of the remaining
interval when the recommended step size has, its magnitude is at most that of
both, and it is the remaining interval itself unless it is the recommended
step size. -/
theorem clampToTarget_spec (h remaining : ℚ) :
    (clampToTarget h remaining = remaining ∨
      (clampToTarget h remaining = h ∧ |h| < |remaining|)) ∧
      |clampToTarget h remaining| ≤ |h| ∧ |clampToTarget h remaining| ≤ |remaining| := by
  unfold clampToTarget
  split_ifs with hc
  · exact ⟨Or.inl rfl, hc, le_refl _⟩
  · exact ⟨Or.inr ⟨rfl, not_le.mp hc⟩, le_refl _, le_of_lt (not_le.mp hc)⟩

/-- Whenever `integrateTo` returns a state, the current time is the target time
and the state is the current state. -/
theorem integrateTo_returns_at_target {n : ℕ} {ε : Type} (ig : Integrator n ε) (stepFuel : ℕ)
    (targetTime : ℚ) (fuel : ℕ) (initialStepSizeGuess : ℚ) (s : Session n) (e : ε)
    (x : State n) (s' : Session n) (e' : ε)
    (hret : integrateTo ig stepFuel targetTime fuel initialStepSizeGuess s e
      = some (.ok x, s', e')) :
    s'.getCurrentIndependentVariable = targetTime ∧ x = s'.getCurrentState := by
  induction fuel generalizing initialStepSizeGuess s e with
  | zero => simp [integrateTo] at hret
  | succ fuel ih =>
    unfold integrateTo at hret
    split at hret
    · rename_i hat
      simp only [Option.some.injEq, Prod.mk.injEq, Except.ok.injEq] at hret
      obtain ⟨rfl, rfl, -⟩ := hret
      exact ⟨hat, rfl⟩
    · split at hret
      · simp at hret
      · simp at hret
      · exact ih _ _ _ hret

/-- Under the default controller, when the derivative function never fails
and every attempt with a step of at most the minimum step size meets the
tolerance, `integrateTo` reaches the target: from a session whose recommended
step size `h` points to the target and has a magnitude between `δ` and `B`,
with the target at most `N δ` away, `N + 1` rounds suffice. -/
theorem integrateTo_default_reaches {n : ℕ} {ε : Type}
    (m : ElementaryFunctions) (tab : RungeKuttaCoefficients) (f : StateDerivativeFunction n ε)
    (cfg : Configuration) (hf : ∀ t' x' e0, (f t' x' e0).isSome = true)
    (hmin : 0 < cfg.minimumStepSize) (hle : cfg.minimumStepSize ≤ cfg.maximumStepSize)
    (hsafe : 0 ≤ cfg.safetyFactor) (hsafe1 : cfg.safetyFactor < 1)
    (hdec : 0 < cfg.minimumFactorDecrease) (hdec1 : cfg.minimumFactorDecrease < 1)
    (hinc : cfg.minimumFactorDecrease ≤ cfg.maximumFactorIncrease)
    (hroot : ∀ err p, 1 < err → m.invRoot err p ≤ 1)
    (hsmall : ∀ t x h e r e', evaluateStep tab f t x h e = some (r, e') →
      |h| ≤ cfg.minimumStepSize →
      (defaultStepSizeController m cfg tab.lowerOrder h r.lowerOrderEstimate
        r.higherOrderEstimate).accepted = true)
    (targetTime δ B : ℚ) (hδ : 0 < δ) (hδmin : δ ≤ cfg.minimumStepSize)
    (hB : cfg.maximumStepSize ≤ B) (K stepFuel : ℕ)
    (hK : max cfg.minimumFactorDecrease cfg.safetyFactor ^ K * B ≤ cfg.minimumStepSize)
    (hstepFuel : K + 2 ≤ stepFuel) (N : ℕ) :
    ∀ (h : ℚ) (s : Session n) (e : ε), δ ≤ |h| → |h| ≤ B →
      (s.currentIndependentVariable = targetTime ∨
        (0 < h ∧ s.currentIndependentVariable < targetTime) ∨
        (h < 0 ∧ targetTime < s.currentIndependentVariable)) →
      |targetTime - s.currentIndependentVariable| ≤ N * δ →
      ∀ fuel, N + 1 ≤ fuel →
        ∃ s' e', integrateTo (Integrator.withDefaultController m tab f cfg) stepFuel targetTime
            fuel h s e = some (.ok s'.currentState, s', e') ∧
          s'.currentIndependentVariable = targetTime := by
  have hq0 : 0 < max cfg.minimumFactorDecrease cfg.safetyFactor :=
    lt_of_lt_of_le hdec (le_max_left _ _)
  have hpowK : 0 ≤ max cfg.minimumFactorDecrease cfg.safetyFactor ^ K :=
    pow_nonneg (le_of_lt hq0) K
  have hthere : ∀ (h : ℚ) (s : Session n) (e : ε) (fuel : ℕ),
      s.currentIndependentVariable = targetTime →
      ∃ s' e', integrateTo (Integrator.withDefaultController m tab f cfg) stepFuel targetTime
          (fuel + 1) h s e = some (.ok s'.currentState, s', e') ∧
        s'.currentIndependentVariable = targetTime := by
    intro h s e fuel hat
    refine ⟨s, e, ?_, hat⟩
    unfold integrateTo
    rw [if_pos hat]
  induction N with
  | zero =>
    intro h s e _ _ _ hdist fuel hfuel
    obtain ⟨fuel, rfl⟩ : ∃ j, fuel = j + 1 := ⟨fuel - 1, by omega⟩
    have hzero : |targetTime - s.currentIndependentVariable| ≤ 0 := by simpa using hdist
    have hat : s.currentIndependentVariable = targetTime := by
      have := abs_eq_zero.mp (le_antisymm hzero (abs_nonneg _))
      linarith
    exact hthere h s e fuel hat
  | succ N ih =>
    intro h s e hhδ hhB hdir hdist fuel hfuel
    obtain ⟨fuel, rfl⟩ : ∃ j, fuel = j + 1 := ⟨fuel - 1, by omega⟩
    by_cases hat : s.currentIndependentVariable = targetTime
    · exact hthere h s e fuel hat
    · have hdist' : |targetTime - s.currentIndependentVariable| ≤ N * δ + δ := by
        have : ((N + 1 : ℕ) : ℚ) * δ = N * δ + δ := by push_cast; ring
        linarith
      obtain ⟨hcases, hple, hprem⟩ :=
        clampToTarget_spec h (targetTime - s.currentIndependentVariable)
      have hpK : max cfg.minimumFactorDecrease cfg.safetyFactor ^ K
          * |clampToTarget h (targetTime - s.currentIndependentVariable)|
          ≤ cfg.minimumStepSize :=
        le_trans (mul_le_mul_of_nonneg_left (le_trans hple hhB) hpowK) hK
      obtain ⟨h', s', e', hloop, hp1, hp2, hp3, hp4, ht, hs1, hs2, hs3, hs4⟩ :=
        performIntegrationStepLoop_default_accepted m tab f cfg hf hmin hle hsafe hsafe1 hdec
          hdec1 hinc hroot hsmall s K
          (clampToTarget h (targetTime - s.currentIndependentVariable)) false e
          (fun hb => absurd hb (by simp)) hpK stepFuel hstepFuel
      have hstep : integrateTo (Integrator.withDefaultController m tab f cfg) stepFuel targetTime
          (fuel + 1) h s e
          = integrateTo (Integrator.withDefaultController m tab f cfg) stepFuel targetTime
              fuel s'.stepSize s' e' := by
        conv_lhs => unfold integrateTo
        rw [if_neg hat]
        unfold performIntegrationStep
        rw [hloop]
      rw [hstep]
      have hδ' : δ ≤ |s'.stepSize| := le_trans hδmin hs3
      have hB' : |s'.stepSize| ≤ B := le_trans hs4 hB
      rcases hdir with hnow | ⟨hpos, hlt⟩ | ⟨hneg, hlt⟩
      · exact absurd hnow hat
      · -- forward integration
        have hrem : 0 < targetTime - s.currentIndependentVariable := by linarith
        have hclampPos : 0 < clampToTarget h (targetTime - s.currentIndependentVariable) := by
          rcases hcases with hc | ⟨hc, -⟩
          · rw [hc]; exact hrem
          · rw [hc]; exact hpos
        have hh'pos : 0 < h' := hp1 hclampPos
        rw [abs_of_pos hh'pos, abs_of_pos hclampPos] at hp4
        rw [abs_of_pos hh'pos, abs_of_pos hclampPos] at hp3
        rw [abs_of_pos hrem, abs_of_pos hclampPos] at hprem
        rw [abs_of_pos hrem] at hdist'
        have hprogress : δ ≤ h' ∨ h' = targetTime - s.currentIndependentVariable := by
          rcases hcases with hc | ⟨hc, -⟩
          · rw [hc] at hp3 hp4
            rcases le_total cfg.minimumStepSize (targetTime - s.currentIndependentVariable)
              with hm | hm
            · rw [min_eq_left hm] at hp3
              exact Or.inl (le_trans hδmin hp3)
            · rw [min_eq_right hm] at hp3
              exact Or.inr (le_antisymm hp4 hp3)
          · rw [hc] at hp3
            rw [abs_of_pos hpos] at hhδ
            left
            rcases le_total cfg.minimumStepSize h with hm | hm
            · rw [min_eq_left hm] at hp3
              exact le_trans hδmin hp3
            · rw [min_eq_right hm] at hp3
              exact le_trans hhδ hp3
        refine ih s'.stepSize s' e' hδ' hB' ?_ ?_ fuel (by omega)
        · rcases eq_or_lt_of_le (show s'.currentIndependentVariable ≤ targetTime by
            rw [ht]; linarith) with heq | hlt'
          · exact Or.inl heq
          · exact Or.inr (Or.inl ⟨hs1 hh'pos, hlt'⟩)
        · rw [ht]
          have hnonneg : 0 ≤ targetTime - (s.currentIndependentVariable + h') := by linarith
          rw [abs_of_nonneg hnonneg]
          rcases hprogress with hpr | hpr
          · linarith
          · have hNδ : 0 ≤ (N : ℚ) * δ := by positivity
            linarith
      · -- backward integration
        have hrem : targetTime - s.currentIndependentVariable < 0 := by linarith
        have hclampNeg : clampToTarget h (targetTime - s.currentIndependentVariable) < 0 := by
          rcases hcases with hc | ⟨hc, -⟩
          · rw [hc]; exact hrem
          · rw [hc]; exact hneg
        have hh'neg : h' < 0 := hp2 hclampNeg
        rw [abs_of_neg hh'neg, abs_of_neg hclampNeg] at hp4
        rw [abs_of_neg hh'neg, abs_of_neg hclampNeg] at hp3
        rw [abs_of_neg hrem, abs_of_neg hclampNeg] at hprem
        rw [abs_of_neg hrem] at hdist'
        have hprogress : δ ≤ -h' ∨ h' = targetTime - s.currentIndependentVariable := by
          rcases hcases with hc | ⟨hc, -⟩
          · rw [hc] at hp3 hp4
            rcases le_total cfg.minimumStepSize (-(targetTime - s.currentIndependentVariable))
              with hm | hm
            · rw [min_eq_left hm] at hp3
              exact Or.inl (le_trans hδmin hp3)
            · rw [min_eq_right hm] at hp3
              exact Or.inr (by linarith)
          · rw [hc] at hp3
            rw [abs_of_neg hneg] at hhδ
            left
            rcases le_total cfg.minimumStepSize (-h) with hm | hm
            · rw [min_eq_left hm] at hp3
              exact le_trans hδmin hp3
            · rw [min_eq_right hm] at hp3
              exact le_trans hhδ hp3
        refine ih s'.stepSize s' e' hδ' hB' ?_ ?_ fuel (by omega)
        · rcases eq_or_lt_of_le (show targetTime ≤ s'.currentIndependentVariable by
            rw [ht]; linarith) with heq | hlt'
          · exact Or.inl heq.symm
          · exact Or.inr (Or.inr ⟨hs2 hh'neg, hlt'⟩)
        · rw [ht]
          have hnonpos : targetTime - (s.currentIndependentVariable + h') ≤ 0 := by linarith
          rw [abs_of_nonpos hnonpos]
          rcases hprogress with hpr | hpr
          · linarith
          · have hNδ : 0 ≤ (N : ℚ) * δ := by positivity
            linarith

/-- The example session integrated forward to `t = 1/2` with initial step
size guess `1/4`: two steps, final state `1`. -/
theorem example_integrateTo_forward :
    integrateTo exampleIntegrator 1 (1 / 2) 3 (1 / 4) exampleSession ()
      = some (.ok (fun _ => 1), exampleForwardSession, ()) := by
  have hc : clampStepSize exampleConfiguration (1 / 4) (1 / 4 * 4) = 1 / 4 := by
    norm_num [clampStepSize, clamp, exampleConfiguration, abs_of_pos]
  have ht1 : clampToTarget (1 / 4) (1 / 2 - 0) = 1 / 4 := by
    norm_num [clampToTarget, abs_of_pos]
  have ht2 : clampToTarget (1 / 4) (1 / 2 - (0 + 1 / 4)) = 1 / 4 := by
    norm_num [clampToTarget, abs_of_pos]
  simp only [integrateTo, exampleSession, Session.initial, example_performIntegrationStep,
    ht1, ht2, hc, exampleForwardSession]
  norm_num

/-- The example session integrated backward to `t = -1/4` with initial step
size guess `-1/4`: one step, final state `1/4`. -/
theorem example_integrateTo_backward :
    integrateTo exampleIntegrator 1 (-1 / 4) 2 (-1 / 4) exampleSession ()
      = some (.ok (fun _ => 1 / 4), exampleBackwardSession, ()) := by
  have hc : clampStepSize exampleConfiguration (-1 / 4) (-1 / 4 * 4) = -1 / 4 := by
    norm_num [clampStepSize, clamp, exampleConfiguration, abs_of_pos]
  have ht1 : clampToTarget (-1 / 4) (-1 / 4 - 0) = -1 / 4 := by
    norm_num [clampToTarget]
  simp only [integrateTo, exampleSession, Session.initial, example_performIntegrationStep,
    ht1, hc, exampleBackwardSession]
  norm_num

/-- The example integrator accepts every attempt: with `dx/dt = 1` the two
estimates of a step are equal. -/
theorem example_accepts_every_attempt (t : ℚ) (x : State 1) (h : ℚ) (e : Unit)
    (r : StageResult 1) (e' : Unit)
    (heval : evaluateStep RungeKuttaCoefficients.rungeKuttaFehlberg45Coefficients unitRate
      t x h e = some (r, e')) :
    (defaultStepSizeController exampleFunctions exampleConfiguration
      RungeKuttaCoefficients.rungeKuttaFehlberg45Coefficients.lowerOrder h r.lowerOrderEstimate
      r.higherOrderEstimate).accepted = true := by
  have hunit := unitRate_evaluateStep t x h
  cases e
  rw [hunit] at heval
  simp only [Option.some.injEq, Prod.mk.injEq] at heval
  obtain ⟨hr, -⟩ := heval
  rw [← hr]
  have hdecision := example_decision h (fun k => x k + h)
  have horder : RungeKuttaCoefficients.rungeKuttaFehlberg45Coefficients.lowerOrder = 4 := rfl
  rw [horder]
  simp only [hdecision]

/-- C3 (`integrateTo` postcondition).  Whenever `integrateTo(targetTime,
initialStepSizeGuess)` returns a state, for a target ahead of or behind the
current time, the current independent variable is exactly `targetTime` and the
returned vector is the current state.  And it does return: under the default
controller, with a derivative function that never fails, sound settings and a
minimum step size at which every attempt meets the tolerance, from a session
at the target or with an initial step size guess that points to the target,
`integrateTo` returns such a state once enough steps and attempts are
allowed. -/
theorem integrateTo_reaches_target {n : ℕ} {ε : Type}
    (m : ElementaryFunctions) (tab : RungeKuttaCoefficients) (f : StateDerivativeFunction n ε)
    (cfg : Configuration) (hf : ∀ t' x' e0, (f t' x' e0).isSome = true)
    (hmin : 0 < cfg.minimumStepSize) (hle : cfg.minimumStepSize ≤ cfg.maximumStepSize)
    (hsafe : 0 ≤ cfg.safetyFactor) (hsafe1 : cfg.safetyFactor < 1)
    (hdec : 0 < cfg.minimumFactorDecrease) (hdec1 : cfg.minimumFactorDecrease < 1)
    (hinc : cfg.minimumFactorDecrease ≤ cfg.maximumFactorIncrease)
    (hroot : ∀ err p, 1 < err → m.invRoot err p ≤ 1)
    (hsmall : ∀ t x h e r e', evaluateStep tab f t x h e = some (r, e') →
      |h| ≤ cfg.minimumStepSize →
      (defaultStepSizeController m cfg tab.lowerOrder h r.lowerOrderEstimate
        r.higherOrderEstimate).accepted = true)
    (targetTime initialStepSizeGuess : ℚ) (s : Session n) (e : ε)
    (hdir : s.currentIndependentVariable = targetTime ∨
      (0 < initialStepSizeGuess ∧ s.currentIndependentVariable < targetTime) ∨
      (initialStepSizeGuess < 0 ∧ targetTime < s.currentIndependentVariable)) :
    (∃ N K : ℕ, ∀ stepFuel fuel, K ≤ stepFuel → N ≤ fuel →
      ∃ s' e', integrateTo (Integrator.withDefaultController m tab f cfg) stepFuel targetTime
          fuel initialStepSizeGuess s e = some (.ok s'.getCurrentState, s', e') ∧
        s'.getCurrentIndependentVariable = targetTime) ∧
    (∀ (ig : Integrator n ε) (stepFuel fuel : ℕ) (h : ℚ) (s0 : Session n) (e0 : ε)
      (x : State n) (s' : Session n) (e' : ε),
      integrateTo ig stepFuel targetTime fuel h s0 e0 = some (.ok x, s', e') →
        s'.getCurrentIndependentVariable = targetTime ∧ x = s'.getCurrentState) := by
  refine ⟨?_, fun ig stepFuel fuel h s0 e0 x s' e' hret =>
    integrateTo_returns_at_target ig stepFuel targetTime fuel h s0 e0 x s' e' hret⟩
  by_cases hat : s.currentIndependentVariable = targetTime
  · refine ⟨1, 0, fun stepFuel fuel _ hfuel => ?_⟩
    obtain ⟨fuel, rfl⟩ : ∃ j, fuel = j + 1 := ⟨fuel - 1, by omega⟩
    refine ⟨s, e, ?_, hat⟩
    unfold integrateTo
    rw [if_pos hat]
    rfl
  · have hguess : initialStepSizeGuess ≠ 0 := by
      rcases hdir with hnow | ⟨hpos, -⟩ | ⟨hneg, -⟩
      · exact absurd hnow hat
      · exact ne_of_gt hpos
      · exact ne_of_lt hneg
    have habs : 0 < |initialStepSizeGuess| := abs_pos.mpr hguess
    have hq1 : max cfg.minimumFactorDecrease cfg.safetyFactor < 1 := max_lt hdec1 hsafe1
    have hδ : 0 < min cfg.minimumStepSize |initialStepSizeGuess| := lt_min hmin habs
    have hBpos : 0 < max cfg.maximumStepSize |initialStepSizeGuess| :=
      lt_of_lt_of_le habs (le_max_right _ _)
    obtain ⟨K, hK⟩ : ∃ K, max cfg.minimumFactorDecrease cfg.safetyFactor ^ K
        * max cfg.maximumStepSize |initialStepSizeGuess| ≤ cfg.minimumStepSize := by
      obtain ⟨k, hk⟩ := exists_pow_lt_of_lt_one (div_pos hmin hBpos) hq1
      exact ⟨k, le_of_lt ((lt_div_iff₀ hBpos).mp hk)⟩
    obtain ⟨N, hN⟩ := exists_nat_ge (|targetTime - s.currentIndependentVariable|
      / min cfg.minimumStepSize |initialStepSizeGuess|)
    have hdist : |targetTime - s.currentIndependentVariable|
        ≤ N * min cfg.minimumStepSize |initialStepSizeGuess| := (div_le_iff₀ hδ).mp hN
    refine ⟨N + 1, K + 2, fun stepFuel fuel hstepFuel hfuel => ?_⟩
    exact integrateTo_default_reaches m tab f cfg hf hmin hle hsafe hsafe1 hdec hdec1 hinc hroot
      hsmall targetTime (min cfg.minimumStepSize |initialStepSizeGuess|)
      (max cfg.maximumStepSize |initialStepSizeGuess|) hδ (min_le_left _ _) (le_max_left _ _)
      K stepFuel hK hstepFuel N initialStepSizeGuess s e (min_le_right _ _) (le_max_right _ _)
      hdir hdist fuel hfuel

/-- Witness of C3 on the example: `integrateTo` returns for a target ahead of
the current time and for one behind it, with two steps forward and one step
backward, and ends exactly on the target. -/
theorem integrateTo_reaches_target_witness :
    (∃ N K : ℕ, ∀ stepFuel fuel, K ≤ stepFuel → N ≤ fuel →
      ∃ s' e', integrateTo exampleIntegrator stepFuel (1 / 2) fuel (1 / 4) exampleSession ()
          = some (.ok s'.getCurrentState, s', e') ∧
        s'.getCurrentIndependentVariable = 1 / 2) ∧
    (∃ N K : ℕ, ∀ stepFuel fuel, K ≤ stepFuel → N ≤ fuel →
      ∃ s' e', integrateTo exampleIntegrator stepFuel (-1 / 4) fuel (-1 / 4) exampleSession ()
          = some (.ok s'.getCurrentState, s', e') ∧
        s'.getCurrentIndependentVariable = -1 / 4) ∧
    (integrateTo exampleIntegrator 1 (1 / 2) 3 (1 / 4) exampleSession ()
        = some (.ok (fun _ => 1), exampleForwardSession, ()) ∧
      exampleForwardSession.getCurrentIndependentVariable = 1 / 2 ∧
      (fun _ => 1) = exampleForwardSession.getCurrentState) ∧
    (integrateTo exampleIntegrator 1 (-1 / 4) 2 (-1 / 4) exampleSession ()
        = some (.ok (fun _ => 1 / 4), exampleBackwardSession, ()) ∧
      exampleBackwardSession.getCurrentIndependentVariable = -1 / 4 ∧
      (fun _ => 1 / 4) = exampleBackwardSession.getCurrentState) := by
  have hroot : ∀ (err : ℚ) (p : ℕ), 1 < err → exampleFunctions.invRoot err p ≤ 1 := by
    intro err _ herr
    show 1 / err ≤ 1
    rw [div_le_one (by linarith)]
    exact le_of_lt herr
  have hsmall : ∀ (t : ℚ) (x : State 1) (h : ℚ) (e : Unit) (r : StageResult 1) (e' : Unit),
      evaluateStep RungeKuttaCoefficients.rungeKuttaFehlberg45Coefficients unitRate t x h e
        = some (r, e') →
      |h| ≤ exampleConfiguration.minimumStepSize →
      (defaultStepSizeController exampleFunctions exampleConfiguration
        RungeKuttaCoefficients.rungeKuttaFehlberg45Coefficients.lowerOrder h r.lowerOrderEstimate
        r.higherOrderEstimate).accepted = true :=
    fun t x h e r e' heval _ => example_accepts_every_attempt t x h e r e' heval
  have hforward := integrateTo_reaches_target exampleFunctions
    RungeKuttaCoefficients.rungeKuttaFehlberg45Coefficients unitRate exampleConfiguration
    (fun _ _ _ => rfl) (by norm_num [exampleConfiguration])
    (by norm_num [exampleConfiguration]) (by norm_num [exampleConfiguration])
    (by norm_num [exampleConfiguration]) (by norm_num [exampleConfiguration])
    (by norm_num [exampleConfiguration]) (by norm_num [exampleConfiguration])
    hroot hsmall (1 / 2) (1 / 4) exampleSession ()
    (Or.inr (Or.inl ⟨by norm_num, by norm_num [exampleSession, Session.initial]⟩))
  have hbackward := integrateTo_reaches_target exampleFunctions
    RungeKuttaCoefficients.rungeKuttaFehlberg45Coefficients unitRate exampleConfiguration
    (fun _ _ _ => rfl) (by norm_num [exampleConfiguration])
    (by norm_num [exampleConfiguration]) (by norm_num [exampleConfiguration])
    (by norm_num [exampleConfiguration]) (by norm_num [exampleConfiguration])
    (by norm_num [exampleConfiguration]) (by norm_num [exampleConfiguration])
    hroot hsmall (-1 / 4) (-1 / 4) exampleSession ()
    (Or.inr (Or.inr ⟨by norm_num, by norm_num [exampleSession, Session.initial]⟩))
  exact ⟨hforward.1, hbackward.1,
    ⟨example_integrateTo_forward,
      hforward.2 exampleIntegrator 1 3 (1 / 4) exampleSession () _ _ _
        example_integrateTo_forward⟩,
    ⟨example_integrateTo_backward,
      hbackward.2 exampleIntegrator 1 2 (-1 / 4) exampleSession () _ _ _
        example_integrateTo_backward⟩⟩

end numerical_integrators
end tudat

namespace tudat
namespace estimatable_parameters

/-! ## `isDynamicalParameterSingleArc` (C10) -/

/-- C10: `isDynamicalParameterSingleArc` classifies every value of
`EstimatebleParametersEnum`: it returns `false` for
`arc_wise_initial_body_state`, `true` for `initial_body_state`,
`initial_rotational_body_state` and `initial_mass_state`, and raises the
runtime error for every other parameter type, so it returns a value only
for an initial state. -/
theorem isDynamicalParameterSingleArc_classifies (p : EstimatableParameter) :
    (p.getParameterName.1 = .arc_wise_initial_body_state →
      isDynamicalParameterSingleArc p = .ok false) ∧
    (p.getParameterName.1 = .initial_body_state ∨
        p.getParameterName.1 = .initial_rotational_body_state ∨
        p.getParameterName.1 = .initial_mass_state →
      isDynamicalParameterSingleArc p = .ok true) ∧
    (p.getParameterName.1 ≠ .arc_wise_initial_body_state ∧
        p.getParameterName.1 ≠ .initial_body_state ∧
        p.getParameterName.1 ≠ .initial_rotational_body_state ∧
        p.getParameterName.1 ≠ .initial_mass_state →
      isDynamicalParameterSingleArc p = .error
        "Error when checking single/multi-arc dynamical parameter, parameter not identified") ∧
    (∀ flag, isDynamicalParameterSingleArc p = .ok flag →
      p.getParameterName.1 = .arc_wise_initial_body_state ∨
        p.getParameterName.1 = .initial_body_state ∨
        p.getParameterName.1 = .initial_rotational_body_state ∨
        p.getParameterName.1 = .initial_mass_state) := by
  obtain ⟨⟨name, ids⟩⟩ := p
  cases name <;>
    simp [isDynamicalParameterSingleArc, EstimatableParameter.getParameterName]

/-- Witness of C10: an arc-wise initial state of body "Earth" is multi-arc, its
initial mass state is single-arc and its gravitational parameter is
refused. -/
theorem isDynamicalParameterSingleArc_classifies_witness :
    isDynamicalParameterSingleArc ⟨(.arc_wise_initial_body_state, ("Earth", ""))⟩ = .ok false ∧
      isDynamicalParameterSingleArc ⟨(.initial_mass_state, ("Earth", ""))⟩ = .ok true ∧
      isDynamicalParameterSingleArc ⟨(.gravitational_parameter, ("Earth", ""))⟩ = .error
        "Error when checking single/multi-arc dynamical parameter, parameter not identified" :=
  ⟨(isDynamicalParameterSingleArc_classifies
      ⟨(.arc_wise_initial_body_state, ("Earth", ""))⟩).1 rfl,
    (isDynamicalParameterSingleArc_classifies
      ⟨(.initial_mass_state, ("Earth", ""))⟩).2.1 (Or.inr (Or.inr rfl)),
    (isDynamicalParameterSingleArc_classifies
      ⟨(.gravitational_parameter, ("Earth", ""))⟩).2.2.1 (by decide)⟩

end estimatable_parameters
end tudat

namespace tudat
namespace orbit_determination
namespace partial_derivatives

/-! ## Partials w.r.t. the positions (C11, C12) -/

/-- An entry at the offsets `(a, b)` from the start of a block lies in the
block, and its block index is `(a, b)`. -/
theorem inBlock_offset (startRow startColumn : ℤ) (hr : 0 ≤ startRow) (hc : 0 ≤ startColumn)
    (a b : Fin 3) :
    inBlock startRow startColumn (startRow.toNat + a) (startColumn.toNat + b) ∧
      blockIndex (((startRow.toNat + (a : ℕ) : ℕ) : ℤ) - startRow) = a ∧
      blockIndex (((startColumn.toNat + (b : ℕ) : ℕ) : ℤ) - startColumn) = b := by
  have ha := a.isLt
  have hb := b.isLt
  have h1 : ((startRow.toNat + (a : ℕ) : ℕ) : ℤ) - startRow = (a : ℕ) := by
    push_cast
    rw [Int.toNat_of_nonneg hr]
    ring
  have h2 : ((startColumn.toNat + (b : ℕ) : ℕ) : ℤ) - startColumn = (b : ℕ) := by
    push_cast
    rw [Int.toNat_of_nonneg hc]
    ring
  refine ⟨⟨by omega, by omega, by omega, by omega⟩, ?_, ?_⟩
  · rw [h1]
    apply Fin.ext
    simp [blockIndex, Nat.mod_eq_of_lt ha]
  · rw [h2]
    apply Fin.ext
    simp [blockIndex, Nat.mod_eq_of_lt hb]

/-- C11: `SphericalHarmonicsGravityPartial::wrtPositionOfAcceleratedBody`: for
every partial matrix, `startRow` and `startColumn` with the `3x3` block in
range, the call succeeds, the size of the matrix is unchanged, the block at
`(startRow, startColumn)` becomes old block + `currentPartialWrtPosition_`
when `addContribution` is true and old block - `currentPartialWrtPosition_`
when it is false, and every entry outside that block is unchanged. -/
theorem wrtPositionOfAcceleratedBody_updates_block (self : SphericalHarmonicsGravityPartial)
    (partialMatrix : MatrixXd) (addContribution : Bool) (startRow startColumn : ℤ)
    (hrange : partialMatrix.blockInRange startRow startColumn) :
    ∃ result, self.wrtPositionOfAcceleratedBody partialMatrix addContribution startRow
        startColumn = some result ∧
      result.rows = partialMatrix.rows ∧ result.cols = partialMatrix.cols ∧
      (∀ a b : Fin 3,
        result.coeff (startRow.toNat + a) (startColumn.toNat + b)
          = if addContribution then
              partialMatrix.coeff (startRow.toNat + a) (startColumn.toNat + b)
                + self.currentPartialWrtPosition_ a b
            else
              partialMatrix.coeff (startRow.toNat + a) (startColumn.toNat + b)
                - self.currentPartialWrtPosition_ a b) ∧
      (∀ i j, ¬ inBlock startRow startColumn i j →
        result.coeff i j = partialMatrix.coeff i j) := by
  have hr : 0 ≤ startRow := hrange.1
  have hc : 0 ≤ startColumn := hrange.2.1
  cases addContribution with
  | true =>
    refine ⟨⟨partialMatrix.rows, partialMatrix.cols, fun i j =>
      if inBlock startRow startColumn i j then
        partialMatrix.coeff i j + self.currentPartialWrtPosition_
          (blockIndex (i - startRow)) (blockIndex (j - startColumn))
      else partialMatrix.coeff i j⟩, ?_, rfl, rfl, ?_, ?_⟩
    · simp only [SphericalHarmonicsGravityPartial.wrtPositionOfAcceleratedBody,
        MatrixXd.blockAddAssign, if_pos hrange, if_true]
    · intro a b
      obtain ⟨hin, ha, hb⟩ := inBlock_offset startRow startColumn hr hc a b
      simp only [if_pos hin, ha, hb, if_true]
    · intro i j hout
      simp only [if_neg hout]
  | false =>
    refine ⟨⟨partialMatrix.rows, partialMatrix.cols, fun i j =>
      if inBlock startRow startColumn i j then
        partialMatrix.coeff i j - self.currentPartialWrtPosition_
          (blockIndex (i - startRow)) (blockIndex (j - startColumn))
      else partialMatrix.coeff i j⟩, ?_, rfl, rfl, ?_, ?_⟩
    · simp only [SphericalHarmonicsGravityPartial.wrtPositionOfAcceleratedBody,
        MatrixXd.blockSubAssign, if_pos hrange, Bool.false_eq_true, if_false]
    · intro a b
      obtain ⟨hin, ha, hb⟩ := inBlock_offset startRow startColumn hr hc a b
      simp only [if_pos hin, ha, hb, Bool.false_eq_true, if_false]
    · intro i j hout
      simp only [if_neg hout]

/-- Witness of C11: the block at `(0, 3)` of the `3x6` block of zeros is in
range, and after the call with `addContribution` false its entries are minus
those of the position partial. -/
theorem wrtPositionOfAcceleratedBody_updates_block_witness :
    exampleZeroBlock.blockInRange 0 3 ∧
      ∃ result, examplePartial.wrtPositionOfAcceleratedBody exampleZeroBlock false 0 3
          = some result ∧
        result.rows = exampleZeroBlock.rows ∧ result.cols = exampleZeroBlock.cols ∧
        (∀ a b : Fin 3,
          result.coeff ((0 : ℤ).toNat + a) ((3 : ℤ).toNat + b)
            = if false = true then
                exampleZeroBlock.coeff ((0 : ℤ).toNat + a) ((3 : ℤ).toNat + b)
                  + examplePartial.currentPartialWrtPosition_ a b
              else
                exampleZeroBlock.coeff ((0 : ℤ).toNat + a) ((3 : ℤ).toNat + b)
                  - examplePartial.currentPartialWrtPosition_ a b) ∧
        (∀ i j, ¬ inBlock 0 3 i j → result.coeff i j = exampleZeroBlock.coeff i j) :=
  have hrange : exampleZeroBlock.blockInRange 0 3 := by
    simp [MatrixXd.blockInRange, exampleZeroBlock]
  ⟨hrange, wrtPositionOfAcceleratedBody_updates_block examplePartial exampleZeroBlock false 0 3
    hrange⟩

/-- C12: the partial with respect to the position of the body exerting the
acceleration is minus the partial with respect to the body undergoing it: for
every matrix, start indices and flag `b`,
`wrtPositionOfAcceleratingBody(M, b, r, c)` produces the same matrix as
`wrtPositionOfAcceleratedBody(M, not b, r, c)`; so the two calls with the same
flag on blocks of zeros yield matrices whose entries sum to zero. -/
theorem wrtPositionOfAcceleratingBody_eq_negated (self : SphericalHarmonicsGravityPartial) :
    (∀ (partialMatrix : MatrixXd) (addContribution : Bool) (startRow startColumn : ℤ),
      self.wrtPositionOfAcceleratingBody partialMatrix addContribution startRow startColumn
        = self.wrtPositionOfAcceleratedBody partialMatrix (!addContribution) startRow
            startColumn) ∧
    (∀ (rows cols : ℕ) (addContribution : Bool) (startRow startColumn : ℤ)
        (accelerated accelerating : MatrixXd),
      self.wrtPositionOfAcceleratedBody ⟨rows, cols, fun _ _ => 0⟩ addContribution startRow
        startColumn = some accelerated →
      self.wrtPositionOfAcceleratingBody ⟨rows, cols, fun _ _ => 0⟩ addContribution startRow
        startColumn = some accelerating →
      ∀ i j, accelerated.coeff i j + accelerating.coeff i j = 0) := by
  constructor
  · intro partialMatrix addContribution startRow startColumn
    cases addContribution <;> rfl
  · intro rows cols addContribution startRow startColumn accelerated accelerating h1 h2 i j
    cases addContribution <;>
      simp only [SphericalHarmonicsGravityPartial.wrtPositionOfAcceleratedBody,
        SphericalHarmonicsGravityPartial.wrtPositionOfAcceleratingBody,
        MatrixXd.blockAddAssign, MatrixXd.blockSubAssign, Bool.false_eq_true, if_false,
        if_true] at h1 h2 <;>
      split_ifs at h1 h2 <;>
      simp only [Option.some.injEq] at h1 h2 <;>
      subst h1 h2 <;>
      simp only <;>
      split_ifs <;>
      ring

/-- Witness of C12: on the `3x6` block of zeros both calls succeed at `(0, 0)`
with `addContribution` true, and their entries sum to zero. -/
theorem wrtPositionOfAcceleratingBody_eq_negated_witness :
    ∃ accelerated accelerating,
      examplePartial.wrtPositionOfAcceleratedBody ⟨3, 6, fun _ _ => 0⟩ true 0 0
        = some accelerated ∧
      examplePartial.wrtPositionOfAcceleratingBody ⟨3, 6, fun _ _ => 0⟩ true 0 0
        = some accelerating ∧
      accelerated.coeff 1 2 = 6 ∧
      ∀ i j, accelerated.coeff i j + accelerating.coeff i j = 0 := by
  have hrange : (⟨3, 6, fun _ _ => 0⟩ : MatrixXd).blockInRange 0 0 := by
    simp [MatrixXd.blockInRange]
  have h1 : examplePartial.wrtPositionOfAcceleratedBody ⟨3, 6, fun _ _ => 0⟩ true 0 0
      = some ⟨3, 6, fun i j => if inBlock 0 0 i j then
          0 + examplePartial.currentPartialWrtPosition_ (blockIndex (i - 0)) (blockIndex (j - 0))
        else 0⟩ := by
    simp only [SphericalHarmonicsGravityPartial.wrtPositionOfAcceleratedBody,
      MatrixXd.blockAddAssign, if_pos hrange, if_true]
  have h2 : examplePartial.wrtPositionOfAcceleratingBody ⟨3, 6, fun _ _ => 0⟩ true 0 0
      = some ⟨3, 6, fun i j => if inBlock 0 0 i j then
          0 - examplePartial.currentPartialWrtPosition_ (blockIndex (i - 0)) (blockIndex (j - 0))
        else 0⟩ := by
    simp only [SphericalHarmonicsGravityPartial.wrtPositionOfAcceleratingBody,
      MatrixXd.blockSubAssign, if_pos hrange, if_true]
  refine ⟨_, _, h1, h2, ?_,
    (wrtPositionOfAcceleratingBody_eq_negated examplePartial).2 3 6 true 0 0 _ _ h1 h2⟩
  have hin : inBlock 0 0 1 2 := by
    simp [inBlock]
  have hrow : blockIndex (((1 : ℕ) : ℤ) - 0) = 1 := by decide
  have hcol : blockIndex (((2 : ℕ) : ℤ) - 0) = 2 := by decide
  simp only [if_pos hin, hrow, hcol]
  norm_num [examplePartial]

/-! ## Dependency on non-translational states (C13) -/

/-- C13: `isStateDerivativeDependentOnIntegratedNonTranslationalState` raises
an error if and only if `integratedStateType` is `body_mass_state` and the
reference body is the accelerating body, or is the accelerated body while
mutual attraction is used; for every other input it returns false, and it
never returns true. -/
theorem isStateDerivativeDependent_raises_iff {IntegratedStateType : Type}
    [DecidableEq IntegratedStateType] (body_mass_state : IntegratedStateType)
    (self : SphericalHarmonicsGravityPartial) (stateReferencePoint : String × String)
    (integratedStateType : IntegratedStateType) :
    ((∃ message, self.isStateDerivativeDependentOnIntegratedNonTranslationalState
        body_mass_state stateReferencePoint integratedStateType = .error message) ↔
      (integratedStateType = body_mass_state ∧
        (stateReferencePoint.1 = self.acceleratingBody_ ∨
          (stateReferencePoint.1 = self.acceleratedBody_ ∧
            self.accelerationUsesMutualAttraction_ = true)))) ∧
    (¬ (integratedStateType = body_mass_state ∧
        (stateReferencePoint.1 = self.acceleratingBody_ ∨
          (stateReferencePoint.1 = self.acceleratedBody_ ∧
            self.accelerationUsesMutualAttraction_ = true))) →
      self.isStateDerivativeDependentOnIntegratedNonTranslationalState
        body_mass_state stateReferencePoint integratedStateType = .ok false) ∧
    self.isStateDerivativeDependentOnIntegratedNonTranslationalState
      body_mass_state stateReferencePoint integratedStateType ≠ .ok true := by
  unfold SphericalHarmonicsGravityPartial.isStateDerivativeDependentOnIntegratedNonTranslationalState
  split_ifs with hcond
  · refine ⟨⟨fun _ => ⟨hcond.2, hcond.1⟩, fun _ => ⟨_, rfl⟩⟩, ?_, ?_⟩
    · intro hnot
      exact absurd ⟨hcond.2, hcond.1⟩ hnot
    · intro h
      cases h
  · refine ⟨⟨?_, fun h => absurd ⟨h.2, h.1⟩ hcond⟩, fun _ => rfl, ?_⟩
    · rintro ⟨message, h⟩
      cases h
    · intro h
      cases h

/-- Witness of C13 on the example (accelerating body "Earth", no mutual
attraction): the mass state of the Earth raises, the mass state of the vehicle
and the translational state of the Earth return false. -/
theorem isStateDerivativeDependent_raises_iff_witness :
    (∃ message, examplePartial.isStateDerivativeDependentOnIntegratedNonTranslationalState
        ExampleStateType.body_mass_state ("Earth", "") ExampleStateType.body_mass_state
          = .error message) ∧
      examplePartial.isStateDerivativeDependentOnIntegratedNonTranslationalState
        ExampleStateType.body_mass_state ("Vehicle", "") ExampleStateType.body_mass_state
          = .ok false ∧
      examplePartial.isStateDerivativeDependentOnIntegratedNonTranslationalState
        ExampleStateType.body_mass_state ("Earth", "") ExampleStateType.translational_state
          = .ok false :=
  ⟨(isStateDerivativeDependent_raises_iff ExampleStateType.body_mass_state examplePartial
      ("Earth", "") ExampleStateType.body_mass_state).1.mpr ⟨rfl, Or.inl rfl⟩,
    (isStateDerivativeDependent_raises_iff ExampleStateType.body_mass_state examplePartial
      ("Vehicle", "") ExampleStateType.body_mass_state).2.1 (by decide),
    (isStateDerivativeDependent_raises_iff ExampleStateType.body_mass_state examplePartial
      ("Earth", "") ExampleStateType.translational_state).2.1 (by decide)⟩

/-! ## Rounding to `double` -/

/-- Rounding to the nearest integer moves a number by at most `1/2`. -/
theorem roundHalfEven_sub_le (y : ℚ) : |(roundHalfEven y : ℚ) - y| ≤ 1 / 2 := by
  have h1 : (⌊y⌋ : ℚ) ≤ y := Int.floor_le y
  have h2 : y < (⌊y⌋ : ℚ) + 1 := Int.lt_floor_add_one y
  unfold roundHalfEven
  split_ifs with ha hb hc
  · rw [abs_le]; constructor <;> linarith
  · rw [abs_le]; push_cast; constructor <;> linarith
  · rw [abs_le]; constructor <;> linarith
  · have hle : y - ⌊y⌋ ≤ 1 / 2 := not_lt.mp hb
    rw [abs_le]; push_cast; constructor <;> linarith

/-- A number less than `1/2` away from an integer is rounded to it. -/
theorem roundHalfEven_eq (y : ℚ) (z : ℤ) (h : |y - z| < 1 / 2) : roundHalfEven y = z := by
  rw [abs_lt] at h
  obtain ⟨hlo, hhi⟩ := h
  rcases le_or_lt (z : ℚ) y with hzy | hzy
  · have hfloor : ⌊y⌋ = z := by
      rw [Int.floor_eq_iff]
      constructor
      · exact hzy
      · linarith
    unfold roundHalfEven
    rw [hfloor, if_pos (by linarith)]
  · have hfloor : ⌊y⌋ = z - 1 := by
      rw [Int.floor_eq_iff]
      push_cast
      constructor <;> linarith
    unfold roundHalfEven
    rw [hfloor]
    have h1 : ¬ (y - ((z - 1 : ℤ) : ℚ) < 1 / 2) := by push_cast; linarith
    have h2 : 1 / 2 < y - ((z - 1 : ℤ) : ℚ) := by push_cast; linarith
    rw [if_neg h1, if_pos h2]
    ring

/-- Rounding to `double` has a relative error of at most `2^-53`. -/
theorem roundToDouble_sub_le (x : ℚ) : |roundToDouble x - x| ≤ |x| / 2 ^ 53 := by
  unfold roundToDouble
  split_ifs with hx
  · simp [hx]
  · have hpos : 0 < |x| := abs_pos.mpr hx
    have hlog : ((2 : ℕ) : ℚ) ^ Int.log 2 |x| ≤ |x| := Int.zpow_log_le_self (by norm_num) hpos
    have hlog2 : (2 : ℚ) ^ Int.log 2 |x| ≤ |x| := by simpa using hlog
    have hscale : (2 : ℚ) ^ (52 - Int.log 2 |x|) * (2 : ℚ) ^ (Int.log 2 |x| - 52) = 1 := by
      rw [← zpow_add₀ (by norm_num : (2 : ℚ) ≠ 0)]
      simp
    have hp : (0 : ℚ) < (2 : ℚ) ^ (Int.log 2 |x| - 52) := zpow_pos (by norm_num) _
    have hround := roundHalfEven_sub_le (x * (2 : ℚ) ^ (52 - Int.log 2 |x|))
    have heq : (roundHalfEven (x * (2 : ℚ) ^ (52 - Int.log 2 |x|)) : ℚ)
          * (2 : ℚ) ^ (Int.log 2 |x| - 52) - x
        = ((roundHalfEven (x * (2 : ℚ) ^ (52 - Int.log 2 |x|)) : ℚ)
            - x * (2 : ℚ) ^ (52 - Int.log 2 |x|)) * (2 : ℚ) ^ (Int.log 2 |x| - 52) := by
      rw [sub_mul, mul_assoc, hscale, mul_one]
    rw [heq, abs_mul, abs_of_pos hp]
    have hsplit : (2 : ℚ) ^ (Int.log 2 |x| - 52) = (2 : ℚ) ^ Int.log 2 |x| / 2 ^ 52 := by
      rw [zpow_sub₀ (by norm_num : (2 : ℚ) ≠ 0)]
      norm_num
    rw [hsplit]
    have h52 : (0 : ℚ) ≤ (2 : ℚ) ^ Int.log 2 |x| / 2 ^ 52 := by positivity
    calc |(roundHalfEven (x * (2 : ℚ) ^ (52 - Int.log 2 |x|)) : ℚ)
            - x * (2 : ℚ) ^ (52 - Int.log 2 |x|)| * ((2 : ℚ) ^ Int.log 2 |x| / 2 ^ 52)
        ≤ 1 / 2 * ((2 : ℚ) ^ Int.log 2 |x| / 2 ^ 52) := mul_le_mul_of_nonneg_right hround h52
      _ = (2 : ℚ) ^ Int.log 2 |x| / 2 ^ 53 := by ring
      _ ≤ |x| / 2 ^ 53 := by
          apply div_le_div_of_nonneg_right hlog2
          positivity

/-- Evaluation of `roundToDouble`: for `x` with binary exponent `e` whose
scaling to `[2^52, 2^53)` is less than `1/2` away from the integer `z`, the
nearest `double` is `z * 2^(e - 52)`. -/
theorem roundToDouble_eq (x : ℚ) (e z : ℤ) (hlo : (2 : ℚ) ^ e ≤ |x|)
    (hhi : |x| < (2 : ℚ) ^ (e + 1)) (hz : |x * (2 : ℚ) ^ (52 - e) - z| < 1 / 2) :
    roundToDouble x = z * (2 : ℚ) ^ (e - 52) := by
  have hpos : 0 < |x| := lt_of_lt_of_le (zpow_pos (by norm_num) _) hlo
  have hx : x ≠ 0 := abs_pos.mp hpos
  have hlog : Int.log 2 |x| = e := by
    have h1 : e ≤ Int.log 2 |x| :=
      (Int.zpow_le_iff_le_log (by norm_num) hpos).mp (by simpa using hlo)
    have h2 : Int.log 2 |x| < e + 1 :=
      (Int.lt_zpow_iff_log_lt (by norm_num) hpos).mp (by simpa using hhi)
    omega
  unfold roundToDouble
  rw [if_neg hx, hlog, roundHalfEven_eq _ z hz]

/-- The `double` nearest to `1 / 49`. -/
theorem roundToDouble_one_div_49 : roundToDouble (1 / 49) = 5882252574524729 / 2 ^ 58 := by
  rw [roundToDouble_eq (1 / 49) (-6) 5882252574524729 (by norm_num [abs_of_pos])
    (by norm_num [abs_of_pos]) (by norm_num [abs_lt])]
  norm_num

/-- The `double` nearest to `2` is `2`. -/
theorem roundToDouble_two : roundToDouble 2 = 2 := by
  rw [roundToDouble_eq 2 1 (2 ^ 52) (by norm_num [abs_of_pos])
    (by norm_num [abs_of_pos]) (by norm_num [abs_lt])]
  norm_num

/-- The entries of the column matrix of a vector. -/
theorem columnMatrix_coeff (v : Vector3d) (i : Fin 3) :
    (SphericalHarmonicsGravityPartial.columnMatrix v).coeff i 0 = v i := by
  have hi : (i : ℕ) < 3 ∧ 0 < 1 := ⟨i.isLt, Nat.zero_lt_one⟩
  simp only [SphericalHarmonicsGravityPartial.columnMatrix, dif_pos hi]

/-! ## Partial w.r.t. the gravitational parameter (C14) -/

/-- C14, amended: `wrtGravitationalParameterOfCentralBody` raises an error if
and only if the gravitational parameter is exactly 0, and then leaves the
output matrix untouched; otherwise it overwrites the output with the `3x1`
matrix of the `double` quotients acceleration / gravitationalParameter, each
the exact quotient rounded to the nearest `double`.  Overflow and underflow
aside, the product output * gravitationalParameter then differs from the
current acceleration by at most `2^-53` times its magnitude, and equals it
when the quotient is a `double`. -/
theorem wrtGravitationalParameter_raises_iff_zero (self : SphericalHarmonicsGravityPartial)
    (partialMatrix : MatrixXd) :
    ((∃ message, (self.wrtGravitationalParameterOfCentralBody partialMatrix).1
        = .error message) ↔ self.gravitationalParameterFunction_ () = 0) ∧
    (self.gravitationalParameterFunction_ () = 0 →
      (self.wrtGravitationalParameterOfCentralBody partialMatrix).2 = partialMatrix) ∧
    (self.gravitationalParameterFunction_ () ≠ 0 →
      (self.wrtGravitationalParameterOfCentralBody partialMatrix).1 = .ok () ∧
      (self.wrtGravitationalParameterOfCentralBody partialMatrix).2.rows = 3 ∧
      (self.wrtGravitationalParameterOfCentralBody partialMatrix).2.cols = 1 ∧
      ∀ i : Fin 3,
        (self.wrtGravitationalParameterOfCentralBody partialMatrix).2.coeff i 0
          = roundToDouble
              (self.accelerationFunction_ () i / self.gravitationalParameterFunction_ ()) ∧
        |(self.wrtGravitationalParameterOfCentralBody partialMatrix).2.coeff i 0
            * self.gravitationalParameterFunction_ () - self.accelerationFunction_ () i|
          ≤ |self.accelerationFunction_ () i| / 2 ^ 53 ∧
        (roundToDouble
            (self.accelerationFunction_ () i / self.gravitationalParameterFunction_ ())
            = self.accelerationFunction_ () i / self.gravitationalParameterFunction_ () →
          (self.wrtGravitationalParameterOfCentralBody partialMatrix).2.coeff i 0
            * self.gravitationalParameterFunction_ () = self.accelerationFunction_ () i)) := by
  unfold SphericalHarmonicsGravityPartial.wrtGravitationalParameterOfCentralBody
  split_ifs with hmu
  · refine ⟨⟨?_, fun h => absurd h hmu⟩, fun h => absurd h hmu, fun _ => ⟨rfl, rfl, rfl, ?_⟩⟩
    · rintro ⟨message, h⟩
      cases h
    · intro i
      simp only [columnMatrix_coeff, doubleDivide, true_and]
      refine ⟨?_, ?_⟩
      · have hround := roundToDouble_sub_le
          (self.accelerationFunction_ () i / self.gravitationalParameterFunction_ ())
        have hpos : 0 < |self.gravitationalParameterFunction_ ()| := abs_pos.mpr hmu
        have heq : roundToDouble
              (self.accelerationFunction_ () i / self.gravitationalParameterFunction_ ())
              * self.gravitationalParameterFunction_ () - self.accelerationFunction_ () i
            = (roundToDouble
                (self.accelerationFunction_ () i / self.gravitationalParameterFunction_ ())
                - self.accelerationFunction_ () i / self.gravitationalParameterFunction_ ())
              * self.gravitationalParameterFunction_ () := by
          rw [sub_mul, div_mul_cancel₀ _ hmu]
        rw [heq, abs_mul]
        calc |roundToDouble
                (self.accelerationFunction_ () i / self.gravitationalParameterFunction_ ())
                - self.accelerationFunction_ () i / self.gravitationalParameterFunction_ ()|
              * |self.gravitationalParameterFunction_ ()|
            ≤ |self.accelerationFunction_ () i / self.gravitationalParameterFunction_ ()|
                / 2 ^ 53 * |self.gravitationalParameterFunction_ ()| :=
              mul_le_mul_of_nonneg_right hround (le_of_lt hpos)
          _ = |self.accelerationFunction_ () i| / 2 ^ 53 := by
              rw [abs_div]
              field_simp
              ring
      · intro hexact
        rw [hexact]
        exact div_mul_cancel₀ _ hmu
  · have hzero : self.gravitationalParameterFunction_ () = 0 := not_not.mp hmu
    exact ⟨⟨fun _ => hzero, fun _ => ⟨_, rfl⟩⟩, fun _ => rfl, fun h => absurd hzero h⟩

/-- Witness of C14: the example, with gravitational parameter 4 and
acceleration `(8, -4, 2)`, overwrites the first entry with the `double` 2,
which times 4 is the acceleration 8; with gravitational parameter 0 the call
raises and the block of zeros stays. -/
theorem wrtGravitationalParameter_raises_iff_zero_witness :
    (examplePartial.wrtGravitationalParameterOfCentralBody exampleZeroBlock).1 = .ok () ∧
      (examplePartial.wrtGravitationalParameterOfCentralBody exampleZeroBlock).2.coeff
        ((0 : Fin 3) : ℕ) 0 * examplePartial.gravitationalParameterFunction_ ()
          = examplePartial.accelerationFunction_ () 0 ∧
      (exampleMasslessPartial.wrtGravitationalParameterOfCentralBody exampleZeroBlock).2
        = exampleZeroBlock :=
  have hmu : examplePartial.gravitationalParameterFunction_ () ≠ 0 := by
    norm_num [examplePartial]
  have hexact : roundToDouble
      (examplePartial.accelerationFunction_ () 0 / examplePartial.gravitationalParameterFunction_ ())
      = examplePartial.accelerationFunction_ () 0
        / examplePartial.gravitationalParameterFunction_ () := by
    have hq : examplePartial.accelerationFunction_ () 0
        / examplePartial.gravitationalParameterFunction_ () = 2 := by
      norm_num [examplePartial]
    rw [hq, roundToDouble_two]
  ⟨((wrtGravitationalParameter_raises_iff_zero examplePartial exampleZeroBlock).2.2 hmu).1,
    (((wrtGravitationalParameter_raises_iff_zero examplePartial exampleZeroBlock).2.2
      hmu).2.2.2 0).2.2 hexact,
    (wrtGravitationalParameter_raises_iff_zero exampleMasslessPartial exampleZeroBlock).2.1 rfl⟩

/-- Counterexample to C14 as worded: with the gravitational parameter 49 and
the acceleration `(1, 0, 0)` the call succeeds and the first entry of the
output is the `double` nearest to `1 / 49`, which is `5882252574524729 / 2^58`.
Its product with 49 is not the acceleration 1, neither the exact product nor
the `double` product, which is `1 - 2^-53`. -/
theorem wrtGravitationalParameter_product_differs :
    (exampleRoundingPartial.wrtGravitationalParameterOfCentralBody exampleZeroBlock).1 = .ok () ∧
      (exampleRoundingPartial.wrtGravitationalParameterOfCentralBody exampleZeroBlock).2.coeff
          ((0 : Fin 3) : ℕ) 0 = 5882252574524729 / 2 ^ 58 ∧
      (exampleRoundingPartial.wrtGravitationalParameterOfCentralBody exampleZeroBlock).2.coeff
          ((0 : Fin 3) : ℕ) 0 * exampleRoundingPartial.gravitationalParameterFunction_ ()
        ≠ exampleRoundingPartial.accelerationFunction_ () 0 ∧
      doubleMultiply
          ((exampleRoundingPartial.wrtGravitationalParameterOfCentralBody exampleZeroBlock).2.coeff
            ((0 : Fin 3) : ℕ) 0)
          (exampleRoundingPartial.gravitationalParameterFunction_ ()) = 1 - 1 / 2 ^ 53 ∧
      doubleMultiply
          ((exampleRoundingPartial.wrtGravitationalParameterOfCentralBody exampleZeroBlock).2.coeff
            ((0 : Fin 3) : ℕ) 0)
          (exampleRoundingPartial.gravitationalParameterFunction_ ())
        ≠ exampleRoundingPartial.accelerationFunction_ () 0 := by
  have hentry :
      (exampleRoundingPartial.wrtGravitationalParameterOfCentralBody exampleZeroBlock).2.coeff
          ((0 : Fin 3) : ℕ) 0 = 5882252574524729 / 2 ^ 58 := by
    have hmu : exampleRoundingPartial.gravitationalParameterFunction_ () ≠ 0 := by
      norm_num [exampleRoundingPartial]
    simp only [SphericalHarmonicsGravityPartial.wrtGravitationalParameterOfCentralBody,
      if_pos hmu, columnMatrix_coeff, doubleDivide]
    have hq : exampleRoundingPartial.accelerationFunction_ () 0
        / exampleRoundingPartial.gravitationalParameterFunction_ () = 1 / 49 := by
      norm_num [exampleRoundingPartial]
    rw [hq, roundToDouble_one_div_49]
  have hmu49 : exampleRoundingPartial.gravitationalParameterFunction_ () = 49 := rfl
  have hacc : exampleRoundingPartial.accelerationFunction_ () 0 = 1 := rfl
  have hproduct : doubleMultiply (5882252574524729 / 2 ^ 58) 49 = 1 - 1 / 2 ^ 53 := by
    unfold doubleMultiply
    rw [roundToDouble_eq _ (-1) 9007199254740991 (by norm_num [abs_of_pos])
      (by norm_num [abs_of_pos]) (by norm_num [abs_lt])]
    norm_num
  refine ⟨?_, hentry, ?_, ?_, ?_⟩
  · simp [SphericalHarmonicsGravityPartial.wrtGravitationalParameterOfCentralBody, hmu49]
  · rw [hentry, hmu49, hacc]
    norm_num
  · rw [hentry, hmu49, hproduct]
  · rw [hentry, hmu49, hproduct, hacc]
    norm_num

end partial_derivatives
end orbit_determination
end tudat

namespace tudat
namespace observation_models

/-! ## `PiecewiseLinearFrequencyInterpolator::getCurrentFrequency` (C15) -/

/-- The call `v.at( i )` at a valid index returns the element. -/
theorem vectorAt_of_getElem? {α : Type} (v : List α) (i : ℕ) (x : α) (h : v[i]? = some x) :
    vectorAt v (i : ℤ) = .ok x := by
  simp [vectorAt, h]

/-- The call `v.at( i )` at an index from the size of the vector on throws
`std::out_of_range`. -/
theorem vectorAt_of_length_le {α : Type} (v : List α) (i : ℕ) (h : v.length ≤ i) :
    vectorAt v (i : ℤ) = .error .out_of_range := by
  have hnone : v[i]? = none := List.getElem?_eq_none h
  simp [vectorAt, hnone]

/-- C15: `PiecewiseLinearFrequencyInterpolator::getCurrentFrequency`: with `i`
the nearest lower neighbour of `lookupTime` that the lookup scheme of the ramp
start times returns, a valid index of the four vectors, the call raises an
error if and only if `lookupTime > endTimes_[i]` or
`lookupTime < startTimes_[i]`; otherwise it returns
`startFrequencies_[i] + rampRates_[i] * (lookupTime - startTimes_[i])`, in
particular exactly `startFrequencies_[i]` at `lookupTime = startTimes_[i]`. -/
theorem linear_getCurrentFrequency_spec (self : PiecewiseLinearFrequencyInterpolator)
    (lookupTime : ℚ) (i : ℕ) (startTime endTime rampRate startFrequency : ℚ)
    (hi : self.startTimeLookupScheme_.findNearestLowerNeighbour lookupTime = (i : ℤ))
    (hs : self.startTimes_[i]? = some startTime) (he : self.endTimes_[i]? = some endTime)
    (hr : self.rampRates_[i]? = some rampRate)
    (hf : self.startFrequencies_[i]? = some startFrequency) :
    ((∃ e, self.getCurrentFrequency lookupTime = .error e) ↔
      (lookupTime > endTime ∨ lookupTime < startTime)) ∧
    (¬ (lookupTime > endTime ∨ lookupTime < startTime) →
      self.getCurrentFrequency lookupTime
        = .ok (startFrequency + rampRate * (lookupTime - startTime))) ∧
    (lookupTime = startTime → startTime ≤ endTime →
      self.getCurrentFrequency lookupTime = .ok startFrequency) := by
  have hthrow : ∃ e, self.throwOutsideRampTable = .error e := by
    unfold PiecewiseLinearFrequencyInterpolator.throwOutsideRampTable
    split
    · exact ⟨_, rfl⟩
    · exact ⟨_, rfl⟩
  have hvalue : ¬ (lookupTime > endTime ∨ lookupTime < startTime) →
      self.getCurrentFrequency lookupTime
        = .ok (startFrequency + rampRate * (lookupTime - startTime)) := by
    intro hin
    have h1 : ¬ lookupTime > endTime := fun h => hin (Or.inl h)
    have h2 : ¬ lookupTime < startTime := fun h => hin (Or.inr h)
    simp only [PiecewiseLinearFrequencyInterpolator.getCurrentFrequency, hi,
      vectorAt_of_getElem? _ _ _ hs, vectorAt_of_getElem? _ _ _ he,
      vectorAt_of_getElem? _ _ _ hr, vectorAt_of_getElem? _ _ _ hf, if_neg h1, if_neg h2]
  refine ⟨⟨?_, ?_⟩, hvalue, ?_⟩
  · rintro ⟨e, herr⟩
    by_contra hin
    rw [hvalue hin] at herr
    cases herr
  · intro hout
    by_cases h1 : lookupTime > endTime
    · simp only [PiecewiseLinearFrequencyInterpolator.getCurrentFrequency, hi,
        vectorAt_of_getElem? _ _ _ he, if_pos h1]
      exact hthrow
    · have h2 : lookupTime < startTime := hout.resolve_left h1
      simp only [PiecewiseLinearFrequencyInterpolator.getCurrentFrequency, hi,
        vectorAt_of_getElem? _ _ _ hs, vectorAt_of_getElem? _ _ _ he, if_neg h1, if_pos h2]
      exact hthrow
  · intro heq hle
    have hin : ¬ (lookupTime > endTime ∨ lookupTime < startTime) := by
      rw [heq]
      intro h
      rcases h with h | h
      · exact absurd hle (not_le.mpr h)
      · exact lt_irrefl _ h
    rw [hvalue hin, heq]
    simp

/-- The lookup scheme of the example ramp table: times in `[0, 10)` belong to
ramp 0, times in `[10, 20)` to ramp 1 and times in `[20, 30)` to ramp 2. -/
theorem exampleRampTable_lookup (t : ℚ) :
    (t < 10 → exampleRampTable.startTimeLookupScheme_.findNearestLowerNeighbour t
      = ((0 : ℕ) : ℤ)) ∧
    (10 ≤ t → t < 20 → exampleRampTable.startTimeLookupScheme_.findNearestLowerNeighbour t
      = ((1 : ℕ) : ℤ)) ∧
    (20 ≤ t → t < 30 → exampleRampTable.startTimeLookupScheme_.findNearestLowerNeighbour t
      = ((2 : ℕ) : ℤ)) := by
  refine ⟨fun h => ?_, fun h1 h2 => ?_, fun h h3 => ?_⟩
  · have h10 : ¬ (10 : ℚ) ≤ t := not_le.mpr h
    by_cases h0 : (0 : ℚ) ≤ t <;>
      simp [exampleRampTable, PiecewiseLinearFrequencyInterpolator.create,
        nearestLowerNeighbourScheme, List.takeWhile, h0, h10]
  · have h0 : (0 : ℚ) ≤ t := by linarith
    have h20 : ¬ (20 : ℚ) ≤ t := not_le.mpr h2
    simp [exampleRampTable, PiecewiseLinearFrequencyInterpolator.create,
      nearestLowerNeighbourScheme, List.takeWhile, h0, h1, h20]
  · have h0 : (0 : ℚ) ≤ t := by linarith
    have h10 : (10 : ℚ) ≤ t := by linarith
    have h30 : ¬ (30 : ℚ) ≤ t := not_le.mpr h3
    simp [exampleRampTable, PiecewiseLinearFrequencyInterpolator.create,
      nearestLowerNeighbourScheme, List.takeWhile, h0, h10, h, h30]

/-- Witness of C15 on the example ramp table: the time 12 lies in ramp 1,
which runs from 10 to 20, and the frequency there is `10 + 3 * (12 - 10)`. -/
theorem linear_getCurrentFrequency_spec_witness :
    exampleRampTable.startTimeLookupScheme_.findNearestLowerNeighbour 12 = ((1 : ℕ) : ℤ) ∧
      exampleRampTable.getCurrentFrequency 12 = .ok (10 + 3 * (12 - 10)) :=
  have hi : exampleRampTable.startTimeLookupScheme_.findNearestLowerNeighbour 12
      = ((1 : ℕ) : ℤ) := (exampleRampTable_lookup 12).2.1 (by norm_num) (by norm_num)
  ⟨hi, (linear_getCurrentFrequency_spec exampleRampTable 12 1 10 20 3 10 hi rfl rfl rfl rfl).2.1
    (by norm_num)⟩

/-! ## `FourierSeriesReferenceCorrection` constructor (C16) -/

/-- The call `v.at( i )` below the size of the vector returns entry `i`. -/
theorem vectorAt_of_lt (v : List ℚ) (i : ℕ) (h : i < v.length) :
    vectorAt v (i : ℤ) = .ok (v.getD i 0) := by
  have hsome : v[i]? = some v[i] := List.getElem?_eq_getElem h
  rw [vectorAt_of_getElem? v i _ hsome, List.getD_eq_getElem v 0 h]

/-- The loop of the constructor, started at index `i` with `2 m` entries left,
appends the `m` entries at `i, i + 2, ..` to the cosine coefficients and the
`m` entries at `i + 1, i + 3, ..` to the sine coefficients, and reads no
index out of range. -/
theorem splitCoefficients_spec (coefficients : List ℚ) (m : ℕ) :
    ∀ (i : ℕ) (cosineCoefficients sineCoefficients : List ℚ),
      i + 2 * m = coefficients.length →
      FourierSeriesReferenceCorrection.splitCoefficients coefficients i cosineCoefficients
          sineCoefficients
        = .ok (cosineCoefficients ++ (List.range m).map (fun k => coefficients.getD (i + 2 * k) 0),
            sineCoefficients ++
              (List.range m).map (fun k => coefficients.getD (i + 2 * k + 1) 0)) := by
  induction m with
  | zero =>
    intro i cosineCoefficients sineCoefficients hlen
    rw [FourierSeriesReferenceCorrection.splitCoefficients]
    have hnot : ¬ i < coefficients.length := by omega
    simp [hnot]
  | succ m ih =>
    intro i cosineCoefficients sineCoefficients hlen
    rw [FourierSeriesReferenceCorrection.splitCoefficients]
    have hlt : i < coefficients.length := by omega
    have hlt1 : i + 1 < coefficients.length := by omega
    have hat1 : vectorAt coefficients ((i : ℤ) + 1) = .ok (coefficients.getD (i + 1) 0) := by
      have := vectorAt_of_lt coefficients (i + 1) hlt1
      push_cast at this
      exact this
    simp only [if_pos hlt, vectorAt_of_lt coefficients i hlt, hat1]
    rw [ih (i + 2) _ _ (by omega)]
    simp only [List.range_succ_eq_map, List.map_cons, List.map_map, List.append_assoc,
      List.singleton_append, Except.ok.injEq, Prod.mk.injEq, List.append_cancel_left_eq,
      List.cons.injEq, Nat.mul_zero, Nat.add_zero, true_and]
    constructor <;>
      · apply List.map_congr_left
        intro k _
        simp only [Function.comp_apply]
        congr 1
        omega

/-- C16: the `FourierSeriesReferenceCorrection` constructor raises an error if
and only if the coefficient list has fewer than 2 entries or an odd number of
entries.  Otherwise, for a list `c` of even length `n`, it builds the object
with `period_ = c[0]`, `cosineCoefficients_ = [c[1], c[2], c[4], .., c[n-2]]`
and `sineCoefficients_ = [0, c[3], c[5], .., c[n-1]]`, both of length `n/2`;
no index read is out of range, so `std::out_of_range` is never thrown. -/
theorem fourierSeries_constructor_spec (startTime endTime : ℚ) (c : List ℚ) :
    ((∃ e, FourierSeriesReferenceCorrection.create startTime endTime c = .error e) ↔
      (c.length < 2 ∨ c.length % 2 = 1)) ∧
    FourierSeriesReferenceCorrection.create startTime endTime c ≠ .error .out_of_range ∧
    (2 ≤ c.length → c.length % 2 = 0 →
      ∃ correction, FourierSeriesReferenceCorrection.create startTime endTime c = .ok correction ∧
        correction.period_ = c.getD 0 0 ∧
        correction.cosineCoefficients_
          = c.getD 1 0 :: (List.range (c.length / 2 - 1)).map (fun k => c.getD (2 * k + 2) 0) ∧
        correction.sineCoefficients_
          = 0 :: (List.range (c.length / 2 - 1)).map (fun k => c.getD (2 * k + 3) 0) ∧
        correction.cosineCoefficients_.length = c.length / 2 ∧
        correction.sineCoefficients_.length = c.length / 2) := by
  have hvalid : 2 ≤ c.length → c.length % 2 = 0 →
      FourierSeriesReferenceCorrection.create startTime endTime c
        = .ok { startTime_ := startTime
                endTime_ := endTime
                period_ := c.getD 0 0
                cosineCoefficients_ := c.getD 1 0 ::
                  (List.range (c.length / 2 - 1)).map (fun k => c.getD (2 * k + 2) 0)
                sineCoefficients_ := 0 ::
                  (List.range (c.length / 2 - 1)).map (fun k => c.getD (2 * k + 3) 0) } := by
    intro h2 heven
    have hcond : ¬ (c.length < 2 ∨ c.length % 2 ≠ 0) := by omega
    have h0 : vectorAt c 0 = .ok (c.getD 0 0) := by
      have := vectorAt_of_lt c 0 (by omega)
      simpa using this
    have h1 : vectorAt c 1 = .ok (c.getD 1 0) := by
      have := vectorAt_of_lt c 1 (by omega)
      simpa using this
    have hloop := splitCoefficients_spec c (c.length / 2 - 1) 2 [c.getD 1 0] [0] (by omega)
    simp only [FourierSeriesReferenceCorrection.create, if_neg hcond, h0, h1, hloop,
      List.singleton_append, Except.ok.injEq, FourierSeriesReferenceCorrection.mk.injEq,
      List.cons.injEq, true_and]
    constructor <;>
      · apply List.map_congr_left
        intro k _
        congr 1
        omega
  have hinvalid : (c.length < 2 ∨ c.length % 2 = 1) →
      ∃ message, FourierSeriesReferenceCorrection.create startTime endTime c
        = .error (.runtime_error message) := by
    intro hbad
    have hcond : c.length < 2 ∨ c.length % 2 ≠ 0 := by omega
    simp only [FourierSeriesReferenceCorrection.create, if_pos hcond]
    exact ⟨_, rfl⟩
  refine ⟨⟨?_, ?_⟩, ?_, ?_⟩
  · rintro ⟨e, herr⟩
    by_contra hgood
    rw [hvalid (by omega) (by omega)] at herr
    cases herr
  · intro hbad
    obtain ⟨message, hmessage⟩ := hinvalid hbad
    exact ⟨_, hmessage⟩
  · intro hout
    by_cases hbad : c.length < 2 ∨ c.length % 2 = 1
    · obtain ⟨message, hmessage⟩ := hinvalid hbad
      rw [hmessage] at hout
      cases hout
    · rw [hvalid (by omega) (by omega)] at hout
      cases hout
  · intro h2 heven
    refine ⟨_, hvalid h2 heven, rfl, rfl, rfl, ?_, ?_⟩
    · simp only [List.length_cons, List.length_map, List.length_range]
      omega
    · simp only [List.length_cons, List.length_map, List.length_range]
      omega

/-- Witness of C16: the six coefficients `24, 1, 2, 3, 4, 5` give the period
24, the cosine coefficients `1, 2, 4` and the sine coefficients `0, 3, 5`;
five coefficients are refused. -/
theorem fourierSeries_constructor_spec_witness :
    FourierSeriesReferenceCorrection.create 0 100 [24, 1, 2, 3, 4, 5]
        = .ok { startTime_ := 0, endTime_ := 100, period_ := 24,
                cosineCoefficients_ := [1, 2, 4], sineCoefficients_ := [0, 3, 5] } ∧
      ∃ e, FourierSeriesReferenceCorrection.create 0 100 [24, 1, 2, 3, 4] = .error e := by
  obtain ⟨correction, hcreate, hperiod, hcos, hsin, -, -⟩ :=
    (fourierSeries_constructor_spec 0 100 [24, 1, 2, 3, 4, 5]).2.2 (by simp) (by simp)
  refine ⟨?_, (fourierSeries_constructor_spec 0 100 [24, 1, 2, 3, 4]).1.mpr (by simp)⟩
  have hstart : correction.startTime_ = 0 ∧ correction.endTime_ = 100 := by
    simp only [FourierSeriesReferenceCorrection.create] at hcreate
    split at hcreate
    · cases hcreate
    · split at hcreate
      · cases hcreate
      · split at hcreate
        · cases hcreate
        · split at hcreate
          · cases hcreate
          · simp only [Except.ok.injEq] at hcreate
            rw [← hcreate]
            exact ⟨rfl, rfl⟩
  rw [hcreate]
  obtain ⟨startTime, endTime, period, cosines, sines⟩ := correction
  simp only at hperiod hcos hsin hstart
  obtain ⟨rfl, rfl⟩ := hstart
  subst hperiod hcos hsin
  simp [List.range_succ]

/-! ## `TabulatedMediaReferenceCorrectionManager::computeMediaCorrection` (C17) -/

/-- C17, amended: `computeMediaCorrection` on a manager whose lookup scheme,
when flagged as up to date, is the scheme of its start times.  Without
correction objects the call raises its `std::runtime_error`, whatever the
time, and leaves the manager as it was.  Otherwise, with `i` the nearest lower
neighbour of `time` among the start times and `correction` the object at index
`i`, the outcome of the call is exactly the outcome of
`correction.computeReferenceCorrection( time )`, its value or its error, and
afterwards the lookup scheme is the scheme of the start times and is flagged
as up to date.  The call raises an error if and only if no correction object
has been provided, or `correctionVector_.at( i )` raises, or the selected
object raises. -/
theorem computeMediaCorrection_spec (huntingAlgorithmLookupScheme : List ℚ → LookUpScheme)
    (self : TabulatedMediaReferenceCorrectionManager) (time : ℚ)
    (hscheme : self.isLookupSchemeUpdated_ = true →
      self.startTimeLookupScheme_ = huntingAlgorithmLookupScheme self.startTimes_) :
    (self.correctionVector_ = [] →
      ∃ message, self.computeMediaCorrection huntingAlgorithmLookupScheme time
        = (.error (.runtime_error message), self)) ∧
    (∀ (i : ℕ) (correction : TabulatedMediaReferenceCorrection),
      (huntingAlgorithmLookupScheme self.startTimes_).findNearestLowerNeighbour time = (i : ℤ) →
      self.correctionVector_[i]? = some correction →
        (self.computeMediaCorrection huntingAlgorithmLookupScheme time).1
            = correction.computeReferenceCorrection time ∧
          (self.computeMediaCorrection huntingAlgorithmLookupScheme time).2.isLookupSchemeUpdated_
            = true ∧
          (self.computeMediaCorrection huntingAlgorithmLookupScheme time).2.startTimeLookupScheme_
            = huntingAlgorithmLookupScheme self.startTimes_ ∧
          (self.computeMediaCorrection huntingAlgorithmLookupScheme time).2.correctionVector_
            = self.correctionVector_ ∧
          (self.computeMediaCorrection huntingAlgorithmLookupScheme time).2.startTimes_
            = self.startTimes_) ∧
    ((∃ e, (self.computeMediaCorrection huntingAlgorithmLookupScheme time).1 = .error e) ↔
      (self.correctionVector_ = [] ∨
        (∃ e, vectorAt self.correctionVector_
          ((huntingAlgorithmLookupScheme self.startTimes_).findNearestLowerNeighbour time)
            = .error e) ∨
        ∃ correction e, vectorAt self.correctionVector_
            ((huntingAlgorithmLookupScheme self.startTimes_).findNearestLowerNeighbour time)
              = .ok correction ∧
          correction.computeReferenceCorrection time = .error e)) := by
  have hempty : self.correctionVector_ = [] →
      self.computeMediaCorrection huntingAlgorithmLookupScheme time
        = (.error (.runtime_error
            "Error when computing reference media correction: no correction object provided. "),
          self) := by
    intro h
    simp only [TabulatedMediaReferenceCorrectionManager.computeMediaCorrection, h,
      List.isEmpty_nil, if_true]
  have hgeneral : self.correctionVector_ ≠ [] →
      self.computeMediaCorrection huntingAlgorithmLookupScheme time
        = ((match vectorAt self.correctionVector_
              ((huntingAlgorithmLookupScheme self.startTimes_).findNearestLowerNeighbour time) with
            | .error e => .error e
            | .ok correction => correction.computeReferenceCorrection time),
            { self with
              startTimeLookupScheme_ := huntingAlgorithmLookupScheme self.startTimes_
              isLookupSchemeUpdated_ := true }) := by
    intro hnonempty
    clear hempty
    obtain ⟨correctionVector, startTimes, isLookupSchemeUpdated, startTimeLookupScheme⟩ := self
    simp only at hnonempty hscheme
    have hne : correctionVector.isEmpty = false := by
      cases correctionVector with
      | nil => exact absurd rfl hnonempty
      | cons c cs => rfl
    cases isLookupSchemeUpdated with
    | false =>
      simp only [TabulatedMediaReferenceCorrectionManager.computeMediaCorrection, hne,
        Bool.not_false, if_true]
      generalize vectorAt correctionVector _ = selected
      cases selected <;> rfl
    | true =>
      have hs := hscheme rfl
      subst hs
      simp only [TabulatedMediaReferenceCorrectionManager.computeMediaCorrection, hne,
        Bool.not_true, Bool.false_eq_true, if_false]
      generalize vectorAt correctionVector _ = selected
      cases selected <;> rfl
  refine ⟨fun h => ⟨_, hempty h⟩, ?_, ?_⟩
  · intro i correction hi hc
    have hnonempty : self.correctionVector_ ≠ [] := by
      intro hnil
      rw [hnil] at hc
      simp at hc
    rw [hgeneral hnonempty, hi, vectorAt_of_getElem? _ i correction hc]
    exact ⟨rfl, rfl, rfl, rfl, rfl⟩
  · by_cases hnil : self.correctionVector_ = []
    · rw [hempty hnil]
      exact ⟨fun _ => Or.inl hnil, fun _ => ⟨_, rfl⟩⟩
    · rw [hgeneral hnil]
      cases hat : vectorAt self.correctionVector_
          ((huntingAlgorithmLookupScheme self.startTimes_).findNearestLowerNeighbour time) with
      | error e0 =>
        exact ⟨fun _ => Or.inr (Or.inl ⟨e0, rfl⟩), fun _ => ⟨e0, rfl⟩⟩
      | ok correction =>
        constructor
        · rintro ⟨e, he⟩
          exact Or.inr (Or.inr ⟨correction, e, rfl, he⟩)
        · rintro (h | ⟨e, he⟩ | ⟨c, e, hc, he⟩)
          · exact absurd h hnil
          · cases he
          · cases hc
            exact ⟨e, he⟩

/-- Counterexample to C17 as worded: the example manager with three correction
objects, whose first object is valid from 0 to 10, raises an error at the time
-5, although correction objects have been provided. -/
theorem computeMediaCorrection_raises_with_corrections :
    exampleBoundedManager.correctionVector_ ≠ [] ∧
      (nearestLowerNeighbourScheme exampleBoundedManager.startTimes_).findNearestLowerNeighbour (-5)
        = 0 ∧
      ∃ message,
        (exampleBoundedManager.computeMediaCorrection nearestLowerNeighbourScheme (-5)).1
          = .error (.runtime_error message) := by
  have h0 : ¬ (0 : ℚ) ≤ -5 := by norm_num
  have hlookup :
      (nearestLowerNeighbourScheme [0, 10, 20]).findNearestLowerNeighbour (-5) = 0 := by
    simp [nearestLowerNeighbourScheme, List.takeWhile, h0]
  have hbefore : (-5 : ℚ) < 0 ∨ (-5 : ℚ) > 10 := Or.inl (by norm_num)
  refine ⟨by simp [exampleBoundedManager], hlookup, ?_⟩
  simp [TabulatedMediaReferenceCorrectionManager.computeMediaCorrection,
    exampleBoundedManager, hlookup, vectorAt, exampleBoundedCorrection]

/-- Witness of C17: the example manager at the time 12 selects its second
correction object (start times 0, 10, 20), returns its value `12 + 1` and flags the
lookup scheme as up to date; the manager without correction objects raises an
error. -/
theorem computeMediaCorrection_spec_witness :
    (exampleManager.computeMediaCorrection nearestLowerNeighbourScheme 12).1 = .ok 13 ∧
      (exampleManager.computeMediaCorrection nearestLowerNeighbourScheme 12).2.isLookupSchemeUpdated_
        = true ∧
      ∃ message, exampleEmptyManager.computeMediaCorrection nearestLowerNeighbourScheme 12
        = (.error (.runtime_error message), exampleEmptyManager) := by
  have hlookup : (nearestLowerNeighbourScheme exampleManager.startTimes_).findNearestLowerNeighbour 12
      = ((1 : ℕ) : ℤ) := by
    have h0 : (0 : ℚ) ≤ 12 := by norm_num
    have h10 : (10 : ℚ) ≤ 12 := by norm_num
    have h20 : ¬ (20 : ℚ) ≤ 12 := by norm_num
    simp [exampleManager, nearestLowerNeighbourScheme, List.takeWhile, h0, h10, h20]
  have h := (computeMediaCorrection_spec nearestLowerNeighbourScheme exampleManager 12
    (by simp [exampleManager])).2.1 1 ⟨fun time => .ok (time + 1)⟩ hlookup rfl
  refine ⟨?_, h.2.1, (computeMediaCorrection_spec nearestLowerNeighbourScheme exampleEmptyManager 12
    (by simp [exampleEmptyManager])).1 rfl⟩
  rw [h.1]
  norm_num

/-! ## `PiecewiseConstantFrequencyInterpolator::getCurrentFrequency` (C19, C20) -/

/-- C19: for an interpolator built by the constructor, with `i` the nearest
lower neighbour of `lookupTime` and `i + 1` a valid index of the reference
times, `getCurrentFrequency` returns `frequencies_[i]` when
`lookupTime - referenceTimes_[i] <= referenceTimes_[i+1] - lookupTime` (a tie
goes to the lower neighbour) and `frequencies_[i+1]` otherwise. -/
theorem constant_getCurrentFrequency_nearest
    (huntingAlgorithmLookupScheme : List ℚ → LookUpScheme)
    (frequencies referenceTimes : List ℚ) (timeIntervalsSize : ℚ)
    (self : PiecewiseConstantFrequencyInterpolator) (lookupTime : ℚ) (i : ℕ)
    (lowerTime higherTime : ℚ)
    (hcreate : PiecewiseConstantFrequencyInterpolator.create huntingAlgorithmLookupScheme
      frequencies referenceTimes timeIntervalsSize = .ok self)
    (hi : self.startTimeLookupScheme_.findNearestLowerNeighbour lookupTime = (i : ℤ))
    (hlower : self.referenceTimes_[i]? = some lowerTime)
    (hhigher : self.referenceTimes_[i + 1]? = some higherTime) :
    ∃ lowerFrequency higherFrequency : ℚ,
      self.frequencies_[i]? = some lowerFrequency ∧
      self.frequencies_[i + 1]? = some higherFrequency ∧
      (lookupTime - lowerTime ≤ higherTime - lookupTime →
        self.getCurrentFrequency lookupTime = .ok lowerFrequency) ∧
      (higherTime - lookupTime < lookupTime - lowerTime →
        self.getCurrentFrequency lookupTime = .ok higherFrequency) := by
  have hlen : self.frequencies_.length = self.referenceTimes_.length := by
    simp only [PiecewiseConstantFrequencyInterpolator.create] at hcreate
    split at hcreate
    · cases hcreate
    · rename_i hsize
      simp only [Except.ok.injEq] at hcreate
      rw [← hcreate]
      exact not_not.mp hsize
  have hbound : i + 1 < self.referenceTimes_.length := by
    by_contra hnot
    rw [List.getElem?_eq_none (not_lt.mp hnot)] at hhigher
    cases hhigher
  have hf0 : self.frequencies_[i]? = some (self.frequencies_.getD i 0) := by
    rw [List.getD_eq_getElem?_getD, List.getElem?_eq_getElem (by omega)]
    rfl
  have hf1 : self.frequencies_[i + 1]? = some (self.frequencies_.getD (i + 1) 0) := by
    rw [List.getD_eq_getElem?_getD, List.getElem?_eq_getElem (by omega)]
    rfl
  have hcast : (i : ℤ) + 1 = ((i + 1 : ℕ) : ℤ) := by push_cast; rfl
  have hnotlast : ¬ ((i : ℤ) = (self.referenceTimes_.length : ℤ) - 1) := by omega
  refine ⟨_, _, hf0, hf1, ?_, ?_⟩
  · intro hnear
    simp only [PiecewiseConstantFrequencyInterpolator.getCurrentFrequency, hi, hcast,
      vectorAt_of_getElem? _ i _ hlower, vectorAt_of_getElem? _ (i + 1) _ hhigher,
      vectorAt_of_getElem? _ i _ hf0, hnear, true_or, if_true]
  · intro hfar
    have hnear : ¬ (lookupTime - lowerTime ≤ higherTime - lookupTime) := not_le.mpr hfar
    simp only [PiecewiseConstantFrequencyInterpolator.getCurrentFrequency, hi,
      vectorAt_of_getElem? _ i _ hlower, hnotlast, hnear, or_self, if_false]
    simp only [hcast, vectorAt_of_getElem? _ (i + 1) _ hhigher,
      vectorAt_of_getElem? _ (i + 1) _ hf1, hnear, or_false, if_false]

/-- Witness of C19 on the example table (reference times 0, 10, 20): the time
14 is nearer to 10 than to 20 and gets the frequency 200 of the lower
neighbour, the time 16 gets the frequency 300 of the higher neighbour. -/
theorem constant_getCurrentFrequency_nearest_witness :
    PiecewiseConstantFrequencyInterpolator.create nearestLowerNeighbourScheme
        [100, 200, 300] [0, 10, 20] 10 = .ok exampleConstantTable ∧
      exampleConstantTable.getCurrentFrequency 14 = .ok 200 ∧
      exampleConstantTable.getCurrentFrequency 16 = .ok 300 := by
  have hcreate : PiecewiseConstantFrequencyInterpolator.create nearestLowerNeighbourScheme
      [100, 200, 300] [0, 10, 20] 10 = .ok exampleConstantTable := by
    simp [PiecewiseConstantFrequencyInterpolator.create, exampleConstantTable]
  have hlookup : ∀ t : ℚ, 10 ≤ t → t < 20 →
      exampleConstantTable.startTimeLookupScheme_.findNearestLowerNeighbour t
        = ((1 : ℕ) : ℤ) := by
    intro t h10 h20
    have h0 : (0 : ℚ) ≤ t := by linarith
    have hnot : ¬ (20 : ℚ) ≤ t := not_le.mpr h20
    simp [exampleConstantTable, nearestLowerNeighbourScheme, List.takeWhile, h0, h10, hnot]
  refine ⟨hcreate, ?_, ?_⟩
  · obtain ⟨lowerFrequency, higherFrequency, hf0, -, hnear, -⟩ :=
      constant_getCurrentFrequency_nearest nearestLowerNeighbourScheme [100, 200, 300]
        [0, 10, 20] 10 exampleConstantTable 14 1 10 20 hcreate
        (hlookup 14 (by norm_num) (by norm_num)) rfl rfl
    have hvalue : lowerFrequency = 200 := by
      simpa [exampleConstantTable] using hf0.symm
    rw [hnear (by norm_num), hvalue]
  · obtain ⟨lowerFrequency, higherFrequency, -, hf1, -, hfar⟩ :=
      constant_getCurrentFrequency_nearest nearestLowerNeighbourScheme [100, 200, 300]
        [0, 10, 20] 10 exampleConstantTable 16 1 10 20 hcreate
        (hlookup 16 (by norm_num) (by norm_num)) rfl rfl
    have hvalue : higherFrequency = 300 := by
      simpa [exampleConstantTable] using hf1.symm
    rw [hfar (by norm_num), hvalue]

/-- C20 (divergence of the code): whenever the nearest lower neighbour returned
by the lookup scheme is the last index `referenceTimes_.size( ) - 1`,
`getCurrentFrequency` does not return the last frequency: the access
`referenceTimes_.at( higherNearestNeighbour )` is evaluated before the test
`lowerNearestNeighbour == referenceTimes_.size( ) - 1`, and the call fails with
`std::out_of_range`. -/
theorem constant_getCurrentFrequency_last_index_out_of_range
    (self : PiecewiseConstantFrequencyInterpolator) (lookupTime : ℚ)
    (hlast : self.startTimeLookupScheme_.findNearestLowerNeighbour lookupTime
      = (self.referenceTimes_.length : ℤ) - 1) :
    self.getCurrentFrequency lookupTime = .error .out_of_range := by
  have hhigher : vectorAt self.referenceTimes_ ((self.referenceTimes_.length : ℤ) - 1 + 1)
      = .error .out_of_range := by
    have hcast : (self.referenceTimes_.length : ℤ) - 1 + 1
        = ((self.referenceTimes_.length : ℕ) : ℤ) := by ring
    rw [hcast]
    exact vectorAt_of_length_le _ _ (le_refl _)
  have hlower : ∀ e, vectorAt self.referenceTimes_ ((self.referenceTimes_.length : ℤ) - 1)
      = .error e → e = .out_of_range := by
    intro e he
    simp only [vectorAt] at he
    split at he
    · split at he
      · cases he
      · cases he
        rfl
    · cases he
      rfl
  simp only [PiecewiseConstantFrequencyInterpolator.getCurrentFrequency, hlast, hhigher]
  split
  · rename_i e he
    rw [hlower e he]
  · rfl

/-- The failing input of C20: the table built by the constructor from the
single frequency 5 at the reference time 0, asked for the frequency at the
time 0.  The lookup returns the index 0, which is the last index, and the call
fails with `std::out_of_range` instead of returning the frequency 5. -/
theorem constant_getCurrentFrequency_last_index_out_of_range_witness :
    PiecewiseConstantFrequencyInterpolator.create nearestLowerNeighbourScheme [5] [0] 1
        = .ok exampleSingleEntryTable ∧
      exampleSingleEntryTable.startTimeLookupScheme_.findNearestLowerNeighbour 0
        = (exampleSingleEntryTable.referenceTimes_.length : ℤ) - 1 ∧
      exampleSingleEntryTable.frequencies_.getLast? = some 5 ∧
      exampleSingleEntryTable.getCurrentFrequency 0 = .error .out_of_range := by
  have hlast : exampleSingleEntryTable.startTimeLookupScheme_.findNearestLowerNeighbour 0
      = (exampleSingleEntryTable.referenceTimes_.length : ℤ) - 1 := by
    simp [exampleSingleEntryTable, nearestLowerNeighbourScheme, List.takeWhile]
  exact ⟨by simp [PiecewiseConstantFrequencyInterpolator.create, exampleSingleEntryTable],
    hlast, rfl,
    constant_getCurrentFrequency_last_index_out_of_range exampleSingleEntryTable 0 hlast⟩

/-! ## `PiecewiseLinearFrequencyInterpolator::getFrequencyIntegral` (C18) -/

/-- On ramp 2 of the example ramp table, which runs from 20 to 30, the
frequency is the constant 40. -/
theorem exampleRampTable_frequency_ramp_two (t : ℚ) (h20 : 20 ≤ t) (h30 : t < 30) :
    exampleRampTable.getCurrentFrequency t = .ok 40 := by
  have hi := (exampleRampTable_lookup t).2.2 h20 h30
  have hend : ¬ t > 30 := not_lt.mpr (le_of_lt h30)
  have hstart : ¬ t < 20 := not_lt.mpr h20
  have hendTime : vectorAt exampleRampTable.endTimes_ ((2 : ℕ) : ℤ) = .ok 30 :=
    vectorAt_of_getElem? _ 2 30 rfl
  have hstartTime : vectorAt exampleRampTable.startTimes_ ((2 : ℕ) : ℤ) = .ok 20 :=
    vectorAt_of_getElem? _ 2 20 rfl
  have hfrequency : vectorAt exampleRampTable.startFrequencies_ ((2 : ℕ) : ℤ) = .ok 40 :=
    vectorAt_of_getElem? _ 2 40 rfl
  have hrate : vectorAt exampleRampTable.rampRates_ ((2 : ℕ) : ℤ) = .ok 0 :=
    vectorAt_of_getElem? _ 2 0 rfl
  simp only [PiecewiseLinearFrequencyInterpolator.getCurrentFrequency, hi, hendTime, hstartTime,
    hfrequency, hrate, if_neg hend, if_neg hstart]
  norm_num

/-- One round of the loop of `getFrequencyIntegral`: a ramp `i` that starts
before `quadratureEndTime` is appended to the quadrature nodes. -/
theorem collectFullRamps_step (self : PiecewiseLinearFrequencyInterpolator)
    (quadratureEndTime : ℚ) (i : ℕ) (quadratureTimes quadratureFrequencies : List ℚ)
    (startTime startFrequency : ℚ)
    (hstart : self.startTimes_[i]? = some startTime) (hbefore : startTime < quadratureEndTime)
    (hfrequency : self.startFrequencies_[i]? = some startFrequency) :
    self.collectFullRamps quadratureEndTime i quadratureTimes quadratureFrequencies
      = self.collectFullRamps quadratureEndTime (i + 1) (quadratureTimes ++ [startTime])
          (quadratureFrequencies ++ [startFrequency]) := by
  have hlen : i < self.startTimes_.length := by
    by_contra hnot
    rw [List.getElem?_eq_none (not_lt.mp hnot)] at hstart
    cases hstart
  have hget : self.startTimes_[i] = startTime := by
    rw [List.getElem?_eq_getElem hlen] at hstart
    exact Option.some.inj hstart
  rw [PiecewiseLinearFrequencyInterpolator.collectFullRamps]
  simp only [dif_pos hlen, hget, if_pos hbefore, vectorAt_of_getElem? _ i _ hfrequency]

/-- The loop of `getFrequencyIntegral` ends at the first ramp that does not
start before `quadratureEndTime`. -/
theorem collectFullRamps_stop (self : PiecewiseLinearFrequencyInterpolator)
    (quadratureEndTime : ℚ) (i : ℕ) (quadratureTimes quadratureFrequencies : List ℚ)
    (startTime : ℚ) (hstart : self.startTimes_[i]? = some startTime)
    (hafter : ¬ startTime < quadratureEndTime) :
    self.collectFullRamps quadratureEndTime i quadratureTimes quadratureFrequencies
      = .ok (quadratureTimes, quadratureFrequencies) := by
  have hlen : i < self.startTimes_.length := by
    by_contra hnot
    rw [List.getElem?_eq_none (not_lt.mp hnot)] at hstart
    cases hstart
  have hget : self.startTimes_[i] = startTime := by
    rw [List.getElem?_eq_getElem hlen] at hstart
    exact Option.some.inj hstart
  rw [PiecewiseLinearFrequencyInterpolator.collectFullRamps]
  simp only [dif_pos hlen, hget, if_neg hafter]

/-- The loop of `getFrequencyIntegral` ends after the last ramp. -/
theorem collectFullRamps_end (self : PiecewiseLinearFrequencyInterpolator)
    (quadratureEndTime : ℚ) (i : ℕ) (quadratureTimes quadratureFrequencies : List ℚ)
    (hlen : self.startTimes_.length ≤ i) :
    self.collectFullRamps quadratureEndTime i quadratureTimes quadratureFrequencies
      = .ok (quadratureTimes, quadratureFrequencies) := by
  rw [PiecewiseLinearFrequencyInterpolator.collectFullRamps]
  simp only [dif_neg (not_lt.mpr hlen)]

/-- The loop of `getFrequencyIntegral` on the example ramp table, for the
integral from 25 to 28: it appends the start times 10 and 20 of the ramps 1
and 2, which lie before the start of the integral, and stops at ramp 3, which
starts at 30. -/
theorem exampleRampTable_collectFullRamps :
    exampleRampTable.collectFullRamps 28 1 [25] [40] = .ok ([25, 10, 20], [40, 10, 40]) := by
  rw [collectFullRamps_step exampleRampTable 28 1 [25] [40] 10 10 rfl (by norm_num) rfl,
    collectFullRamps_step exampleRampTable 28 2 _ _ 20 40 rfl (by norm_num) rfl,
    collectFullRamps_stop exampleRampTable 28 3 _ _ 30 rfl (by norm_num)]
  rfl

/-- C18 (divergence of the code): on the example ramp table, which has strictly
increasing start times, contiguous ramps and a continuous frequency, the
frequency is the constant 40 from 25 to 28, so its integral over that interval
is 120, which is also what the trapezoidal rule over the nodes of the
specification (25 and 28) gives.  `getFrequencyIntegral` returns 195: its loop
starts at ramp 1 whatever the start time, so the nodes are 25, 10, 20, 28. -/
theorem linear_getFrequencyIntegral_example_diverges :
    exampleRampTable.IsContinuousRampTable ∧
      (∀ t : ℚ, 25 ≤ t → t ≤ 28 → exampleRampTable.getCurrentFrequency t = .ok 40) ∧
      exampleRampTable.specifiedQuadratureTimes 25 28 = [25, 28] ∧
      exampleRampTable.specifiedFrequencyIntegral 25 28 = .ok 120 ∧
      exampleRampTable.getFrequencyIntegral 25 28 = .ok 195 := by
  have h25 : exampleRampTable.getCurrentFrequency 25 = .ok 40 :=
    exampleRampTable_frequency_ramp_two 25 (by norm_num) (by norm_num)
  have h28 : exampleRampTable.getCurrentFrequency 28 = .ok 40 :=
    exampleRampTable_frequency_ramp_two 28 (by norm_num) (by norm_num)
  have hnodes : exampleRampTable.specifiedQuadratureTimes 25 28 = [25, 28] := by
    simp only [PiecewiseLinearFrequencyInterpolator.specifiedQuadratureTimes, exampleRampTable,
      PiecewiseLinearFrequencyInterpolator.create, List.filter]
    norm_num
  refine ⟨⟨?_, rfl, rfl, rfl, ?_⟩, ?_, hnodes, ?_, ?_⟩
  · simp only [exampleRampTable, PiecewiseLinearFrequencyInterpolator.create]
    norm_num
  · intro i hi
    have hi4 : i + 1 < 4 := hi
    have hi3 : i < 3 := by omega
    interval_cases i
    · simp only [exampleRampTable, PiecewiseLinearFrequencyInterpolator.create]
      norm_num
    · simp only [exampleRampTable, PiecewiseLinearFrequencyInterpolator.create]
      norm_num
    · simp only [exampleRampTable, PiecewiseLinearFrequencyInterpolator.create]
      norm_num
  · intro t hlow hhigh
    exact exampleRampTable_frequency_ramp_two t (by linarith) (by linarith)
  · simp only [PiecewiseLinearFrequencyInterpolator.specifiedFrequencyIntegral, hnodes,
      PiecewiseLinearFrequencyInterpolator.frequenciesAt, h25, h28, performTrapezoidalQuadrature]
    norm_num
  · simp only [PiecewiseLinearFrequencyInterpolator.getFrequencyIntegral, h25, h28,
      exampleRampTable_collectFullRamps, List.cons_append, List.nil_append,
      performTrapezoidalQuadrature]
    norm_num

end observation_models
end tudat
